import Mathlib

/-!
# Ranked choice voting: the tally engine of `rcv_funcs.c`

A shallow embedding of the tally engine (`vote_next_candidate`,
`tally_set_minvote_candidates`, `tally_condition`, `tally_add_vote`,
`tally_transfer_first_vote`, `tally_drop_minvote_candidates` and the round loop
of `tally_election`) and theorems about it.

Conventions of the embedding.

* C `int` values are `Int`. The only arithmetic the engine does on them is
  `+ 1` and `- 1` on vote counts and cursors. In a well-formed tally a count is
  the length of a list of ballots held in memory, which stays far from the
  limits of a machine `int`, so the functions do not model wrap-around. Where a
  statement is about every tally, well-formed or not, the limit matters:
  `tally_add_vote_int` is `tally_add_vote` with the count kept a 32-bit `int`,
  and the two agree whenever the count is an `int` below `INT_MAX`.
* An array is a `List`; an access outside the list is undefined behaviour in C
  and is the result `none` here. Every function that can make such an access
  returns an `Option`.
* The singly linked list of votes hanging off `candidate_votes[i]` (through
  `vote_t.next`) is the `List vote_t` of that candidate, head first.
* The three parallel arrays `candidate_status[]`, `candidate_votes[]` and
  `candidate_vote_counts[]` of `tally_t` are kept as one list of rows, row `i`
  holding the three entries of index `i`; `candidate_count` is the number of
  rows. `candidate_names[]` is only printed and is left out, as is every
  `printf`.
* `rcv.h` is not part of the sources, so `MAX_CANDIDATES` is a parameter of
  every function that uses it.
-/

namespace RCV

/-- The marker `NO_CANDIDATE`; `rcv_funcs.c` documents its value as `-1`. -/
def NO_CANDIDATE : Int := -1

/-- Modelled from the spec: `rcv.h` is not in the sources. The value of a
`candidate_status[]` entry: one of the three constants the code compares
against, or any other `char` value (`CAND_INVALID`). -/
inductive cand_status where
  | CAND_ACTIVE
  | CAND_MINVOTES
  | CAND_DROPPED
  | CAND_INVALID
deriving DecidableEq, Repr

open cand_status

/-- Modelled from the spec: `rcv.h` is not in the sources. The four results of
`tally_condition`. -/
inductive tally_cond where
  | TALLY_ERROR
  | TALLY_WINNER
  | TALLY_TIE
  | TALLY_CONTINUE
deriving DecidableEq, Repr

open tally_cond

/-- Modelled from the spec: `rcv.h` is not in the sources. A vote: the fields
`id`, `pos` (the cursor) and `candidate_order[]` that `rcv_funcs.c` uses; the
field `next` is the tail of the list the vote is in. -/
structure vote_t where
  id : Int
  pos : Int
  candidate_order : List Int
deriving DecidableEq, Repr

/-- Row `i` of the parallel arrays of `tally_t`: `candidate_status[i]`,
`candidate_votes[i]` and `candidate_vote_counts[i]`. -/
structure candidate_t where
  candidate_status : cand_status
  candidate_votes : List vote_t
  candidate_vote_counts : Int
deriving DecidableEq, Repr

/-- Modelled from the spec: `rcv.h` is not in the sources. A tally: the rows of
its candidates (`candidate_count` of them) and the Invalid Pool
(`invalid_votes`, `invalid_vote_count`) that the comments of `rcv_funcs.c`
name. No function of `rcv_funcs.c` reads or writes the Invalid Pool. -/
structure tally_t where
  candidates : List candidate_t
  invalid_votes : List vote_t
  invalid_vote_count : Int
deriving DecidableEq, Repr

/-- The field `candidate_count`. -/
def tally_t.candidate_count (tally : tally_t) : Nat := tally.candidates.length

/-- The array `candidate_status[]` of a tally. -/
def tally_t.candidate_status (tally : tally_t) : List cand_status :=
  tally.candidates.map candidate_t.candidate_status

/-- The read `xs[i]` of a C array at an `int` index: `none` outside the array. -/
def readAt {α : Type} (xs : List α) (i : Int) : Option α :=
  if 0 ≤ i then xs[i.toNat]? else none

/-- The loop `while(candidate_status[vote->candidate_order[vote->pos]] != CAND_ACTIVE) vote->pos += 1;`
of `vote_next_candidate`. The second argument is the part of `candidate_order[]`
from index `pos` on. The result is the final `pos` with the candidate there, or
`none` when the loop reads `candidate_order[]` or `candidate_status[]` outside
the array. -/
def next_active_loop (candidate_status : List cand_status) : List Int → Int → Option (Int × Int)
  | [], _ => none
  | c :: rest, pos =>
    match readAt candidate_status c with
    | none => none
    | some s =>
      if s ≠ CAND_ACTIVE then next_active_loop candidate_status rest (pos + 1)
      else some (pos, c)

/-- The function `vote_next_candidate`: the vote after the call and the value
returned, or `none` when an array is read out of bounds. -/
def vote_next_candidate (MAX_CANDIDATES : Nat) (vote : vote_t)
    (candidate_status : List cand_status) : Option (vote_t × Int) :=
  match readAt vote.candidate_order vote.pos with
  | none => none
  | some cur =>
    if cur ≠ NO_CANDIDATE ∧ cur < (MAX_CANDIDATES : Int) then
      match next_active_loop candidate_status
          (vote.candidate_order.drop (vote.pos + 1).toNat) (vote.pos + 1) with
      | none => none
      | some (p, c) => some ({ vote with pos := p }, c)
    else some (vote, NO_CANDIDATE)

/-- The first loop of `tally_set_minvote_candidates`: the running minimum of the
vote counts of the candidates that are not dropped. -/
def min_vote_loop (cands : List candidate_t) (min : Int) : Int :=
  cands.foldl
    (fun m cd =>
      if cd.candidate_status ≠ CAND_DROPPED ∧ cd.candidate_vote_counts < m
      then cd.candidate_vote_counts else m)
    min

/-- The function `tally_set_minvote_candidates`: `min` starts at 999, the first
loop lowers it, the second loop sets the status of every row whose count equals
`min`. -/
def tally_set_minvote_candidates (tally : tally_t) : tally_t :=
  let min := min_vote_loop tally.candidates 999
  { tally with
    candidates := tally.candidates.map fun cd =>
      if cd.candidate_vote_counts = min then { cd with candidate_status := CAND_MINVOTES }
      else cd }

/-- The loop of `tally_condition`: the numbers of active and of minimum-vote
candidates, or `none` when a status is none of the three constants (the early
`return TALLY_ERROR`). -/
def condition_loop : List candidate_t → Nat → Nat → Option (Nat × Nat)
  | [], active_cands, min_cands => some (active_cands, min_cands)
  | cd :: rest, active_cands, min_cands =>
    match cd.candidate_status with
    | CAND_ACTIVE => condition_loop rest (active_cands + 1) min_cands
    | CAND_MINVOTES => condition_loop rest active_cands (min_cands + 1)
    | CAND_DROPPED => condition_loop rest active_cands min_cands
    | CAND_INVALID => none

/-- The function `tally_condition`. -/
def tally_condition (tally : tally_t) : tally_cond :=
  match condition_loop tally.candidates 0 0 with
  | none => TALLY_ERROR
  | some (active_cands, min_cands) =>
    if active_cands = 1 then TALLY_WINNER
    else if active_cands > 1 then TALLY_CONTINUE
    else if active_cands = 0 ∧ min_cands > 1 then TALLY_TIE
    else TALLY_ERROR

/-- The function `tally_add_vote`: the vote is put in front of the list of the
candidate `candidate_order[pos]`, whose count goes up by one. -/
def tally_add_vote (tally : tally_t) (vote : vote_t) : Option tally_t :=
  match readAt vote.candidate_order vote.pos with
  | none => none
  | some cand_index =>
    match readAt tally.candidates cand_index with
    | none => none
    | some cd =>
      some { tally with
        candidates := tally.candidates.set cand_index.toNat
          { cd with
            candidate_votes := vote :: cd.candidate_votes
            candidate_vote_counts := cd.candidate_vote_counts + 1 } }

/-- The function `tally_transfer_first_vote`. -/
def tally_transfer_first_vote (MAX_CANDIDATES : Nat) (tally : tally_t)
    (candidate_index : Int) : Option tally_t :=
  match readAt tally.candidates candidate_index with
  | none => none
  | some cd =>
    if cd.candidate_vote_counts = 0 then some tally
    else
      match cd.candidate_votes with
      | [] => none
      | curr :: next =>
        let cd1 := { cd with candidate_votes := next }
        let tally1 := { tally with
          candidates := tally.candidates.set candidate_index.toNat cd1 }
        match readAt curr.candidate_order curr.pos with
        | none => none
        | some c =>
          if c = candidate_index then
            match vote_next_candidate MAX_CANDIDATES curr tally1.candidate_status with
            | none => none
            | some (curr1, _) =>
              let cd2 := { cd1 with candidate_vote_counts := cd1.candidate_vote_counts - 1 }
              let tally2 := { tally1 with
                candidates := tally1.candidates.set candidate_index.toNat cd2 }
              tally_add_vote tally2 curr1
          else some tally1

/-- The inner loop of `tally_drop_minvote_candidates`:
`tally_transfer_first_vote(tally, i)` called `count` times. -/
def transfer_loop (MAX_CANDIDATES : Nat) (i : Int) : Nat → tally_t → Option tally_t
  | 0, tally => some tally
  | count + 1, tally =>
    match tally_transfer_first_vote MAX_CANDIDATES tally i with
    | none => none
    | some tally1 => transfer_loop MAX_CANDIDATES i count tally1

/-- The assignment `tally->candidate_status[i] = s`. -/
def set_status (tally : tally_t) (i : Nat) (s : cand_status) : tally_t :=
  match tally.candidates[i]? with
  | none => tally
  | some cd =>
    { tally with candidates := tally.candidates.set i { cd with candidate_status := s } }

/-- The outer loop of `tally_drop_minvote_candidates` over the indices still to
visit. -/
def drop_loop (MAX_CANDIDATES : Nat) : List Nat → tally_t → Option tally_t
  | [], tally => some tally
  | i :: rest, tally =>
    match tally.candidates[i]? with
    | none => none
    | some cd =>
      if cd.candidate_status = CAND_MINVOTES then
        match transfer_loop MAX_CANDIDATES (i : Int) MAX_CANDIDATES tally with
        | none => none
        | some tally1 => drop_loop MAX_CANDIDATES rest (set_status tally1 i CAND_DROPPED)
      else drop_loop MAX_CANDIDATES rest tally

/-- The function `tally_drop_minvote_candidates`. -/
def tally_drop_minvote_candidates (MAX_CANDIDATES : Nat) (tally : tally_t) : Option tally_t :=
  drop_loop MAX_CANDIDATES (List.range tally.candidate_count) tally

/-- The body of the round loop of `tally_election`:
`tally_drop_minvote_candidates` then `tally_set_minvote_candidates`. -/
def election_round (MAX_CANDIDATES : Nat) (tally : tally_t) : Option tally_t :=
  (tally_drop_minvote_candidates MAX_CANDIDATES tally).map tally_set_minvote_candidates

/-- The round loop of `tally_election` run for at most `rounds` rounds: the
tally when the loop has exited or `rounds` rounds are done, `none` when a round
reads or writes out of bounds. -/
def election_rounds (MAX_CANDIDATES : Nat) : Nat → tally_t → Option tally_t
  | 0, tally => some tally
  | rounds + 1, tally =>
    if tally_condition tally = TALLY_CONTINUE then
      match election_round MAX_CANDIDATES tally with
      | none => none
      | some tally1 => election_rounds MAX_CANDIDATES rounds tally1
    else some tally

/-! ## Predicates and measures used by the statements -/

/-- Row `i` of a tally is consistent: its vote count is the length of its list
of votes, and every vote in the list has its cursor on candidate `i`. -/
def row_ok (i : Nat) (cd : candidate_t) : Prop :=
  cd.candidate_vote_counts = (cd.candidate_votes.length : Int) ∧
    ∀ v ∈ cd.candidate_votes, readAt v.candidate_order v.pos = some (i : Int)

instance (i : Nat) (cd : candidate_t) : Decidable (row_ok i cd) := by
  unfold row_ok
  infer_instance

/-- A well-formed tally: every row is consistent. -/
def well_formed (tally : tally_t) : Prop :=
  ∀ p ∈ tally.candidates.enum, row_ok p.1 p.2

instance (tally : tally_t) : Decidable (well_formed tally) := by
  unfold well_formed
  infer_instance

/-- The sum of the vote counts of all candidates. -/
def vote_count_sum (tally : tally_t) : Int :=
  (tally.candidates.map candidate_t.candidate_vote_counts).sum

/-- The number of ballots a tally holds: those in the candidates' lists and
those in the Invalid Pool. -/
def ballots_held (tally : tally_t) : Nat :=
  (tally.candidates.map fun cd => cd.candidate_votes.length).sum + tally.invalid_votes.length

/-- Every row of a list of rows is consistent with its index. -/
def rows_ok (rows : List candidate_t) : Prop :=
  ∀ i cd, rows[i]? = some cd → row_ok i cd

/-! ## Concrete tallies

A `candidate_order[]` is written with its leading slots only. The slots left out
hold `NO_CANDIDATE` (`vote_make_empty` fills the array with it); no call
evaluated below gets past the slots written without first reading
`candidate_status[]` at `NO_CANDIDATE`. -/

/-- A freshly ingested election of three candidates and five ballots:
candidates 0 and 1 hold two ballots each, candidate 2 holds one. -/
def small_election : tally_t :=
  ⟨[⟨CAND_ACTIVE, [⟨2, 0, [0, 2, 1, -1]⟩, ⟨1, 0, [0, 1, 2, -1]⟩], 2⟩,
    ⟨CAND_ACTIVE, [⟨4, 0, [1, 2, 0, -1]⟩, ⟨3, 0, [1, 0, 2, -1]⟩], 2⟩,
    ⟨CAND_ACTIVE, [⟨5, 0, [2, 0, 1, -1]⟩], 1⟩], [], 0⟩

/-- The tally `small_election` after its two rounds: candidate 2 was dropped and
its ballot went to candidate 0, then candidate 1 was marked. -/
def small_election_done : tally_t :=
  ⟨[⟨CAND_ACTIVE, [⟨5, 1, [2, 0, 1, -1]⟩, ⟨2, 0, [0, 2, 1, -1]⟩, ⟨1, 0, [0, 1, 2, -1]⟩], 3⟩,
    ⟨CAND_MINVOTES, [⟨4, 0, [1, 2, 0, -1]⟩, ⟨3, 0, [1, 0, 2, -1]⟩], 2⟩,
    ⟨CAND_DROPPED, [], 0⟩], [], 0⟩

/-- A freshly ingested election of two candidates with 1000 ballots each. -/
def crowd : tally_t :=
  ⟨[⟨CAND_ACTIVE, (List.range 1000).map (fun (n : Nat) => ⟨(n : Int) + 1, 0, [0, 1]⟩), 1000⟩,
    ⟨CAND_ACTIVE, (List.range 1000).map (fun (n : Nat) => ⟨(n : Int) + 1001, 0, [1, 0]⟩), 1000⟩],
    [], 0⟩

/-- A tally in which candidate 0 is dropped and holds no ballot, candidate 1 is
active and holds no ballot, and candidate 2 is active with two ballots. -/
def dropped_and_empty : tally_t :=
  ⟨[⟨CAND_DROPPED, [], 0⟩, ⟨CAND_ACTIVE, [], 0⟩,
    ⟨CAND_ACTIVE, [⟨2, 0, [2, 1, 0, -1]⟩, ⟨1, 1, [0, 2, 1, -1]⟩], 2⟩], [], 0⟩

/-- A tally of four candidates: candidate 0 dropped (no ballot), candidate 1
active with two ballots, candidate 2 active with none, candidate 3 active with
one. -/
def dropped_tied : tally_t :=
  ⟨[⟨CAND_DROPPED, [], 0⟩,
    ⟨CAND_ACTIVE, [⟨2, 0, [1, 3, 2, 0, -1]⟩, ⟨1, 0, [1, 2, 3, 0, -1]⟩], 2⟩,
    ⟨CAND_ACTIVE, [], 0⟩,
    ⟨CAND_ACTIVE, [⟨3, 0, [3, 1, 2, 0, -1]⟩], 1⟩], [], 0⟩

/-- The vote of the example in the comment of `vote_next_candidate`, with its
cursor on position 3. -/
def doc_vote : vote_t := ⟨17, 3, [2, 0, 3, 1, -1]⟩

/-- The status array of the example in the comment of `vote_next_candidate`. -/
def doc_status : List cand_status := [CAND_DROPPED, CAND_DROPPED, CAND_DROPPED, CAND_ACTIVE]

/-- A tally in which candidate 2 is at the minimum and holds one ballot whose
next preference, candidate 1, is dropped and whose preference after that,
candidate 0, is active. -/
def transfer_example : tally_t :=
  ⟨[⟨CAND_ACTIVE, [⟨1, 0, [0, 1, 2, -1]⟩], 1⟩, ⟨CAND_DROPPED, [], 0⟩,
    ⟨CAND_MINVOTES, [⟨2, 0, [2, 1, 0, -1]⟩], 1⟩], [], 0⟩

/-- The tally `transfer_example` after the ballot of candidate 2 has been
transferred. -/
def transfer_example_done : tally_t :=
  ⟨[⟨CAND_ACTIVE, [⟨2, 2, [2, 1, 0, -1]⟩, ⟨1, 0, [0, 1, 2, -1]⟩], 2⟩, ⟨CAND_DROPPED, [], 0⟩,
    ⟨CAND_MINVOTES, [], 0⟩], [], 0⟩

/-- A tally in which candidate 0 is at the minimum and its only ballot ranks
candidate 0 alone: the slot after it holds `NO_CANDIDATE`. -/
def exhausted_example : tally_t :=
  ⟨[⟨CAND_MINVOTES, [⟨1, 0, [0, -1]⟩], 1⟩, ⟨CAND_ACTIVE, [⟨2, 0, [1, 0]⟩], 1⟩], [], 0⟩

/-- A tally of two candidates in which candidate 0 is at the minimum and holds
`n + 1` ballots, each ranking candidate 0 then candidate 1, and candidate 1 is
active. -/
def overfull (n : Nat) : tally_t :=
  ⟨[⟨CAND_MINVOTES, (List.range (n + 1)).map (fun (k : Nat) => ⟨(k : Int) + 1, 0, [0, 1]⟩),
      (n : Int) + 1⟩,
    ⟨CAND_ACTIVE, [], 0⟩], [], 0⟩

/-! ## The whole round loop, and more predicates -/

/-- How a run of the round loop of `tally_election` ends: the loop exits after
`round` rounds with the tally `tally`; or a round reads or writes out of bounds;
or the loop is still running when the rounds allowed are used up. -/
inductive election_run where
  | finished (round : Nat) (tally : tally_t)
  | undefined
  | unfinished
deriving DecidableEq, Repr

/-- The loop `while(tally_condition(tally) == TALLY_CONTINUE)` of
`tally_election`, allowed `fuel` rounds from here; `round` is the C variable
`round`. -/
def election_loop (MAX_CANDIDATES : Nat) : Nat → Nat → tally_t → election_run
  | 0, round, tally =>
    if tally_condition tally = TALLY_CONTINUE then election_run.unfinished
    else election_run.finished round tally
  | fuel + 1, round, tally =>
    if tally_condition tally = TALLY_CONTINUE then
      match election_round MAX_CANDIDATES tally with
      | none => election_run.undefined
      | some tally1 => election_loop MAX_CANDIDATES fuel (round + 1) tally1
    else election_run.finished round tally

/-- The function `tally_election`, allowed `fuel` rounds: `round` starts at 0.
What it prints at the end is decided by `tally_condition` of the final tally. -/
def tally_election (MAX_CANDIDATES fuel : Nat) (tally : tally_t) : election_run :=
  election_loop MAX_CANDIDATES fuel 0 tally

/-- The number of candidates with status `CAND_ACTIVE`. -/
def active_count (tally : tally_t) : Nat := tally.candidate_status.count CAND_ACTIVE

/-- The number of candidates with status `CAND_MINVOTES`. -/
def minvotes_count (tally : tally_t) : Nat := tally.candidate_status.count CAND_MINVOTES

/-- Every candidate status is one of the three constants. -/
def statuses_valid (tally : tally_t) : Prop := CAND_INVALID ∉ tally.candidate_status

instance (tally : tally_t) : Decidable (statuses_valid tally) := by
  unfold statuses_valid
  infer_instance

/-- The ids of the ballots in the candidates' lists, list after list. A ballot
is identified by its `id` (in C, by its address). -/
def ballot_ids (tally : tally_t) : List Int :=
  (tally.candidates.map fun cd => cd.candidate_votes.map vote_t.id).flatten

/-- No ballot occurs twice in the candidates' lists: not in two lists, and (as
in a linked list) not twice in one. -/
def distinct_ballots (tally : tally_t) : Prop := (ballot_ids tally).Nodup

instance (tally : tally_t) : Decidable (distinct_ballots tally) := by
  unfold distinct_ballots
  infer_instance

/-- A ballot as `tally_from_file` leaves it in the list of candidate `i` of a
four-candidate election: its cursor is on position 0, which holds `i`, and its
first four ranking entries are the four candidates in some order. -/
def fresh_ballot (i : Int) (v : vote_t) : Prop :=
  v.pos = 0 ∧ readAt v.candidate_order 0 = some i ∧ (v.candidate_order.take 4).Perm [0, 1, 2, 3]

instance (i : Int) (v : vote_t) : Decidable (fresh_ballot i v) := by
  unfold fresh_ballot
  infer_instance

/-- A freshly ingested tally of four candidates: all active, candidate `i`
holding the ballots `l i` with a vote count equal to their number. -/
def fresh_tally4 (l0 l1 l2 l3 : List vote_t) (invalid_votes : List vote_t)
    (invalid_vote_count : Int) : tally_t :=
  ⟨[⟨CAND_ACTIVE, l0, (l0.length : Int)⟩, ⟨CAND_ACTIVE, l1, (l1.length : Int)⟩,
    ⟨CAND_ACTIVE, l2, (l2.length : Int)⟩, ⟨CAND_ACTIVE, l3, (l3.length : Int)⟩],
    invalid_votes, invalid_vote_count⟩

/-- The ending of scenario A: candidate 3 is dropped, and either the outcome is
`TALLY_WINNER` with a candidate holding four votes, or it is `TALLY_TIE` with two
candidates holding three votes each. -/
def scenario_a_end (tally : tally_t) : Prop :=
  tally.candidate_status[3]? = some CAND_DROPPED ∧
    ((tally_condition tally = TALLY_WINNER ∧
        (4 : Int) ∈ tally.candidates.map candidate_t.candidate_vote_counts) ∨
      (tally_condition tally = TALLY_TIE ∧
        (tally.candidates.map candidate_t.candidate_vote_counts).count 3 = 2))

instance (tally : tally_t) : Decidable (scenario_a_end tally) := by
  unfold scenario_a_end
  infer_instance

/-- The course of scenario A: round 1 marks candidate 3 alone; after round 2
candidate 3 is dropped and is the only dropped candidate; the loop exits after
three rounds (given at least three) with the ending `scenario_a_end`. -/
def scenario_a_course (MAX_CANDIDATES fuel : Nat) (tally : tally_t) : Prop :=
  (election_rounds MAX_CANDIDATES 1 tally).map tally_t.candidate_status
      = some [CAND_ACTIVE, CAND_ACTIVE, CAND_ACTIVE, CAND_MINVOTES] ∧
    (∃ tally2, election_rounds MAX_CANDIDATES 2 tally = some tally2 ∧
      tally2.candidate_status[3]? = some CAND_DROPPED ∧
      tally2.candidate_status.count CAND_DROPPED = 1) ∧
    ∃ tally3, tally_election MAX_CANDIDATES (fuel + 3) tally = election_run.finished 3 tally3 ∧
      scenario_a_end tally3

/-- A freshly ingested election with one candidate and two ballots. -/
def single_candidate : tally_t :=
  ⟨[⟨CAND_ACTIVE, [⟨2, 0, [0, -1]⟩, ⟨1, 0, [0, -1]⟩], 2⟩], [], 0⟩

/-- The tally `small_election` after its first classification and the drop that
follows: candidate 2 is dropped and its ballot is in front of the list of
candidate 0. -/
def small_election_dropped : tally_t :=
  ⟨[⟨CAND_ACTIVE, [⟨5, 1, [2, 0, 1, -1]⟩, ⟨2, 0, [0, 2, 1, -1]⟩, ⟨1, 0, [0, 1, 2, -1]⟩], 3⟩,
    ⟨CAND_ACTIVE, [⟨4, 0, [1, 2, 0, -1]⟩, ⟨3, 0, [1, 0, 2, -1]⟩], 2⟩,
    ⟨CAND_DROPPED, [], 0⟩], [], 0⟩

/-- The tally `transfer_example` after the ballot 3, which ranks candidate 0
first, has been added. -/
def transfer_example_added : tally_t :=
  ⟨[⟨CAND_ACTIVE, [⟨3, 0, [0, 2, 1, -1]⟩, ⟨1, 0, [0, 1, 2, -1]⟩], 2⟩, ⟨CAND_DROPPED, [], 0⟩,
    ⟨CAND_MINVOTES, [⟨2, 0, [2, 1, 0, -1]⟩], 1⟩], [], 0⟩

/-- A freshly ingested election of four candidates and six ballots: candidate 0
holds three ballots, candidate 1 two, candidate 2 one and candidate 3 none; the
ballot of candidate 2 ranks candidate 1 next. -/
def scenario_a_tie : tally_t :=
  fresh_tally4
    [⟨3, 0, [0, 1, 2, 3, -1]⟩, ⟨2, 0, [0, 2, 1, 3, -1]⟩, ⟨1, 0, [0, 3, 2, 1, -1]⟩]
    [⟨5, 0, [1, 0, 2, 3, -1]⟩, ⟨4, 0, [1, 2, 3, 0, -1]⟩]
    [⟨6, 0, [2, 1, 0, 3, -1]⟩] [] [] 0

/-- The tally `scenario_a_tie` when the loop of `tally_election` exits:
candidates 0 and 1 hold three ballots each and are both at the minimum. -/
def scenario_a_tie_done : tally_t :=
  ⟨[⟨CAND_MINVOTES,
      [⟨3, 0, [0, 1, 2, 3, -1]⟩, ⟨2, 0, [0, 2, 1, 3, -1]⟩, ⟨1, 0, [0, 3, 2, 1, -1]⟩], 3⟩,
    ⟨CAND_MINVOTES,
      [⟨6, 1, [2, 1, 0, 3, -1]⟩, ⟨5, 0, [1, 0, 2, 3, -1]⟩, ⟨4, 0, [1, 2, 3, 0, -1]⟩], 3⟩,
    ⟨CAND_DROPPED, [], 0⟩, ⟨CAND_DROPPED, [], 0⟩], [], 0⟩

/-- A freshly ingested election of four candidates and six ballots: candidate 0
holds three ballots, candidate 1 two, candidate 2 one and candidate 3 none; the
ballot of candidate 2 ranks candidate 0 next. -/
def scenario_a_win : tally_t :=
  fresh_tally4
    [⟨3, 0, [0, 1, 2, 3, -1]⟩, ⟨2, 0, [0, 2, 1, 3, -1]⟩, ⟨1, 0, [0, 3, 2, 1, -1]⟩]
    [⟨5, 0, [1, 0, 2, 3, -1]⟩, ⟨4, 0, [1, 2, 3, 0, -1]⟩]
    [⟨6, 0, [2, 0, 1, 3, -1]⟩] [] [] 0

/-- The tally `transfer_example` after `tally_drop_minvote_candidates`: the ballot
of candidate 2 is with candidate 0 and candidate 2 is dropped. -/
def transfer_example_dropped : tally_t :=
  ⟨[⟨CAND_ACTIVE, [⟨2, 2, [2, 1, 0, -1]⟩, ⟨1, 0, [0, 1, 2, -1]⟩], 2⟩, ⟨CAND_DROPPED, [], 0⟩,
    ⟨CAND_DROPPED, [], 0⟩], [], 0⟩

/-! ## Predicates of the last claims -/

/-- From `tally` to `tally1` no candidate that is not active gains a vote: a
row that is not `CAND_ACTIVE` in `tally` is still there in `tally1`, still not
active, with a vote count that is not larger. -/
def no_gain_for_inactive (tally tally1 : tally_t) : Prop :=
  ∀ (n : Nat) (cd : candidate_t), tally.candidates[n]? = some cd →
    cd.candidate_status ≠ CAND_ACTIVE →
    ∃ cd1, tally1.candidates[n]? = some cd1 ∧ cd1.candidate_status ≠ CAND_ACTIVE ∧
      cd1.candidate_vote_counts ≤ cd.candidate_vote_counts

/-- All the ballots in the candidates' lists. -/
def ballots (tally : tally_t) : List vote_t :=
  (tally.candidates.map candidate_t.candidate_votes).flatten

/-- The ballot `v1` is the ballot `v` later on: same id, same ranking, and a
cursor that is not before the cursor of `v`. -/
def advanced (v v1 : vote_t) : Prop :=
  v1.id = v.id ∧ v1.candidate_order = v.candidate_order ∧ v.pos ≤ v1.pos

instance (v v1 : vote_t) : Decidable (advanced v v1) := by
  unfold advanced
  infer_instance

/-- Every ballot of `tally1` is a ballot of `tally` later on. -/
def ballots_advanced (tally tally1 : tally_t) : Prop :=
  ∀ v1 ∈ ballots tally1, ∃ v ∈ ballots tally, advanced v v1

instance (tally tally1 : tally_t) : Decidable (ballots_advanced tally tally1) := by
  unfold ballots_advanced
  infer_instance

/-- Every ballot of `tally` is still in `tally1`, later on. -/
def ballots_kept (tally tally1 : tally_t) : Prop :=
  ∀ v ∈ ballots tally, ∃ v1 ∈ ballots tally1, advanced v v1

instance (tally tally1 : tally_t) : Decidable (ballots_kept tally tally1) := by
  unfold ballots_kept
  infer_instance

/-! ## Complete ballots and the calls of `vote_next_candidate` -/

/-- The ranking of the ballot lists each of the `n` candidates exactly once: its
first `n` entries are the candidates `0 .. n-1` in some order. -/
def complete_ballot (n : Nat) (v : vote_t) : Prop :=
  (v.candidate_order.take n).Perm ((List.range n).map fun (k : Nat) => (k : Int))

instance (n : Nat) (v : vote_t) : Decidable (complete_ballot n v) := by
  unfold complete_ballot
  infer_instance

/-- A freshly ingested well-formed tally of complete ballots: every candidate
is active, and every ballot has its cursor on position 0 and a ranking that
lists each candidate exactly once. -/
def fresh_tally (tally : tally_t) : Prop :=
  well_formed tally ∧ (∀ s ∈ tally.candidate_status, s = CAND_ACTIVE) ∧
    ∀ v ∈ ballots tally, v.pos = 0 ∧ complete_ballot tally.candidate_count v

instance (tally : tally_t) : Decidable (fresh_tally tally) := by
  unfold fresh_tally
  infer_instance

/-- The call `vote_next_candidate(curr, tally->candidate_status)` that
`tally_transfer_first_vote(tally, candidate_index)` makes, with its arguments as
they are at the call: a list of one call, or of none when the function returns
before the call (or reads out of bounds before it). -/
def transfer_calls (tally : tally_t) (candidate_index : Int) : List (vote_t × List cand_status) :=
  match readAt tally.candidates candidate_index with
  | none => []
  | some cd =>
    if cd.candidate_vote_counts = 0 then []
    else
      match cd.candidate_votes with
      | [] => []
      | curr :: next =>
        let cd1 := { cd with candidate_votes := next }
        let tally1 := { tally with
          candidates := tally.candidates.set candidate_index.toNat cd1 }
        match readAt curr.candidate_order curr.pos with
        | none => []
        | some c =>
          if c = candidate_index then [(curr, tally1.candidate_status)]
          else []

/-- The calls of `vote_next_candidate` made by the drain loop of
`tally_drop_minvote_candidates` for candidate `i`, in order. -/
def transfer_loop_calls (MAX_CANDIDATES : Nat) (i : Int) :
    Nat → tally_t → List (vote_t × List cand_status)
  | 0, _ => []
  | count + 1, tally =>
    transfer_calls tally i ++
      match tally_transfer_first_vote MAX_CANDIDATES tally i with
      | none => []
      | some tally1 => transfer_loop_calls MAX_CANDIDATES i count tally1

/-- The calls of `vote_next_candidate` made by the outer loop of
`tally_drop_minvote_candidates` over the indices still to visit, in order. -/
def drop_loop_calls (MAX_CANDIDATES : Nat) :
    List Nat → tally_t → List (vote_t × List cand_status)
  | [], _ => []
  | i :: rest, tally =>
    match tally.candidates[i]? with
    | none => []
    | some cd =>
      if cd.candidate_status = CAND_MINVOTES then
        transfer_loop_calls MAX_CANDIDATES (i : Int) MAX_CANDIDATES tally ++
          match transfer_loop MAX_CANDIDATES (i : Int) MAX_CANDIDATES tally with
          | none => []
          | some tally1 => drop_loop_calls MAX_CANDIDATES rest (set_status tally1 i CAND_DROPPED)
      else drop_loop_calls MAX_CANDIDATES rest tally

/-- The calls of `vote_next_candidate` made during the first `fuel` rounds of
`tally_election`, in order. -/
def election_calls (MAX_CANDIDATES : Nat) : Nat → tally_t → List (vote_t × List cand_status)
  | 0, _ => []
  | fuel + 1, tally =>
    if tally_condition tally = TALLY_CONTINUE then
      drop_loop_calls MAX_CANDIDATES (List.range tally.candidate_count) tally ++
        match election_round MAX_CANDIDATES tally with
        | none => []
        | some tally1 => election_calls MAX_CANDIDATES fuel tally1
    else []

/-- The call `vote_next_candidate(vote, candidate_status)` reads inside its
arrays, the status array has `n` entries, and the call stops with the cursor at
a ranking position below `n` that holds an active candidate, which it returns. -/
def stops_at_active (MAX_CANDIDATES n : Nat) (call : vote_t × List cand_status) : Prop :=
  call.2.length = n ∧
    match vote_next_candidate MAX_CANDIDATES call.1 call.2 with
    | none => False
    | some (vote1, r) =>
      readAt call.2 r = some CAND_ACTIVE ∧ readAt vote1.candidate_order vote1.pos = some r ∧
        call.1.pos < vote1.pos ∧ vote1.pos < (n : Int)

instance (MAX_CANDIDATES n : Nat) (call : vote_t × List cand_status) :
    Decidable (stops_at_active MAX_CANDIDATES n call) := by
  unfold stops_at_active
  cases vote_next_candidate MAX_CANDIDATES call.1 call.2 with
  | none => infer_instance
  | some p => cases p; infer_instance

/-- What holds of a ballot all along an election of `n` candidates with the
status array `st`: its ranking is complete, its cursor is at a position below
`n`, and every candidate ranked before the cursor is not active. -/
def ballot_inv (n : Nat) (st : List cand_status) (v : vote_t) : Prop :=
  complete_ballot n v ∧ 0 ≤ v.pos ∧ v.pos < (n : Int) ∧
    ∀ j : Nat, (j : Int) < v.pos → ∃ x s, v.candidate_order[j]? = some x ∧
      readAt st x = some s ∧ s ≠ CAND_ACTIVE

/-- What holds of the tally all along an election of `n` candidates with
complete ballots: it has `n` rows, it is well-formed, and every ballot satisfies
`ballot_inv`. -/
def election_inv (n : Nat) (tally : tally_t) : Prop :=
  tally.candidates.length = n ∧ well_formed tally ∧
    ∀ v ∈ ballots tally, ballot_inv n tally.candidate_status v

/-! ## The vote count as a machine `int` -/

/-- The largest value of a C `int` (32 bits). -/
def INT_MAX : Int := 2147483647

/-- The smallest value of a C `int` (32 bits). -/
def INT_MIN : Int := -2147483648

/-- The `int` that holds the result `x` of an `int` operation: `x` itself when it
is between `INT_MIN` and `INT_MAX`, and `x` reduced modulo `2^32` into that range
otherwise (what the compiled code computes; the C standard leaves a signed
overflow undefined). -/
def int_wrap (x : Int) : Int := (x - INT_MIN) % 4294967296 + INT_MIN

/-- The function `tally_add_vote` with `candidate_vote_counts[cand_index] += 1`
as the operation on a 32-bit `int` that it is in C. -/
def tally_add_vote_int (tally : tally_t) (vote : vote_t) : Option tally_t :=
  match readAt vote.candidate_order vote.pos with
  | none => none
  | some cand_index =>
    match readAt tally.candidates cand_index with
    | none => none
    | some cd =>
      some { tally with
        candidates := tally.candidates.set cand_index.toNat
          { cd with
            candidate_votes := vote :: cd.candidate_votes
            candidate_vote_counts := int_wrap (cd.candidate_vote_counts + 1) } }

/-- A tally built by hand in which the vote count of candidate 0 is `INT_MAX`. -/
def count_at_int_max : tally_t :=
  ⟨[⟨CAND_ACTIVE, [], 2147483647⟩, ⟨CAND_ACTIVE, [], 0⟩], [], 0⟩

/-! ## Array reads -/

theorem readAt_ofNat {α : Type} (xs : List α) (i : Nat) : readAt xs (i : Int) = xs[i]? := by
  simp [readAt]

theorem readAt_some_iff {α : Type} (xs : List α) (i : Int) (a : α) :
    readAt xs i = some a ↔ 0 ≤ i ∧ xs[i.toNat]? = some a := by
  unfold readAt
  split <;> simp_all

theorem readAt_some_nat {α : Type} {xs : List α} {i : Int} {a : α} (h : readAt xs i = some a) :
    ∃ n : Nat, i = (n : Int) ∧ xs[n]? = some a := by
  obtain ⟨h0, h1⟩ := (readAt_some_iff xs i a).1 h
  exact ⟨i.toNat, by omega, h1⟩

/-! ## The cursor loop -/

theorem next_active_loop_found (st : List cand_status) :
    ∀ (k : Nat) (rest : List Int) (pos d : Int),
      (∀ j, j < k → ∃ c s, rest[j]? = some c ∧ readAt st c = some s ∧ s ≠ CAND_ACTIVE) →
      rest[k]? = some d → readAt st d = some CAND_ACTIVE →
      next_active_loop st rest pos = some (pos + k, d) := by
  intro k
  induction k with
  | zero =>
    intro rest pos d _ hd hact
    cases rest with
    | nil => simp at hd
    | cons c rest =>
      simp at hd
      subst hd
      simp [next_active_loop, hact]
  | succ k ih =>
    intro rest pos d hskip hd hact
    cases rest with
    | nil => simp at hd
    | cons c rest =>
      obtain ⟨c0, s, hc0, hs, hne⟩ := hskip 0 (Nat.succ_pos k)
      simp at hc0
      subst hc0
      have hrec := ih rest (pos + 1) d
        (fun j hj => by simpa using hskip (j + 1) (Nat.succ_lt_succ hj))
        (by simpa using hd) hact
      simp [next_active_loop, hs, hne, hrec]
      omega

/-- What the cursor loop returns: a position not before its start, holding the
returned candidate, whose status is active. -/
theorem next_active_loop_some (st : List cand_status) :
    ∀ (rest : List Int) (pos p d : Int),
      next_active_loop st rest pos = some (p, d) →
      pos ≤ p ∧ rest[(p - pos).toNat]? = some d ∧ readAt st d = some CAND_ACTIVE := by
  intro rest
  induction rest with
  | nil => intro pos p d h; simp [next_active_loop] at h
  | cons c rest ih =>
    intro pos p d h
    unfold next_active_loop at h
    cases hs : readAt st c with
    | none => simp [hs] at h
    | some s =>
      simp only [hs] at h
      by_cases hact : s = CAND_ACTIVE
      · simp [hact] at h
        obtain ⟨h1, h2⟩ := h
        subst h1 h2
        simp [hs, hact]
      · simp [hact] at h
        obtain ⟨h1, h2, h3⟩ := ih (pos + 1) p d h
        refine ⟨by omega, ?_, h3⟩
        have : (p - pos).toNat = (p - (pos + 1)).toNat + 1 := by omega
        rw [this]
        simpa using h2

/-- What `vote_next_candidate` returns: the ranking and the id are kept, the
cursor does not move back, and the value returned is either `NO_CANDIDATE`
with the vote untouched or the active candidate under the new cursor. -/
theorem vote_next_candidate_some (M : Nat) (vote vote1 : vote_t) (st : List cand_status)
    (r : Int) (h : vote_next_candidate M vote st = some (vote1, r)) :
    vote1.candidate_order = vote.candidate_order ∧ vote1.id = vote.id ∧ vote.pos ≤ vote1.pos ∧
      ((vote1 = vote ∧ r = NO_CANDIDATE ∧
          ∃ cur, readAt vote.candidate_order vote.pos = some cur ∧
            ¬ (cur ≠ NO_CANDIDATE ∧ cur < (M : Int))) ∨
        (vote.pos < vote1.pos ∧ readAt vote1.candidate_order vote1.pos = some r ∧
          readAt st r = some CAND_ACTIVE)) := by
  unfold vote_next_candidate at h
  cases hcur : readAt vote.candidate_order vote.pos with
  | none => simp [hcur] at h
  | some cur =>
    simp only [hcur] at h
    by_cases hg : cur ≠ NO_CANDIDATE ∧ cur < (M : Int)
    · rw [if_pos hg] at h
      cases hl : next_active_loop st (vote.candidate_order.drop (vote.pos + 1).toNat)
          (vote.pos + 1) with
      | none => simp [hl] at h
      | some pc =>
        obtain ⟨p, c⟩ := pc
        simp only [hl, Option.some.injEq, Prod.mk.injEq] at h
        obtain ⟨h1, h2⟩ := h
        subst h1 h2
        obtain ⟨hp, hget, hact⟩ := next_active_loop_some st _ _ _ _ hl
        have hpos : 0 ≤ vote.pos := ((readAt_some_iff _ _ _).1 hcur).1
        refine ⟨rfl, rfl, ?_, Or.inr ⟨?_, ?_, hact⟩⟩
        · show vote.pos ≤ p
          omega
        · show vote.pos < p
          omega
        rw [List.getElem?_drop] at hget
        have hp0 : 0 ≤ p := by omega
        have hidx : (vote.pos + 1).toNat + (p - (vote.pos + 1)).toNat = p.toNat := by omega
        rw [hidx] at hget
        show readAt vote.candidate_order p = some c
        exact (readAt_some_iff _ _ _).2 ⟨hp0, hget⟩
    · rw [if_neg hg] at h
      simp only [Option.some.injEq, Prod.mk.injEq] at h
      obtain ⟨h1, h2⟩ := h
      subst h1 h2
      exact ⟨rfl, rfl, le_refl _, Or.inl ⟨rfl, rfl, cur, rfl, hg⟩⟩

/-! ## Rows of a tally -/

theorem well_formed_iff (tally : tally_t) : well_formed tally ↔ rows_ok tally.candidates := by
  unfold well_formed rows_ok
  constructor
  · intro h i cd hi
    exact h (i, cd) (List.mk_mem_enum_iff_getElem?.2 hi)
  · intro h p hp
    obtain ⟨i, cd⟩ := p
    exact h i cd (List.mk_mem_enum_iff_getElem?.1 hp)

theorem rows_ok_set (rows : List candidate_t) (i : Nat) (a : candidate_t)
    (h : rows_ok rows) (ha : row_ok i a) : rows_ok (rows.set i a) := by
  intro n cd hn
  rw [List.getElem?_set] at hn
  by_cases hin : i = n
  · subst hin
    by_cases hlt : i < rows.length
    · simp [hlt] at hn
      subst hn
      exact ha
    · simp [hlt] at hn
  · simp [hin] at hn
    exact h n cd hn

theorem sum_map_set {α : Type} (f : α → Int) :
    ∀ (l : List α) (i : Nat) (x a : α), l[i]? = some x →
      ((l.set i a).map f).sum = (l.map f).sum - f x + f a := by
  intro l
  induction l with
  | nil => intro i x a h; simp at h
  | cons y l ih =>
    intro i x a h
    cases i with
    | zero =>
      simp at h
      subst h
      simp
      omega
    | succ i =>
      simp at h
      simp only [List.set_cons_succ, List.map_cons, List.sum_cons, ih i x a h]
      omega

theorem map_set_same {α β : Type} (f : α → β) :
    ∀ (l : List α) (i : Nat) (x a : α), l[i]? = some x → f a = f x →
      (l.set i a).map f = l.map f := by
  intro l
  induction l with
  | nil => intro i x a h; simp at h
  | cons y l ih =>
    intro i x a h hf
    cases i with
    | zero =>
      simp at h
      subst h
      simp [hf]
    | succ i =>
      simp at h
      simp [ih i x a h hf]

/-! ## A single transfer -/

/-- The ways a call of `tally_transfer_first_vote` can return: the candidate
has count 0 and nothing changes; or the front vote is unlinked and, its cursor
not being on the candidate, nothing more happens; or the front vote is unlinked,
advanced by `vote_next_candidate`, the count goes down by one, and the vote is
added in front of the row its cursor is now on. -/
theorem transfer_some (M : Nat) (t t1 : tally_t) (c : Int)
    (h : tally_transfer_first_vote M t c = some t1) :
    ∃ (i : Nat) (cd : candidate_t), c = (i : Int) ∧ t.candidates[i]? = some cd ∧
      ((cd.candidate_vote_counts = 0 ∧ t1 = t) ∨
        ∃ curr next, cd.candidate_votes = curr :: next ∧ cd.candidate_vote_counts ≠ 0 ∧
          ((readAt curr.candidate_order curr.pos ≠ some c ∧
              t1 = ⟨t.candidates.set i ⟨cd.candidate_status, next, cd.candidate_vote_counts⟩,
                t.invalid_votes, t.invalid_vote_count⟩) ∨
            ∃ (curr1 : vote_t) (r : Int) (j : Nat) (cdj : candidate_t),
              readAt curr.candidate_order curr.pos = some c ∧
              vote_next_candidate M curr t.candidate_status = some (curr1, r) ∧
              readAt curr1.candidate_order curr1.pos = some (j : Int) ∧
              (t.candidates.set i
                ⟨cd.candidate_status, next, cd.candidate_vote_counts - 1⟩)[j]? = some cdj ∧
              t1 = ⟨(t.candidates.set i
                    ⟨cd.candidate_status, next, cd.candidate_vote_counts - 1⟩).set j
                    ⟨cdj.candidate_status, curr1 :: cdj.candidate_votes,
                      cdj.candidate_vote_counts + 1⟩,
                t.invalid_votes, t.invalid_vote_count⟩)) := by
  unfold tally_transfer_first_vote at h
  cases hrow : readAt t.candidates c with
  | none => simp [hrow] at h
  | some cd =>
    obtain ⟨i, hci, hi⟩ := readAt_some_nat hrow
    subst hci
    refine ⟨i, cd, rfl, hi, ?_⟩
    simp only [hrow] at h
    by_cases h0 : cd.candidate_vote_counts = 0
    · simp [h0] at h
      exact Or.inl ⟨h0, h.symm⟩
    · rw [if_neg h0] at h
      right
      cases hv : cd.candidate_votes with
      | nil => simp [hv] at h
      | cons curr next =>
        refine ⟨curr, next, rfl, h0, ?_⟩
        simp only [hv] at h
        cases hcur : readAt curr.candidate_order curr.pos with
        | none => simp [hcur] at h
        | some x =>
          simp only [hcur] at h
          by_cases hx : x = (i : Int)
          · right
            subst hx
            simp only [if_true] at h
            have hst : tally_t.candidate_status
                ⟨t.candidates.set (i : Int).toNat ⟨cd.candidate_status, next, cd.candidate_vote_counts⟩,
                  t.invalid_votes, t.invalid_vote_count⟩ = t.candidate_status := by
              simp only [tally_t.candidate_status, Int.toNat_ofNat]
              exact map_set_same _ _ _ cd _ hi rfl
            rw [hst] at h
            cases hn : vote_next_candidate M curr t.candidate_status with
            | none => simp [hn] at h
            | some res =>
              obtain ⟨curr1, r⟩ := res
              simp only [hn, Int.toNat_ofNat, List.set_set] at h
              unfold tally_add_vote at h
              cases hc1 : readAt curr1.candidate_order curr1.pos with
              | none => simp [hc1] at h
              | some y =>
                simp only [hc1] at h
                cases hy : readAt (t.candidates.set i
                    ⟨cd.candidate_status, next, cd.candidate_vote_counts - 1⟩) y with
                | none => simp [hy] at h
                | some cdj =>
                  obtain ⟨j, hyj, hj⟩ := readAt_some_nat hy
                  subst hyj
                  simp only [hy, Int.toNat_ofNat, Option.some.injEq] at h
                  exact ⟨curr1, r, j, cdj, rfl, rfl, hc1, hj, h.symm⟩
          · left
            rw [if_neg hx] at h
            simp only [Int.toNat_ofNat, Option.some.injEq] at h
            refine ⟨?_, h.symm⟩
            intro hc
            exact hx (Option.some.inj hc)

/-! ## What a transfer keeps -/

theorem transfer_candidate_status (M : Nat) (t t1 : tally_t) (c : Int)
    (h : tally_transfer_first_vote M t c = some t1) :
    t1.candidate_status = t.candidate_status := by
  obtain ⟨i, cd, _, hi, hcase⟩ := transfer_some M t t1 c h
  rcases hcase with ⟨_, rfl⟩ | ⟨curr, next, _, _, hcase⟩
  · rfl
  · rcases hcase with ⟨_, rfl⟩ | ⟨curr1, r, j, cdj, _, _, _, hj, rfl⟩
    · exact map_set_same candidate_t.candidate_status t.candidates i cd _ hi rfl
    · have h1 := map_set_same candidate_t.candidate_status _ j cdj
        ⟨cdj.candidate_status, curr1 :: cdj.candidate_votes, cdj.candidate_vote_counts + 1⟩ hj rfl
      have h2 := map_set_same candidate_t.candidate_status t.candidates i cd
        ⟨cd.candidate_status, next, cd.candidate_vote_counts - 1⟩ hi rfl
      exact h1.trans h2

theorem transfer_invalid_pool (M : Nat) (t t1 : tally_t) (c : Int)
    (h : tally_transfer_first_vote M t c = some t1) :
    t1.invalid_votes = t.invalid_votes ∧ t1.invalid_vote_count = t.invalid_vote_count := by
  obtain ⟨i, cd, _, hi, hcase⟩ := transfer_some M t t1 c h
  rcases hcase with ⟨_, rfl⟩ | ⟨curr, next, _, _, hcase⟩
  · exact ⟨rfl, rfl⟩
  · rcases hcase with ⟨_, rfl⟩ | ⟨curr1, r, j, cdj, _, _, _, hj, rfl⟩
    · exact ⟨rfl, rfl⟩
    · exact ⟨rfl, rfl⟩

theorem transfer_vote_count_sum (M : Nat) (t t1 : tally_t) (c : Int)
    (h : tally_transfer_first_vote M t c = some t1) :
    vote_count_sum t1 = vote_count_sum t := by
  obtain ⟨i, cd, _, hi, hcase⟩ := transfer_some M t t1 c h
  rcases hcase with ⟨_, rfl⟩ | ⟨curr, next, _, _, hcase⟩
  · rfl
  · rcases hcase with ⟨_, rfl⟩ | ⟨curr1, r, j, cdj, _, _, _, hj, rfl⟩
    · exact congrArg List.sum
        (map_set_same candidate_t.candidate_vote_counts t.candidates i cd
          ⟨cd.candidate_status, next, cd.candidate_vote_counts⟩ hi rfl)
    · have h1 := sum_map_set candidate_t.candidate_vote_counts _ j cdj
        ⟨cdj.candidate_status, curr1 :: cdj.candidate_votes, cdj.candidate_vote_counts + 1⟩ hj
      have h2 := sum_map_set candidate_t.candidate_vote_counts t.candidates i cd
        ⟨cd.candidate_status, next, cd.candidate_vote_counts - 1⟩ hi
      show (List.map candidate_t.candidate_vote_counts _).sum
        = (List.map candidate_t.candidate_vote_counts t.candidates).sum
      rw [h1, h2]
      simp only
      omega

theorem transfer_well_formed (M : Nat) (t t1 : tally_t) (c : Int) (hwf : well_formed t)
    (h : tally_transfer_first_vote M t c = some t1) : well_formed t1 := by
  rw [well_formed_iff] at hwf ⊢
  obtain ⟨i, cd, hc, hi, hcase⟩ := transfer_some M t t1 c h
  have hcd : row_ok i cd := hwf i cd hi
  rcases hcase with ⟨_, rfl⟩ | ⟨curr, next, hv, _, hcase⟩
  · exact hwf
  · have hcur : readAt curr.candidate_order curr.pos = some c := by
      rw [hc]
      exact hcd.2 curr (by rw [hv]; exact List.mem_cons_self _ _)
    have hrow1 : row_ok i ⟨cd.candidate_status, next, cd.candidate_vote_counts - 1⟩ := by
      refine ⟨?_, ?_⟩
      · have := hcd.1
        rw [hv] at this
        simp only [List.length_cons, Nat.cast_add, Nat.cast_one] at this
        show cd.candidate_vote_counts - 1 = (next.length : Int)
        omega
      · intro v hvm
        exact hcd.2 v (by rw [hv]; exact List.mem_cons_of_mem _ hvm)
    rcases hcase with ⟨hne, _⟩ | ⟨curr1, r, j, cdj, _, _, hc1, hj, rfl⟩
    · exact absurd hcur hne
    · have hrows1 := rows_ok_set t.candidates i _ hwf hrow1
      have hcdj : row_ok j cdj := hrows1 j cdj hj
      refine rows_ok_set _ j _ hrows1 ⟨?_, ?_⟩
      · have := hcdj.1
        show cdj.candidate_vote_counts + 1 = ((curr1 :: cdj.candidate_votes).length : Int)
        simp only [List.length_cons, Nat.cast_add, Nat.cast_one]
        omega
      · intro v hvm
        rcases List.mem_cons.1 hvm with rfl | hvm
        · exact hc1
        · exact hcdj.2 v hvm

theorem transfer_candidate_count (M : Nat) (t t1 : tally_t) (c : Int)
    (h : tally_transfer_first_vote M t c = some t1) :
    t1.candidate_count = t.candidate_count := by
  have := congrArg List.length (transfer_candidate_status M t t1 c h)
  simpa [tally_t.candidate_status, tally_t.candidate_count] using this

/-! ## The loops of the drop -/

theorem transfer_loop_keeps (M : Nat) (i : Int) :
    ∀ (count : Nat) (t t1 : tally_t), transfer_loop M i count t = some t1 →
      t1.candidate_status = t.candidate_status ∧ vote_count_sum t1 = vote_count_sum t ∧
        t1.invalid_votes = t.invalid_votes ∧ t1.invalid_vote_count = t.invalid_vote_count ∧
        (well_formed t → well_formed t1) := by
  intro count
  induction count with
  | zero =>
    intro t t1 h
    simp [transfer_loop] at h
    subst h
    exact ⟨rfl, rfl, rfl, rfl, id⟩
  | succ count ih =>
    intro t t1 h
    unfold transfer_loop at h
    cases hs : tally_transfer_first_vote M t i with
    | none => simp [hs] at h
    | some t2 =>
      simp only [hs] at h
      obtain ⟨h1, h2, h3, h4, h5⟩ := ih t2 t1 h
      have hp := transfer_invalid_pool M t t2 i hs
      exact ⟨h1.trans (transfer_candidate_status M t t2 i hs),
        h2.trans (transfer_vote_count_sum M t t2 i hs), h3.trans hp.1, h4.trans hp.2,
        fun hwf => h5 (transfer_well_formed M t t2 i hwf hs)⟩

theorem set_status_keeps (t : tally_t) (i : Nat) (s : cand_status) :
    vote_count_sum (set_status t i s) = vote_count_sum t ∧
      (set_status t i s).invalid_votes = t.invalid_votes ∧
      (set_status t i s).invalid_vote_count = t.invalid_vote_count ∧
      (well_formed t → well_formed (set_status t i s)) := by
  unfold set_status
  cases hi : t.candidates[i]? with
  | none => exact ⟨rfl, rfl, rfl, id⟩
  | some cd =>
    refine ⟨?_, rfl, rfl, ?_⟩
    · exact congrArg List.sum
        (map_set_same candidate_t.candidate_vote_counts t.candidates i cd
          ⟨s, cd.candidate_votes, cd.candidate_vote_counts⟩ hi rfl)
    · intro hwf
      rw [well_formed_iff] at hwf ⊢
      exact rows_ok_set t.candidates i _ hwf (hwf i cd hi)

theorem drop_loop_keeps (M : Nat) :
    ∀ (idx : List Nat) (t t1 : tally_t), drop_loop M idx t = some t1 →
      vote_count_sum t1 = vote_count_sum t ∧
        t1.invalid_votes = t.invalid_votes ∧ t1.invalid_vote_count = t.invalid_vote_count ∧
        (well_formed t → well_formed t1) := by
  intro idx
  induction idx with
  | nil =>
    intro t t1 h
    simp [drop_loop] at h
    subst h
    exact ⟨rfl, rfl, rfl, id⟩
  | cons i rest ih =>
    intro t t1 h
    unfold drop_loop at h
    cases hi : t.candidates[i]? with
    | none => simp [hi] at h
    | some cd =>
      simp only [hi] at h
      by_cases hm : cd.candidate_status = CAND_MINVOTES
      · rw [if_pos hm] at h
        cases hl : transfer_loop M (i : Int) M t with
        | none => simp [hl] at h
        | some t2 =>
          simp only [hl] at h
          obtain ⟨_, k2, k3, k4, k5⟩ := transfer_loop_keeps M i M t t2 hl
          obtain ⟨s1, s2, s3, s4⟩ := set_status_keeps t2 i CAND_DROPPED
          obtain ⟨h1, h2, h3, h4⟩ := ih _ t1 h
          exact ⟨h1.trans (s1.trans k2), h2.trans (s2.trans k3), h3.trans (s3.trans k4),
            fun hwf => h4 (s4 (k5 hwf))⟩
      · rw [if_neg hm] at h
        exact ih t t1 h

theorem set_minvote_keeps (t : tally_t) :
    vote_count_sum (tally_set_minvote_candidates t) = vote_count_sum t ∧
      (tally_set_minvote_candidates t).invalid_votes = t.invalid_votes ∧
      (tally_set_minvote_candidates t).invalid_vote_count = t.invalid_vote_count ∧
      (well_formed t → well_formed (tally_set_minvote_candidates t)) := by
  refine ⟨?_, rfl, rfl, ?_⟩
  · unfold vote_count_sum tally_set_minvote_candidates
    simp only [List.map_map]
    congr 1
    apply List.map_congr_left
    intro cd _
    simp only [Function.comp]
    split <;> rfl
  · intro hwf
    rw [well_formed_iff] at hwf ⊢
    intro i cd hi
    unfold tally_set_minvote_candidates at hi
    simp only [List.getElem?_map] at hi
    cases hrow : t.candidates[i]? with
    | none => simp [hrow] at hi
    | some cd0 =>
      simp only [hrow, Option.map_some', Option.some.injEq] at hi
      have h0 := hwf i cd0 hrow
      subst hi
      split
      · exact h0
      · exact h0

theorem election_round_keeps (M : Nat) (t t1 : tally_t) (h : election_round M t = some t1) :
    vote_count_sum t1 = vote_count_sum t ∧
      t1.invalid_votes = t.invalid_votes ∧ t1.invalid_vote_count = t.invalid_vote_count ∧
      (well_formed t → well_formed t1) := by
  unfold election_round at h
  cases hd : tally_drop_minvote_candidates M t with
  | none => simp [hd] at h
  | some t2 =>
    simp only [hd, Option.map_some', Option.some.injEq] at h
    subst h
    obtain ⟨d1, d2, d3, d4⟩ := drop_loop_keeps M _ t t2 hd
    obtain ⟨s1, s2, s3, s4⟩ := set_minvote_keeps t2
    exact ⟨s1.trans d1, s2.trans d2, s3.trans d3, fun hwf => s4 (d4 hwf)⟩

theorem election_rounds_keeps (M : Nat) :
    ∀ (rounds : Nat) (t t1 : tally_t), election_rounds M rounds t = some t1 →
      vote_count_sum t1 = vote_count_sum t ∧
        t1.invalid_votes = t.invalid_votes ∧ t1.invalid_vote_count = t.invalid_vote_count ∧
        (well_formed t → well_formed t1) := by
  intro rounds
  induction rounds with
  | zero =>
    intro t t1 h
    simp [election_rounds] at h
    subst h
    exact ⟨rfl, rfl, rfl, id⟩
  | succ rounds ih =>
    intro t t1 h
    unfold election_rounds at h
    by_cases hc : tally_condition t = TALLY_CONTINUE
    · rw [if_pos hc] at h
      cases hr : election_round M t with
      | none => simp [hr] at h
      | some t2 =>
        simp only [hr] at h
        obtain ⟨r1, r2, r3, r4⟩ := election_round_keeps M t t2 hr
        obtain ⟨h1, h2, h3, h4⟩ := ih t2 t1 h
        exact ⟨h1.trans r1, h2.trans r2, h3.trans r3, fun hwf => h4 (r4 hwf)⟩
    · rw [if_neg hc] at h
      simp only [Option.some.injEq] at h
      subst h
      exact ⟨rfl, rfl, rfl, id⟩

theorem well_formed_vote_count_sum (t : tally_t) (hwf : well_formed t) :
    vote_count_sum t = ((t.candidates.map fun cd => cd.candidate_votes.length).sum : Nat) := by
  have hrows : ∀ cd ∈ t.candidates, cd.candidate_vote_counts = (cd.candidate_votes.length : Int) := by
    intro cd hcd
    obtain ⟨n, hn⟩ := List.mem_iff_getElem?.1 hcd
    exact ((well_formed_iff t).1 hwf n cd hn).1
  unfold vote_count_sum
  generalize t.candidates = l at hrows
  induction l with
  | nil => simp
  | cons cd l ih =>
    simp only [List.map_cons, List.sum_cons, Nat.cast_add]
    rw [ih (fun x hx => hrows x (List.mem_cons_of_mem _ hx)), hrows cd (List.mem_cons_self _ _)]

theorem vote_next_candidate_found (MAX_CANDIDATES : Nat) (vote : vote_t)
    (candidate_status : List cand_status) (cur d : Int) (k : Nat)
    (hcur : readAt vote.candidate_order vote.pos = some cur)
    (hvalid : cur ≠ NO_CANDIDATE ∧ cur < (MAX_CANDIDATES : Int))
    (hskip : ∀ j, j < k → ∃ c s, readAt vote.candidate_order (vote.pos + 1 + (j : Int)) = some c ∧
      readAt candidate_status c = some s ∧ s ≠ CAND_ACTIVE)
    (hd : readAt vote.candidate_order (vote.pos + 1 + (k : Int)) = some d)
    (hact : readAt candidate_status d = some CAND_ACTIVE) :
    vote_next_candidate MAX_CANDIDATES vote candidate_status
      = some (⟨vote.id, vote.pos + 1 + (k : Int), vote.candidate_order⟩, d) := by
  have hpos : 0 ≤ vote.pos := ((readAt_some_iff _ _ _).1 hcur).1
  have hidx : ∀ j : Nat, (vote.candidate_order.drop (vote.pos + 1).toNat)[j]?
      = readAt vote.candidate_order (vote.pos + 1 + (j : Int)) := by
    intro j
    have h0 : (0 : Int) ≤ vote.pos + 1 + (j : Int) := by omega
    have h1 : (vote.pos + 1 + (j : Int)).toNat = (vote.pos + 1).toNat + j := by omega
    simp [readAt, h0, h1, List.getElem?_drop]
  have hloop := next_active_loop_found candidate_status k
    (vote.candidate_order.drop (vote.pos + 1).toNat) (vote.pos + 1) d
    (fun j hj => by rw [hidx]; exact hskip j hj) (by rw [hidx]; exact hd) hact
  simp [vote_next_candidate, hcur, hvalid, hloop]

/-- The result of a transfer whose front vote finds a next active candidate
`d` other than `c`. -/
theorem transfer_found (M : Nat) (t : tally_t) (c d k : Nat) (cd cdd : candidate_t)
    (curr : vote_t) (next : List vote_t)
    (hc : t.candidates[c]? = some cd) (hvotes : cd.candidate_votes = curr :: next)
    (hcount : cd.candidate_vote_counts ≠ 0)
    (hcursor : readAt curr.candidate_order curr.pos = some (c : Int))
    (hcM : c < M)
    (hskip : ∀ j, j < k → ∃ x s, readAt curr.candidate_order (curr.pos + 1 + (j : Int)) = some x ∧
      readAt t.candidate_status x = some s ∧ s ≠ CAND_ACTIVE)
    (hd : readAt curr.candidate_order (curr.pos + 1 + (k : Int)) = some (d : Int))
    (hdrow : t.candidates[d]? = some cdd) (hact : cdd.candidate_status = CAND_ACTIVE)
    (hne : d ≠ c) :
    tally_transfer_first_vote M t (c : Int) =
      some ⟨(t.candidates.set c ⟨cd.candidate_status, next, cd.candidate_vote_counts - 1⟩).set d
          ⟨cdd.candidate_status,
            ⟨curr.id, curr.pos + 1 + (k : Int), curr.candidate_order⟩ :: cdd.candidate_votes,
            cdd.candidate_vote_counts + 1⟩,
        t.invalid_votes, t.invalid_vote_count⟩ := by
  have hst : tally_t.candidate_status
      ⟨t.candidates.set c ⟨cd.candidate_status, next, cd.candidate_vote_counts⟩,
        t.invalid_votes, t.invalid_vote_count⟩ = t.candidate_status :=
    map_set_same candidate_t.candidate_status t.candidates c cd _ hc rfl
  have hactd : readAt t.candidate_status (d : Int) = some CAND_ACTIVE := by
    rw [readAt_ofNat]
    simp [tally_t.candidate_status, List.getElem?_map, hdrow, hact]
  have hvalid : (c : Int) ≠ NO_CANDIDATE ∧ (c : Int) < (M : Int) := by
    refine ⟨?_, by exact_mod_cast hcM⟩
    unfold NO_CANDIDATE
    omega
  have hnext := vote_next_candidate_found M curr t.candidate_status c d k hcursor hvalid hskip hd
    hactd
  have hrow : readAt t.candidates (c : Int) = some cd := by rw [readAt_ofNat]; exact hc
  have hrowd : readAt (t.candidates.set c ⟨cd.candidate_status, next, cd.candidate_vote_counts - 1⟩)
      (d : Int) = some cdd := by
    rw [readAt_ofNat, List.getElem?_set_ne (Ne.symm hne)]
    exact hdrow
  unfold tally_transfer_first_vote
  simp only [hrow, hcount, if_false, hvotes, hcursor, if_true, Int.toNat_ofNat, hst, hnext,
    List.set_set]
  unfold tally_add_vote
  simp only [hd, hrowd, Int.toNat_ofNat]

/-! ## Facts about the concrete tallies -/

theorem row_ok_map_range (i : Nat) (s : cand_status) (f : Nat → vote_t) (l : List Nat) (n : Int)
    (hn : n = (l.length : Int))
    (hf : ∀ k, readAt (f k).candidate_order (f k).pos = some (i : Int)) :
    row_ok i ⟨s, l.map f, n⟩ := by
  refine ⟨by simp [hn], ?_⟩
  intro v hv
  obtain ⟨k, _, rfl⟩ := List.mem_map.1 hv
  exact hf k

theorem crowd_well_formed : well_formed crowd := by
  rw [well_formed_iff]
  intro i cd hi
  match i, hi with
  | 0, hi =>
    simp only [crowd, List.getElem?_cons_zero, Option.some.injEq] at hi
    subst hi
    exact row_ok_map_range 0 _ _ _ _ (by rw [List.length_range]; rfl) (fun _ => rfl)
  | 1, hi =>
    simp only [crowd, List.getElem?_cons_succ, List.getElem?_cons_zero, Option.some.injEq] at hi
    subst hi
    exact row_ok_map_range 1 _ _ _ _ (by rw [List.length_range]; rfl) (fun _ => rfl)
  | n + 2, hi => simp [crowd] at hi

/-- One transfer out of candidate 0 of a two-candidate tally whose front ballot
ranks candidate 0 then the active candidate 1. -/
theorem overfull_step (M : Nat) (v : vote_t) (vs ws : List vote_t) (n m : Int)
    (hpos : v.pos = 0) (horder : v.candidate_order = [0, 1]) (hn : n ≠ 0) :
    tally_transfer_first_vote (M + 1)
        ⟨[⟨CAND_MINVOTES, v :: vs, n⟩, ⟨CAND_ACTIVE, ws, m⟩], [], 0⟩ 0
      = some ⟨[⟨CAND_MINVOTES, vs, n - 1⟩, ⟨CAND_ACTIVE, ⟨v.id, 1, [0, 1]⟩ :: ws, m + 1⟩], [], 0⟩ := by
  have hM : ((0 : Int) < (M : Int) + 1) := by omega
  simp [tally_transfer_first_vote, readAt, vote_next_candidate, next_active_loop, NO_CANDIDATE,
    tally_t.candidate_status, tally_add_vote, hpos, horder, hn, hM]

theorem overfull_loop (M : Nat) :
    ∀ (count : Nat) (vs ws : List vote_t) (n m : Int),
      (∀ v ∈ vs, v.pos = 0 ∧ v.candidate_order = [0, 1]) → count ≤ vs.length →
      (count : Int) < n →
      ∃ ws1, transfer_loop (M + 1) 0 count
          ⟨[⟨CAND_MINVOTES, vs, n⟩, ⟨CAND_ACTIVE, ws, m⟩], [], 0⟩
        = some ⟨[⟨CAND_MINVOTES, vs.drop count, n - count⟩,
            ⟨CAND_ACTIVE, ws1, m + count⟩], [], 0⟩ := by
  intro count
  induction count with
  | zero =>
    intro vs ws n m _ _ _
    exact ⟨ws, by simp [transfer_loop]⟩
  | succ count ih =>
    intro vs ws n m hvs hlen hn
    cases vs with
    | nil => simp at hlen
    | cons v vs =>
      have hv := hvs v (List.mem_cons_self _ _)
      have hn0 : n ≠ 0 := by
        have : (0 : Int) ≤ (count : Int) := Int.ofNat_nonneg _
        push_cast at hn
        omega
      obtain ⟨ws1, h1⟩ := ih vs (⟨v.id, 1, [0, 1]⟩ :: ws) (n - 1) (m + 1)
        (fun x hx => hvs x (List.mem_cons_of_mem _ hx))
        (by simpa using hlen) (by push_cast at hn; omega)
      refine ⟨ws1, ?_⟩
      unfold transfer_loop
      rw [overfull_step M v vs ws n m hv.1 hv.2 hn0]
      simp only [h1, List.drop_succ_cons]
      push_cast
      have e1 : n - 1 - (count : Int) = n - ((count : Int) + 1) := by omega
      have e2 : m + 1 + (count : Int) = m + ((count : Int) + 1) := by omega
      rw [e1, e2]

/-- With `MAX_CANDIDATES = M + 1`, the drop of `overfull (M + 1)` leaves the last
ballot of candidate 0 where it is. -/
theorem overfull_drop (M : Nat) :
    well_formed (overfull (M + 1)) ∧
      ∃ tally1, tally_drop_minvote_candidates (M + 1) (overfull (M + 1)) = some tally1 ∧
        tally1.candidates[0]? = some ⟨CAND_DROPPED, [⟨(M : Int) + 2, 0, [0, 1]⟩], 1⟩ := by
  constructor
  · rw [well_formed_iff]
    intro i cd hi
    match i, hi with
    | 0, hi =>
      simp only [overfull, List.getElem?_cons_zero, Option.some.injEq] at hi
      subst hi
      exact row_ok_map_range 0 _ _ _ _ (by rw [List.length_range]; push_cast; ring) (fun _ => rfl)
    | 1, hi =>
      simp only [overfull, List.getElem?_cons_succ, List.getElem?_cons_zero,
        Option.some.injEq] at hi
      subst hi
      exact ⟨rfl, fun v hv => by simp at hv⟩
    | n + 2, hi => simp [overfull] at hi
  · obtain ⟨ws1, h1⟩ := overfull_loop M (M + 1)
      ((List.range (M + 1 + 1)).map (fun (k : Nat) => ⟨(k : Int) + 1, 0, [0, 1]⟩)) []
      ((M + 1 : Nat) + 1) 0
      (fun v hv => by
        obtain ⟨k, _, rfl⟩ := List.mem_map.1 hv
        exact ⟨rfl, rfl⟩)
      (by simp) (by push_cast; omega)
    have hdrop : List.drop (M + 1)
        ((List.range (M + 1 + 1)).map (fun (k : Nat) => (⟨(k : Int) + 1, 0, [0, 1]⟩ : vote_t)))
        = [⟨(M : Int) + 2, 0, [0, 1]⟩] := by
      rw [List.range_succ, List.map_append, List.drop_append_of_le_length (by simp)]
      rw [List.drop_eq_nil_of_le (by simp)]
      simp
      ring
    have e1 : ((M + 1 : Nat) : Int) + 1 - ((M + 1 : Nat) : Int) = 1 := by omega
    have e2 : (0 : Int) + ((M + 1 : Nat) : Int) = (M : Int) + 1 := by omega
    rw [hdrop, e1, e2] at h1
    refine ⟨⟨[⟨CAND_DROPPED, [⟨(M : Int) + 2, 0, [0, 1]⟩], 1⟩, ⟨CAND_ACTIVE, ws1, (M : Int) + 1⟩],
      [], 0⟩, ?_, rfl⟩
    show drop_loop (M + 1) (List.range 2) (overfull (M + 1)) = _
    have hr : List.range 2 = [0, 1] := rfl
    rw [hr]
    unfold drop_loop
    simp only [overfull, List.getElem?_cons_zero, if_true]
    rw [show ((0 : Nat) : Int) = 0 from rfl, h1]
    simp [set_status, drop_loop]

/-! ## The claims -/

/-- C1 (vote conservation). For every well-formed tally whose Invalid Pool count
is the number of ballots in the pool, at every observation point the round loop
of `tally_election` reaches (the tally after any number of rounds, that is after
`tally_set_minvote_candidates`, and the tally after the
`tally_drop_minvote_candidates` that follows it), the sum of the candidates' vote
counts plus the invalid-ballot count is the number of ballots the tally held
before the election. -/
theorem C1_vote_conservation (MAX_CANDIDATES rounds : Nat) (tally tally1 : tally_t)
    (hwf : well_formed tally)
    (hinv : tally.invalid_vote_count = (tally.invalid_votes.length : Int))
    (h : election_rounds MAX_CANDIDATES rounds tally = some tally1) :
    vote_count_sum tally1 + tally1.invalid_vote_count = (ballots_held tally : Int) ∧
      ∀ tally2, tally_drop_minvote_candidates MAX_CANDIDATES tally1 = some tally2 →
        vote_count_sum tally2 + tally2.invalid_vote_count = (ballots_held tally : Int) := by
  obtain ⟨h1, _, h3, _⟩ := election_rounds_keeps MAX_CANDIDATES rounds tally tally1 h
  have hstart : vote_count_sum tally + tally.invalid_vote_count = (ballots_held tally : Int) := by
    rw [well_formed_vote_count_sum tally hwf, hinv]
    unfold ballots_held
    push_cast
    rfl
  refine ⟨by rw [h1, h3]; exact hstart, ?_⟩
  intro tally2 hd
  obtain ⟨d1, _, d3, _⟩ := drop_loop_keeps MAX_CANDIDATES _ tally1 tally2 hd
  rw [d1, d3, h1, h3]
  exact hstart

/-- C1, at a concrete election: `small_election` run for two rounds, in which
one ballot is transferred. -/
theorem C1_vote_conservation_witness :
    well_formed small_election ∧
      small_election.invalid_vote_count = (small_election.invalid_votes.length : Int) ∧
      election_rounds 4 2 small_election = some small_election_done ∧
      (vote_count_sum small_election_done + small_election_done.invalid_vote_count
          = (ballots_held small_election : Int) ∧
        ∀ tally2, tally_drop_minvote_candidates 4 small_election_done = some tally2 →
          vote_count_sum tally2 + tally2.invalid_vote_count = (ballots_held small_election : Int)) :=
  ⟨by decide, by decide, by decide,
    C1_vote_conservation 4 2 small_election small_election_done (by decide) (by decide)
      (by decide)⟩

/-- C2 (termination), evaluated at `crowd`: two active candidates with 1000
ballots each. The tally is well formed, and after any number of rounds of the
loop of `tally_election` it is unchanged and `tally_condition` is still
`TALLY_CONTINUE`: the loop never exits. -/
theorem C2_round_loop_does_not_exit (MAX_CANDIDATES rounds : Nat) :
    well_formed crowd ∧ election_rounds MAX_CANDIDATES rounds crowd = some crowd ∧
      tally_condition crowd = TALLY_CONTINUE := by
  refine ⟨crowd_well_formed, ?_, by decide⟩
  induction rounds with
  | zero => rfl
  | succ rounds ih =>
    have hc : tally_condition crowd = TALLY_CONTINUE := by decide
    have hr : election_round MAX_CANDIDATES crowd = some crowd := rfl
    unfold election_rounds
    rw [if_pos hc, hr]
    exact ih

/-- C3 (status monotonicity), evaluated at the well-formed tally
`dropped_and_empty`: candidate 0 is dropped before
`tally_set_minvote_candidates` and has status `CAND_MINVOTES` after it. -/
theorem C3_set_minvote_revives_dropped :
    well_formed dropped_and_empty ∧
      dropped_and_empty.candidate_status = [CAND_DROPPED, CAND_ACTIVE, CAND_ACTIVE] ∧
      (tally_set_minvote_candidates dropped_and_empty).candidate_status
        = [CAND_MINVOTES, CAND_MINVOTES, CAND_ACTIVE] := by
  decide

/-- C4 (drain completeness), evaluated at `overfull`: for every value of
`MAX_CANDIDATES` from 2 on, the well-formed tally in which the minimum-vote
candidate 0 holds `MAX_CANDIDATES + 1` ballots is left by
`tally_drop_minvote_candidates` with candidate 0 dropped and still holding one
ballot, its vote count being 1. -/
theorem C4_drop_leaves_a_ballot (MAX_CANDIDATES : Nat) :
    well_formed (overfull (MAX_CANDIDATES + 2)) ∧
      ∃ tally1,
        tally_drop_minvote_candidates (MAX_CANDIDATES + 2) (overfull (MAX_CANDIDATES + 2))
          = some tally1 ∧
        tally1.candidates[0]?
          = some ⟨CAND_DROPPED, [⟨(MAX_CANDIDATES : Int) + 3, 0, [0, 1]⟩], 1⟩ := by
  obtain ⟨hwf, tally1, hdrop, hrow⟩ := overfull_drop (MAX_CANDIDATES + 1)
  refine ⟨hwf, tally1, hdrop, ?_⟩
  rw [hrow]
  have e : ((MAX_CANDIDATES + 1 : Nat) : Int) + 2 = (MAX_CANDIDATES : Int) + 3 := by
    push_cast
    ring
  rw [e]

/-- C5 (minimum classification), evaluated at the well-formed tally `crowd`:
both candidates are active and hold the minimum count 1000, and after
`tally_set_minvote_candidates` both are still `CAND_ACTIVE`. -/
theorem C5_minimum_above_999_not_marked :
    well_formed crowd ∧
      crowd.candidates.map candidate_t.candidate_vote_counts = [1000, 1000] ∧
      crowd.candidate_status = [CAND_ACTIVE, CAND_ACTIVE] ∧
      (tally_set_minvote_candidates crowd).candidate_status = [CAND_ACTIVE, CAND_ACTIVE] :=
  ⟨crowd_well_formed, by decide⟩

/-- C6 (dropped candidates are ignored), evaluated at the well-formed tally
`dropped_tied`: the minimum count of the candidates that are not dropped is 0,
the dropped candidate 0 also has count 0, and `tally_set_minvote_candidates`
changes its status to `CAND_MINVOTES`. -/
theorem C6_set_minvote_changes_dropped :
    well_formed dropped_tied ∧
      dropped_tied.candidates.map candidate_t.candidate_vote_counts = [0, 2, 0, 1] ∧
      dropped_tied.candidate_status = [CAND_DROPPED, CAND_ACTIVE, CAND_ACTIVE, CAND_ACTIVE] ∧
      (tally_set_minvote_candidates dropped_tied).candidate_status
        = [CAND_MINVOTES, CAND_ACTIVE, CAND_MINVOTES, CAND_ACTIVE] := by
  decide

/-- C7 (cursor advancement finds the next active preference). The cursor of
`vote` holds `cur`, which passes the check of `vote_next_candidate` (it is not
`NO_CANDIDATE` and is below `MAX_CANDIDATES`); the `k` ranking entries after the
cursor are candidates of the status array that are not active, and the entry
after them is the active candidate `d`. Then `vote_next_candidate` returns `d`
and leaves the cursor on the position of `d`. -/
theorem C7_next_candidate_first_active (MAX_CANDIDATES : Nat) (vote : vote_t)
    (candidate_status : List cand_status) (cur d : Int) (k : Nat)
    (hcur : readAt vote.candidate_order vote.pos = some cur)
    (hvalid : cur ≠ NO_CANDIDATE ∧ cur < (MAX_CANDIDATES : Int))
    (hskip : ∀ j, j < k → ∃ c s, readAt vote.candidate_order (vote.pos + 1 + (j : Int)) = some c ∧
      readAt candidate_status c = some s ∧ s ≠ CAND_ACTIVE)
    (hd : readAt vote.candidate_order (vote.pos + 1 + (k : Int)) = some d)
    (hact : readAt candidate_status d = some CAND_ACTIVE) :
    vote_next_candidate MAX_CANDIDATES vote candidate_status
      = some ({ vote with pos := vote.pos + 1 + (k : Int) }, d) :=
  vote_next_candidate_found MAX_CANDIDATES vote candidate_status cur d k hcur hvalid hskip hd hact

/-- C7, at the vote `2 0 3 1` with its cursor on position 0 and only candidate 3
active: candidate 0 is skipped and the cursor stops on position 2. -/
theorem C7_next_candidate_first_active_witness :
    vote_next_candidate 4 ⟨17, 0, [2, 0, 3, 1, -1]⟩ doc_status
      = some (⟨17, 2, [2, 0, 3, 1, -1]⟩, 3) :=
  C7_next_candidate_first_active 4 ⟨17, 0, [2, 0, 3, 1, -1]⟩ doc_status 2 3 1
    (by decide) (by decide)
    (fun j hj => by
      have hj0 : j = 0 := by omega
      subst hj0
      exact ⟨0, CAND_DROPPED, by decide, by decide, by decide⟩)
    (by decide) (by decide)

/-- C8 (cursor advancement detects exhaustion), evaluated at the example of the
comment of `vote_next_candidate`: the vote `2 0 3 1` followed by `NO_CANDIDATE`,
cursor on position 3, with only candidate 3 active. For every value of
`MAX_CANDIDATES` from 4 on the call reads `candidate_status[]` out of bounds (at
index `NO_CANDIDATE`) and so has no result; it does not return `NO_CANDIDATE`. -/
theorem C8_exhausted_vote_reads_out_of_bounds (MAX_CANDIDATES : Nat) :
    doc_vote.candidate_order = [2, 0, 3, 1, NO_CANDIDATE] ∧
      vote_next_candidate (MAX_CANDIDATES + 4) doc_vote doc_status = none := by
  have h : ((1 : Int) < (MAX_CANDIDATES : Int) + 4) := by omega
  refine ⟨rfl, ?_⟩
  simp [vote_next_candidate, readAt, next_active_loop, NO_CANDIDATE, doc_vote, doc_status, h]

/-- C9 (a single transfer moves the front ballot to the front of its
destination). In a well-formed tally, candidate `c` (an index below
`MAX_CANDIDATES`) holds the ballot `curr` in front of the ballots `next`; the `k`
ranking entries after the cursor of `curr` are candidates that are not active
and the entry after them is the active candidate `d`, another candidate than
`c`. Then `tally_transfer_first_vote` returns; the row of `c` keeps its status,
has the list `next` and a count one less; the row of `d` keeps its status, has
the ballot (cursor now on the position of `d`) in front of its former list and a
count one more; every other row and every status is unchanged. -/
theorem C9_transfer_moves_front_vote (MAX_CANDIDATES : Nat) (tally : tally_t) (c d k : Nat)
    (cd cdd : candidate_t) (curr : vote_t) (next : List vote_t)
    (hwf : well_formed tally)
    (hc : tally.candidates[c]? = some cd) (hvotes : cd.candidate_votes = curr :: next)
    (hcM : c < MAX_CANDIDATES)
    (hskip : ∀ j, j < k → ∃ x s, readAt curr.candidate_order (curr.pos + 1 + (j : Int)) = some x ∧
      readAt tally.candidate_status x = some s ∧ s ≠ CAND_ACTIVE)
    (hd : readAt curr.candidate_order (curr.pos + 1 + (k : Int)) = some (d : Int))
    (hdrow : tally.candidates[d]? = some cdd) (hact : cdd.candidate_status = CAND_ACTIVE)
    (hne : d ≠ c) :
    ∃ tally1, tally_transfer_first_vote MAX_CANDIDATES tally (c : Int) = some tally1 ∧
      tally1.candidates[c]? = some ⟨cd.candidate_status, next, cd.candidate_vote_counts - 1⟩ ∧
      tally1.candidates[d]? = some ⟨cdd.candidate_status,
        ⟨curr.id, curr.pos + 1 + (k : Int), curr.candidate_order⟩ :: cdd.candidate_votes,
        cdd.candidate_vote_counts + 1⟩ ∧
      (∀ i, i ≠ c → i ≠ d → tally1.candidates[i]? = tally.candidates[i]?) ∧
      tally1.candidate_status = tally.candidate_status := by
  have hrow : row_ok c cd := (well_formed_iff tally).1 hwf c cd hc
  have hcount : cd.candidate_vote_counts ≠ 0 := by
    have := hrow.1
    rw [hvotes] at this
    simp only [List.length_cons, Nat.cast_add, Nat.cast_one] at this
    omega
  have hcursor : readAt curr.candidate_order curr.pos = some (c : Int) :=
    hrow.2 curr (by rw [hvotes]; exact List.mem_cons_self _ _)
  have hres := transfer_found MAX_CANDIDATES tally c d k cd cdd curr next hc hvotes hcount hcursor
    hcM hskip hd hdrow hact hne
  have hclen : c < tally.candidates.length := (List.getElem?_eq_some.1 hc).1
  have hdlen : d < tally.candidates.length := (List.getElem?_eq_some.1 hdrow).1
  refine ⟨_, hres, ?_, ?_, ?_, transfer_candidate_status _ _ _ _ hres⟩
  · show ((tally.candidates.set c _).set d _)[c]? = _
    rw [List.getElem?_set_ne hne, List.getElem?_set_self hclen]
  · show ((tally.candidates.set c _).set d _)[d]? = _
    rw [List.getElem?_set_self (by rw [List.length_set]; exact hdlen)]
  · intro i hic hid
    show ((tally.candidates.set c _).set d _)[i]? = _
    rw [List.getElem?_set_ne (Ne.symm hid), List.getElem?_set_ne (Ne.symm hic)]

/-- C9, at `transfer_example`: the ballot of candidate 2 skips the dropped
candidate 1 and goes to the front of the list of candidate 0. -/
theorem C9_transfer_moves_front_vote_witness :
    well_formed transfer_example ∧
    ∃ tally1, tally_transfer_first_vote 4 transfer_example 2 = some tally1 ∧
      tally1.candidates[2]? = some ⟨CAND_MINVOTES, [], 1 - 1⟩ ∧
      tally1.candidates[0]? = some ⟨CAND_ACTIVE,
        [⟨2, 0 + 1 + 1, [2, 1, 0, -1]⟩, ⟨1, 0, [0, 1, 2, -1]⟩], 1 + 1⟩ ∧
      (∀ i, i ≠ 2 → i ≠ 0 → tally1.candidates[i]? = transfer_example.candidates[i]?) ∧
      tally1.candidate_status = transfer_example.candidate_status :=
  ⟨by decide, C9_transfer_moves_front_vote 4 transfer_example 2 0 1
    ⟨CAND_MINVOTES, [⟨2, 0, [2, 1, 0, -1]⟩], 1⟩ ⟨CAND_ACTIVE, [⟨1, 0, [0, 1, 2, -1]⟩], 1⟩
    ⟨2, 0, [2, 1, 0, -1]⟩ [] (by decide) (by decide) rfl (by decide)
    (fun j hj => by
      have hj0 : j = 0 := by omega
      subst hj0
      exact ⟨1, CAND_DROPPED, by decide, by decide, by decide⟩)
    (by decide) (by decide) rfl (by decide)⟩

/-- C10 (exhausted ballots go to the Invalid Pool) fails at `exhausted_example`:
the front ballot of candidate 0 has no preference left, and for no value of
`MAX_CANDIDATES` from 2 on does `tally_transfer_first_vote` return a tally, so
none in which the invalid-ballot count has gone up by one. -/
theorem C10_exhausted_vote_not_pooled :
    well_formed exhausted_example ∧
      ¬ ∃ (MAX_CANDIDATES : Nat) (tally1 : tally_t),
        tally_transfer_first_vote (MAX_CANDIDATES + 2) exhausted_example 0 = some tally1 := by
  refine ⟨by decide, ?_⟩
  rintro ⟨M, tally1, h⟩
  have hM : ((0 : Int) < (M : Int) + 2) := by omega
  simp [tally_transfer_first_vote, exhausted_example, readAt, vote_next_candidate,
    next_active_loop, NO_CANDIDATE, tally_t.candidate_status, hM] at h

/-! ## The outcome -/

theorem condition_loop_eq :
    ∀ (l : List candidate_t) (a m : Nat),
      condition_loop l a m =
        if CAND_INVALID ∈ l.map candidate_t.candidate_status then none
        else some (a + (l.map candidate_t.candidate_status).count CAND_ACTIVE,
          m + (l.map candidate_t.candidate_status).count CAND_MINVOTES) := by
  intro l
  induction l with
  | nil => intro a m; simp [condition_loop]
  | cons cd l ih =>
    intro a m
    unfold condition_loop
    cases hs : cd.candidate_status <;> simp [hs, ih] <;> split <;> simp <;> omega

/-- The value of `tally_condition` from the numbers of active and of
minimum-vote candidates. -/
theorem tally_condition_eq (tally : tally_t) :
    tally_condition tally =
      if ¬ statuses_valid tally then TALLY_ERROR
      else if active_count tally = 1 then TALLY_WINNER
      else if active_count tally > 1 then TALLY_CONTINUE
      else if minvotes_count tally > 1 then TALLY_TIE
      else TALLY_ERROR := by
  unfold tally_condition statuses_valid active_count minvotes_count tally_t.candidate_status
  rw [condition_loop_eq]
  by_cases hinv : CAND_INVALID ∈ tally.candidates.map candidate_t.candidate_status
  · simp [hinv]
  · simp only [hinv, if_false, not_false_eq_true, not_true_eq_false, Nat.zero_add]
    by_cases h1 : (tally.candidates.map candidate_t.candidate_status).count CAND_ACTIVE = 1
    · simp [h1]
    · by_cases h2 : (tally.candidates.map candidate_t.candidate_status).count CAND_ACTIVE > 1
      · simp [h1, h2]
      · have h0 : (tally.candidates.map candidate_t.candidate_status).count CAND_ACTIVE = 0 := by
          omega
        simp [h0]

/-- C12 (outcome WINNER). For every tally whose statuses are all among the three
constants, `tally_condition` returns `TALLY_WINNER` exactly when one candidate
is active, and `TALLY_CONTINUE` exactly when two or more are. -/
theorem C12_condition_winner_continue (tally : tally_t) (hvalid : statuses_valid tally) :
    (tally_condition tally = TALLY_WINNER ↔ active_count tally = 1) ∧
      (tally_condition tally = TALLY_CONTINUE ↔ 2 ≤ active_count tally) := by
  rw [tally_condition_eq]
  simp only [hvalid, not_true_eq_false, if_false]
  constructor
  · constructor
    · intro h
      by_contra hne
      rw [if_neg hne] at h
      split at h
      · cases h
      · split at h <;> cases h
    · intro h
      rw [if_pos h]
  · constructor
    · intro h
      split at h
      · cases h
      · split at h
        · omega
        · split at h <;> cases h
    · intro h
      have h1 : ¬ active_count tally = 1 := by omega
      have h2 : active_count tally > 1 := by omega
      rw [if_neg h1, if_pos h2]

/-- C12, at `small_election_done` (one active candidate). -/
theorem C12_condition_winner_continue_witness :
    statuses_valid small_election_done ∧
      ((tally_condition small_election_done = TALLY_WINNER ↔ active_count small_election_done = 1) ∧
        (tally_condition small_election_done = TALLY_CONTINUE ↔
          2 ≤ active_count small_election_done)) :=
  ⟨by decide, C12_condition_winner_continue small_election_done (by decide)⟩

/-- C13 (outcome TIE). For every tally, `tally_condition` returns `TALLY_TIE`
exactly when every status is one of the three constants, no candidate is
active and at least two candidates are at the minimum. -/
theorem C13_condition_tie (tally : tally_t) :
    tally_condition tally = TALLY_TIE ↔
      statuses_valid tally ∧ active_count tally = 0 ∧ 2 ≤ minvotes_count tally := by
  rw [tally_condition_eq]
  constructor
  · intro h
    split at h
    · cases h
    · rename_i hv
      split at h
      · cases h
      · split at h
        · cases h
        · split at h
          · exact ⟨not_not.1 hv, by omega, by omega⟩
          · cases h
  · rintro ⟨hv, ha, hm⟩
    have h1 : ¬ active_count tally = 1 := by omega
    have h2 : ¬ active_count tally > 1 := by omega
    have h3 : minvotes_count tally > 1 := by omega
    simp [hv, h1, h2, h3]

/-- C14 (outcome ERROR). For every tally, `tally_condition` returns
`TALLY_ERROR` exactly when some status is none of the three constants, or no
candidate is active and fewer than two candidates are at the minimum; and a
status that is none of the three constants gives `TALLY_ERROR` whatever the
number of active candidates. -/
theorem C14_condition_error (tally : tally_t) :
    (tally_condition tally = TALLY_ERROR ↔
        ¬ statuses_valid tally ∨ (active_count tally = 0 ∧ minvotes_count tally < 2)) ∧
      (¬ statuses_valid tally → tally_condition tally = TALLY_ERROR) := by
  rw [tally_condition_eq]
  refine ⟨⟨?_, ?_⟩, ?_⟩
  · intro h
    by_cases hv : statuses_valid tally
    · right
      simp only [hv, not_true_eq_false, if_false] at h
      split at h
      · cases h
      · split at h
        · cases h
        · split at h
          · cases h
          · omega
    · exact Or.inl hv
  · rintro (hv | ⟨ha, hm⟩)
    · simp [hv]
    · have h1 : ¬ active_count tally = 1 := by omega
      have h2 : ¬ active_count tally > 1 := by omega
      have h3 : ¬ minvotes_count tally > 1 := by omega
      simp [h1, h2, h3]
  · intro hv
    simp [hv]

/-! ## Classification twice -/

/-- The first loop of `tally_set_minvote_candidates` never raises its running
minimum. -/
theorem min_vote_loop_le : ∀ (l : List candidate_t) (a : Int), min_vote_loop l a ≤ a := by
  intro l
  induction l with
  | nil => intro a; simp [min_vote_loop]
  | cons cd l ih =>
    intro a
    have hstep : min_vote_loop (cd :: l) a
        = min_vote_loop l (if cd.candidate_status ≠ CAND_DROPPED ∧ cd.candidate_vote_counts < a
            then cd.candidate_vote_counts else a) := by
      simp [min_vote_loop]
    rw [hstep]
    split
    · rename_i h
      exact le_trans (ih _) (le_of_lt h.2)
    · exact ih _

/-- Starting the first loop lower, but not below its result, gives the same
result. -/
theorem min_vote_loop_start : ∀ (l : List candidate_t) (a m : Int),
    min_vote_loop l a ≤ m → m ≤ a → min_vote_loop l m = min_vote_loop l a := by
  intro l
  induction l with
  | nil =>
    intro a m h1 h2
    simp only [min_vote_loop, List.foldl_nil] at h1 ⊢
    omega
  | cons cd l ih =>
    intro a m h1 h2
    have hstep : ∀ b, min_vote_loop (cd :: l) b
        = min_vote_loop l (if cd.candidate_status ≠ CAND_DROPPED ∧ cd.candidate_vote_counts < b
            then cd.candidate_vote_counts else b) := by
      intro b
      simp [min_vote_loop]
    rw [hstep] at h1 ⊢
    rw [hstep]
    by_cases hd : cd.candidate_status ≠ CAND_DROPPED
    · by_cases hm : cd.candidate_vote_counts < m
      · have ha : cd.candidate_vote_counts < a := by omega
        rw [if_pos ⟨hd, hm⟩, if_pos ⟨hd, ha⟩]
      · simp only [hd, hm, and_false, if_false, true_and] at h1 ⊢
        split
        · rename_i ha
          rw [if_pos ha] at h1
          exact ih _ m h1 (by omega)
        · rename_i ha
          rw [if_neg ha] at h1
          exact ih a m h1 h2
    · simp only [hd, false_and, if_false] at h1 ⊢
      exact ih a m h1 h2

/-- Marking the rows whose count is `m` does not change the result of the first
loop, when that result is at most `m`. -/
theorem min_vote_loop_marked (m : Int) : ∀ (l : List candidate_t) (a : Int),
    min_vote_loop l a ≤ m →
      min_vote_loop
          (l.map fun cd =>
            if cd.candidate_vote_counts = m then
              (⟨CAND_MINVOTES, cd.candidate_votes, cd.candidate_vote_counts⟩ : candidate_t)
            else cd) a
        = min_vote_loop l a := by
  intro l
  induction l with
  | nil => intro a _; rfl
  | cons cd l ih =>
    intro a h
    have hstep : ∀ (x : candidate_t) (xs : List candidate_t) (b : Int), min_vote_loop (x :: xs) b
        = min_vote_loop xs (if x.candidate_status ≠ CAND_DROPPED ∧ x.candidate_vote_counts < b
            then x.candidate_vote_counts else b) := by
      intro x xs b
      simp [min_vote_loop]
    rw [List.map_cons, hstep, hstep]
    rw [hstep] at h
    by_cases hc : cd.candidate_vote_counts = m
    · rw [if_pos hc]
      by_cases hd : cd.candidate_status ≠ CAND_DROPPED
      · have e : (if (CAND_MINVOTES ≠ CAND_DROPPED ∧ cd.candidate_vote_counts < a)
            then cd.candidate_vote_counts else a)
            = (if cd.candidate_status ≠ CAND_DROPPED ∧ cd.candidate_vote_counts < a
                then cd.candidate_vote_counts else a) := by
          simp [hd]
        show min_vote_loop _ (if (CAND_MINVOTES ≠ CAND_DROPPED ∧ cd.candidate_vote_counts < a)
            then cd.candidate_vote_counts else a) = _
        rw [e]
        exact ih _ h
      · simp only [hd, false_and, if_false] at h ⊢
        show min_vote_loop _ (if (CAND_MINVOTES ≠ CAND_DROPPED ∧ cd.candidate_vote_counts < a)
            then cd.candidate_vote_counts else a) = _
        by_cases hlt : cd.candidate_vote_counts < a
        · have e : (if (CAND_MINVOTES ≠ CAND_DROPPED ∧ cd.candidate_vote_counts < a)
              then cd.candidate_vote_counts else a) = m := by
            rw [if_pos ⟨by decide, hlt⟩]
            exact hc
          rw [e, ih m (min_vote_loop_le l m)]
          exact min_vote_loop_start l a m h (by omega)
        · have e : (if (CAND_MINVOTES ≠ CAND_DROPPED ∧ cd.candidate_vote_counts < a)
              then cd.candidate_vote_counts else a) = a := by
            rw [if_neg (fun hh => hlt hh.2)]
          rw [e]
          exact ih a h
    · rw [if_neg hc]
      exact ih _ h

/-- C16 (classification is idempotent). For every tally, applying
`tally_set_minvote_candidates` twice gives the same tally, so the same candidate
statuses, as applying it once. -/
theorem C16_set_minvote_idempotent (tally : tally_t) :
    tally_set_minvote_candidates (tally_set_minvote_candidates tally)
        = tally_set_minvote_candidates tally ∧
      (tally_set_minvote_candidates (tally_set_minvote_candidates tally)).candidate_status
        = (tally_set_minvote_candidates tally).candidate_status := by
  have hmin : min_vote_loop (tally_set_minvote_candidates tally).candidates 999
      = min_vote_loop tally.candidates 999 :=
    min_vote_loop_marked (min_vote_loop tally.candidates 999) tally.candidates 999 (le_refl _)
  have h : tally_set_minvote_candidates (tally_set_minvote_candidates tally)
      = tally_set_minvote_candidates tally := by
    show (⟨_, _, _⟩ : tally_t) = ⟨_, _, _⟩
    congr 1
    rw [hmin]
    show List.map _ (List.map _ tally.candidates) = List.map _ tally.candidates
    rw [List.map_map]
    apply List.map_congr_left
    intro cd _
    simp only [Function.comp]
    by_cases hc : cd.candidate_vote_counts = min_vote_loop tally.candidates 999
    · simp [hc]
    · simp [hc]
  exact ⟨h, by rw [h]⟩

/-! ## Exhausted vote, single candidate -/

/-- C17 (advancing an exhausted ballot is a no-op). For every vote whose cursor
position holds `NO_CANDIDATE`, `vote_next_candidate` returns `NO_CANDIDATE` and
leaves the vote (cursor, ranking, id) as it was, for every status array; it does
so for the empty status array too, in which any read would be out of bounds. -/
theorem C17_exhausted_vote_no_op (MAX_CANDIDATES : Nat) (vote : vote_t)
    (h : readAt vote.candidate_order vote.pos = some NO_CANDIDATE) :
    (∀ candidate_status : List cand_status,
        vote_next_candidate MAX_CANDIDATES vote candidate_status = some (vote, NO_CANDIDATE)) ∧
      vote_next_candidate MAX_CANDIDATES vote [] = some (vote, NO_CANDIDATE) := by
  have hall : ∀ candidate_status : List cand_status,
      vote_next_candidate MAX_CANDIDATES vote candidate_status = some (vote, NO_CANDIDATE) := by
    intro st
    simp [vote_next_candidate, h]
  exact ⟨hall, hall []⟩

/-- C17, at the vote of the comment of `vote_next_candidate` with its cursor on
position 4. -/
theorem C17_exhausted_vote_no_op_witness :
    readAt (⟨17, 4, [2, 0, 3, 1, -1]⟩ : vote_t).candidate_order 4 = some NO_CANDIDATE ∧
      ((∀ candidate_status : List cand_status,
          vote_next_candidate 4 ⟨17, 4, [2, 0, 3, 1, -1]⟩ candidate_status
            = some (⟨17, 4, [2, 0, 3, 1, -1]⟩, NO_CANDIDATE)) ∧
        vote_next_candidate 4 ⟨17, 4, [2, 0, 3, 1, -1]⟩ []
          = some (⟨17, 4, [2, 0, 3, 1, -1]⟩, NO_CANDIDATE)) :=
  ⟨by decide, C17_exhausted_vote_no_op 4 ⟨17, 4, [2, 0, 3, 1, -1]⟩ (by decide)⟩

/-- C19 (single candidate). For every tally with exactly one candidate, whose
status is `CAND_ACTIVE`, `tally_condition` is `TALLY_WINNER` and
`tally_election` exits its loop after zero rounds with the tally unchanged,
whatever the number of rounds allowed. -/
theorem C19_single_candidate (MAX_CANDIDATES fuel : Nat) (tally : tally_t) (cd : candidate_t)
    (hone : tally.candidates = [cd]) (hact : cd.candidate_status = CAND_ACTIVE) :
    tally_condition tally = TALLY_WINNER ∧
      tally_election MAX_CANDIDATES fuel tally = election_run.finished 0 tally := by
  have hc : tally_condition tally = TALLY_WINNER := by
    simp [tally_condition, hone, condition_loop, hact]
  refine ⟨hc, ?_⟩
  unfold tally_election
  cases fuel <;> simp [election_loop, hc]

/-- C19, at a tally of one active candidate holding two ballots. -/
theorem C19_single_candidate_witness :
    tally_condition single_candidate = TALLY_WINNER ∧
      tally_election 4 10 single_candidate = election_run.finished 0 single_candidate :=
  C19_single_candidate 4 10 single_candidate
    ⟨CAND_ACTIVE, [⟨2, 0, [0, -1]⟩, ⟨1, 0, [0, -1]⟩], 2⟩ rfl rfl

/-! ## Statuses after the drop -/

theorem transfer_loop_status (M : Nat) (i : Int) (count : Nat) (t t1 : tally_t)
    (h : transfer_loop M i count t = some t1) : t1.candidate_status = t.candidate_status :=
  (transfer_loop_keeps M i count t t1 h).1

theorem set_status_candidate_status (t : tally_t) (i : Nat) (s : cand_status) :
    (set_status t i s).candidate_status = t.candidate_status.set i s := by
  unfold set_status tally_t.candidate_status
  cases hi : t.candidates[i]? with
  | none =>
    have hlen : t.candidates.length ≤ i := by
      rcases Nat.lt_or_ge i t.candidates.length with hlt | hge
      · rw [List.getElem?_eq_getElem hlt] at hi
        cases hi
      · exact hge
    simp only
    rw [List.set_eq_of_length_le (by simpa using hlen)]
  | some cd =>
    simp only
    rw [List.map_set]

/-- The statuses after the outer loop of the drop: an index visited whose status
was `CAND_MINVOTES` is `CAND_DROPPED`, every other entry is as before. -/
theorem drop_loop_status (M : Nat) :
    ∀ (idx : List Nat) (t t1 : tally_t), drop_loop M idx t = some t1 →
      ∀ n, t1.candidate_status[n]? =
        if n ∈ idx ∧ t.candidate_status[n]? = some CAND_MINVOTES then some CAND_DROPPED
        else t.candidate_status[n]? := by
  intro idx
  induction idx with
  | nil =>
    intro t t1 h n
    simp only [drop_loop, Option.some.injEq] at h
    subst h
    simp
  | cons i rest ih =>
    intro t t1 h n
    unfold drop_loop at h
    cases hi : t.candidates[i]? with
    | none => simp [hi] at h
    | some cd =>
      simp only [hi] at h
      have hsti : t.candidate_status[i]? = some cd.candidate_status := by
        simp [tally_t.candidate_status, List.getElem?_map, hi]
      by_cases hm : cd.candidate_status = CAND_MINVOTES
      · rw [if_pos hm] at h
        cases hl : transfer_loop M (i : Int) M t with
        | none => simp [hl] at h
        | some t2 =>
          simp only [hl] at h
          have h2 := transfer_loop_status M i M t t2 hl
          have h3 : (set_status t2 i CAND_DROPPED).candidate_status
              = t.candidate_status.set i CAND_DROPPED := by
            rw [set_status_candidate_status, h2]
          rw [ih _ t1 h n, h3]
          have hlt : i < t.candidate_status.length := (List.getElem?_eq_some.1 hsti).1
          by_cases hin : i = n
          · subst hin
            simp [List.getElem?_set_self hlt, hsti, hm]
          · rw [List.getElem?_set_ne hin]
            have hni : ¬ n = i := fun e => hin e.symm
            simp [hni]
      · rw [if_neg hm] at h
        rw [ih t t1 h n]
        by_cases hin : n = i
        · subst hin
          simp [hsti, hm]
        · simp [hin]

/-- The statuses after `tally_drop_minvote_candidates`, whenever it returns:
every `CAND_MINVOTES` has become `CAND_DROPPED`, nothing else has changed. -/
theorem drop_candidate_status (M : Nat) (t t1 : tally_t)
    (h : tally_drop_minvote_candidates M t = some t1) :
    t1.candidate_status
      = t.candidate_status.map fun s => if s = CAND_MINVOTES then CAND_DROPPED else s := by
  apply List.ext_getElem?
  intro n
  rw [drop_loop_status M _ t t1 h n, List.getElem?_map]
  cases hn : t.candidate_status[n]? with
  | none => simp
  | some s =>
    have hlt : n < t.candidate_count := by
      have := (List.getElem?_eq_some.1 hn).1
      simpa [tally_t.candidate_status, tally_t.candidate_count] using this
    by_cases hs : s = CAND_MINVOTES
    · simp [hs, List.mem_range, hlt]
    · simp [hs]

/-- C15 (the drop changes exactly the minimum-vote statuses). For every tally,
whenever `tally_drop_minvote_candidates` returns: every candidate that was
`CAND_MINVOTES` before the call is `CAND_DROPPED`, no candidate is
`CAND_MINVOTES`, every candidate that was `CAND_ACTIVE` or `CAND_DROPPED` keeps
its status, and the number of candidates is unchanged. -/
theorem C15_drop_statuses (MAX_CANDIDATES : Nat) (tally tally1 : tally_t)
    (h : tally_drop_minvote_candidates MAX_CANDIDATES tally = some tally1) :
    (∀ i : Nat, tally.candidate_status[i]? = some CAND_MINVOTES →
        tally1.candidate_status[i]? = some CAND_DROPPED) ∧
      CAND_MINVOTES ∉ tally1.candidate_status ∧
      (∀ i : Nat, tally.candidate_status[i]? = some CAND_ACTIVE ∨
          tally.candidate_status[i]? = some CAND_DROPPED →
        tally1.candidate_status[i]? = tally.candidate_status[i]?) ∧
      tally1.candidate_status.length = tally.candidate_status.length := by
  have hst := drop_candidate_status MAX_CANDIDATES tally tally1 h
  refine ⟨?_, ?_, ?_, ?_⟩
  · intro i hi
    rw [hst, List.getElem?_map, hi]
    simp
  · rw [hst]
    intro hmem
    obtain ⟨s, _, hs⟩ := List.mem_map.1 hmem
    by_cases hm : s = CAND_MINVOTES
    · rw [if_pos hm] at hs
      cases hs
    · rw [if_neg hm] at hs
      exact hm hs
  · intro i hi
    rw [hst, List.getElem?_map]
    rcases hi with hi | hi <;> rw [hi] <;> simp
  · rw [hst, List.length_map]

/-- C15, at `small_election` after its first classification: candidate 2 is at
the minimum and the drop moves its ballot to candidate 0. -/
theorem C15_drop_statuses_witness :
    tally_drop_minvote_candidates 4 (tally_set_minvote_candidates small_election)
        = some small_election_dropped ∧
      ((∀ i : Nat, (tally_set_minvote_candidates small_election).candidate_status[i]?
            = some CAND_MINVOTES →
          small_election_dropped.candidate_status[i]? = some CAND_DROPPED) ∧
        CAND_MINVOTES ∉ small_election_dropped.candidate_status ∧
        (∀ i : Nat, (tally_set_minvote_candidates small_election).candidate_status[i]?
              = some CAND_ACTIVE ∨
            (tally_set_minvote_candidates small_election).candidate_status[i]?
              = some CAND_DROPPED →
          small_election_dropped.candidate_status[i]?
            = (tally_set_minvote_candidates small_election).candidate_status[i]?) ∧
        small_election_dropped.candidate_status.length
          = (tally_set_minvote_candidates small_election).candidate_status.length) :=
  ⟨by decide,
    C15_drop_statuses 4 (tally_set_minvote_candidates small_election) small_election_dropped
      (by decide)⟩

/-! ## Ownership -/

theorem sum_map_set_nat {α : Type} (f : α → Nat) :
    ∀ (l : List α) (i : Nat) (x a : α), l[i]? = some x →
      ((l.set i a).map f).sum + f x = (l.map f).sum + f a := by
  intro l
  induction l with
  | nil => intro i x a h; simp at h
  | cons y l ih =>
    intro i x a h
    cases i with
    | zero =>
      simp at h
      subst h
      simp
      omega
    | succ i =>
      simp at h
      have := ih i x a h
      simp only [List.set_cons_succ, List.map_cons, List.sum_cons]
      omega

/-- The number of ballots with id `x` in the candidates' lists, as a sum over the
rows. -/
theorem count_ballot_ids (x : Int) (rows : List candidate_t) (iv : List vote_t) (ic : Int) :
    (ballot_ids ⟨rows, iv, ic⟩).count x
      = (rows.map fun cd => (cd.candidate_votes.map vote_t.id).count x).sum := by
  unfold ballot_ids
  rw [List.count_flatten, List.map_map]
  rfl

/-- How a call of `tally_add_vote` returns. -/
theorem add_vote_some (t t1 : tally_t) (vote : vote_t) (h : tally_add_vote t vote = some t1) :
    ∃ (j : Nat) (cd : candidate_t), readAt vote.candidate_order vote.pos = some (j : Int) ∧
      t.candidates[j]? = some cd ∧
      t1 = ⟨t.candidates.set j
          ⟨cd.candidate_status, vote :: cd.candidate_votes, cd.candidate_vote_counts + 1⟩,
        t.invalid_votes, t.invalid_vote_count⟩ := by
  unfold tally_add_vote at h
  cases hc : readAt vote.candidate_order vote.pos with
  | none => simp [hc] at h
  | some y =>
    simp only [hc] at h
    cases hy : readAt t.candidates y with
    | none => simp [hy] at h
    | some cd =>
      obtain ⟨j, hyj, hj⟩ := readAt_some_nat hy
      subst hyj
      simp only [hy, Int.toNat_ofNat, Option.some.injEq] at h
      exact ⟨j, cd, rfl, hj, h.symm⟩

theorem add_vote_well_formed (t t1 : tally_t) (vote : vote_t) (hwf : well_formed t)
    (h : tally_add_vote t vote = some t1) : well_formed t1 := by
  rw [well_formed_iff] at hwf ⊢
  obtain ⟨j, cd, hc, hj, rfl⟩ := add_vote_some t t1 vote h
  have hcd : row_ok j cd := hwf j cd hj
  refine rows_ok_set _ j _ hwf ⟨?_, ?_⟩
  · have := hcd.1
    show cd.candidate_vote_counts + 1 = ((vote :: cd.candidate_votes).length : Int)
    simp only [List.length_cons, Nat.cast_add, Nat.cast_one]
    omega
  · intro v hv
    rcases List.mem_cons.1 hv with rfl | hv
    · exact hc
    · exact hcd.2 v hv

theorem add_vote_distinct (t t1 : tally_t) (vote : vote_t) (hdis : distinct_ballots t)
    (hnew : vote.id ∉ ballot_ids t) (h : tally_add_vote t vote = some t1) :
    distinct_ballots t1 := by
  obtain ⟨j, cd, _, hj, rfl⟩ := add_vote_some t t1 vote h
  unfold distinct_ballots at hdis ⊢
  rw [List.nodup_iff_count_le_one] at hdis ⊢
  intro x
  have h0 := hdis x
  have hz : (ballot_ids t).count vote.id = 0 := List.count_eq_zero_of_not_mem hnew
  rw [show t = ⟨t.candidates, t.invalid_votes, t.invalid_vote_count⟩ from rfl,
    count_ballot_ids] at h0 hz
  rw [count_ballot_ids]
  have hs := sum_map_set_nat (fun cd : candidate_t => (cd.candidate_votes.map vote_t.id).count x)
    t.candidates j cd
    ⟨cd.candidate_status, vote :: cd.candidate_votes, cd.candidate_vote_counts + 1⟩ hj
  simp only [List.map_cons, List.count_cons] at hs
  by_cases hx : vote.id = x
  · subst hx
    simp only [beq_self_eq_true, if_true] at hs
    omega
  · have hb : (vote.id == x) = false := by simpa using hx
    simp only [hb, Bool.false_eq_true, if_false] at hs
    omega

theorem transfer_distinct (M : Nat) (t t1 : tally_t) (c : Int) (hwf : well_formed t)
    (hdis : distinct_ballots t) (h : tally_transfer_first_vote M t c = some t1) :
    distinct_ballots t1 := by
  obtain ⟨i, cd, hc, hi, hcase⟩ := transfer_some M t t1 c h
  have hcd : row_ok i cd := (well_formed_iff t).1 hwf i cd hi
  rcases hcase with ⟨_, rfl⟩ | ⟨curr, next, hv, _, hcase⟩
  · exact hdis
  · have hcur : readAt curr.candidate_order curr.pos = some c := by
      rw [hc]
      exact hcd.2 curr (by rw [hv]; exact List.mem_cons_self _ _)
    rcases hcase with ⟨hne, _⟩ | ⟨curr1, r, j, cdj, _, hnext, _, hj, rfl⟩
    · exact absurd hcur hne
    · have hid : curr1.id = curr.id := (vote_next_candidate_some M curr curr1 _ r hnext).2.1
      unfold distinct_ballots at hdis ⊢
      rw [List.nodup_iff_count_le_one] at hdis ⊢
      intro x
      have h0 := hdis x
      rw [show t = ⟨t.candidates, t.invalid_votes, t.invalid_vote_count⟩ from rfl,
        count_ballot_ids] at h0
      rw [count_ballot_ids]
      have h1 := sum_map_set_nat
        (fun cd : candidate_t => (cd.candidate_votes.map vote_t.id).count x)
        t.candidates i cd ⟨cd.candidate_status, next, cd.candidate_vote_counts - 1⟩ hi
      have h2 := sum_map_set_nat
        (fun cd : candidate_t => (cd.candidate_votes.map vote_t.id).count x)
        _ j cdj
        ⟨cdj.candidate_status, curr1 :: cdj.candidate_votes, cdj.candidate_vote_counts + 1⟩ hj
      simp only [hv, List.map_cons, List.count_cons, hid] at h1 h2
      omega

/-- C11 (ownership consistency is preserved). In a tally where every
candidate's vote count is the length of its list, every ballot in a list has its
cursor on that list's candidate, and no ballot occurs twice in the lists, the
same holds after `tally_add_vote` of a ballot whose id is not yet in the tally
and after `tally_transfer_first_vote` for any candidate index, whenever the call
returns. -/
theorem C11_ownership_preserved (MAX_CANDIDATES : Nat) (tally : tally_t)
    (hwf : well_formed tally) (hdis : distinct_ballots tally) :
    (∀ (vote : vote_t) (tally1 : tally_t), vote.id ∉ ballot_ids tally →
        tally_add_vote tally vote = some tally1 →
        well_formed tally1 ∧ distinct_ballots tally1) ∧
      (∀ (candidate_index : Int) (tally1 : tally_t),
        tally_transfer_first_vote MAX_CANDIDATES tally candidate_index = some tally1 →
        well_formed tally1 ∧ distinct_ballots tally1) :=
  ⟨fun vote tally1 hnew h =>
      ⟨add_vote_well_formed tally tally1 vote hwf h,
        add_vote_distinct tally tally1 vote hdis hnew h⟩,
    fun c tally1 h =>
      ⟨transfer_well_formed MAX_CANDIDATES tally tally1 c hwf h,
        transfer_distinct MAX_CANDIDATES tally tally1 c hwf hdis h⟩⟩

/-- C11, at `transfer_example`: the transfer of the ballot of candidate 2, and
the addition of a new ballot for candidate 0. -/
theorem C11_ownership_preserved_witness :
    well_formed transfer_example ∧ distinct_ballots transfer_example ∧
      tally_transfer_first_vote 4 transfer_example 2 = some transfer_example_done ∧
      (well_formed transfer_example_done ∧ distinct_ballots transfer_example_done) ∧
      tally_add_vote transfer_example ⟨3, 0, [0, 2, 1, -1]⟩ = some transfer_example_added ∧
      (well_formed transfer_example_added ∧ distinct_ballots transfer_example_added) :=
  ⟨by decide, by decide, by decide,
    (C11_ownership_preserved 4 transfer_example (by decide) (by decide)).2 2
      transfer_example_done (by decide),
    by decide,
    (C11_ownership_preserved 4 transfer_example (by decide) (by decide)).1
      ⟨3, 0, [0, 2, 1, -1]⟩ transfer_example_added (by decide) (by decide)⟩

theorem transfer_zero (M : Nat) (t : tally_t) (i : Int) (cd : candidate_t)
    (h : readAt t.candidates i = some cd) (h0 : cd.candidate_vote_counts = 0) :
    tally_transfer_first_vote M t i = some t := by
  simp [tally_transfer_first_vote, h, h0]

theorem transfer_loop_zero (M : Nat) (t : tally_t) (i : Int) (cd : candidate_t)
    (h : readAt t.candidates i = some cd) (h0 : cd.candidate_vote_counts = 0) :
    ∀ count, transfer_loop M i count t = some t := by
  intro count
  induction count with
  | zero => rfl
  | succ count ih =>
    unfold transfer_loop
    rw [transfer_zero M t i cd h h0]
    exact ih

theorem transfer_loop_zero_row (M count : Nat) (t : tally_t) (i : Int)
    (h : (readAt t.candidates i).map candidate_t.candidate_vote_counts = some 0) :
    transfer_loop M i count t = some t := by
  cases hr : readAt t.candidates i with
  | none => simp [hr] at h
  | some cd =>
    simp only [hr, Option.map_some', Option.some.injEq] at h
    exact transfer_loop_zero M t i cd hr h count


theorem election_loop_done (M fuel r : Nat) (t : tally_t)
    (h : tally_condition t ≠ TALLY_CONTINUE) :
    election_loop M fuel r t = election_run.finished r t := by
  cases fuel <;> simp [election_loop, h]

theorem ranking_of_four (l : List Int) (h : (l.take 4).Perm [0, 1, 2, 3]) :
    ∃ e0 e1 e2 e3 rest, l = e0 :: e1 :: e2 :: e3 :: rest ∧
      [e0, e1, e2, e3].Perm [0, 1, 2, 3] := by
  have hlen := h.length_eq
  rcases l with _ | ⟨e0, _ | ⟨e1, _ | ⟨e2, _ | ⟨e3, rest⟩⟩⟩⟩
  · simp at hlen
  · simp at hlen
  · simp at hlen
  · simp at hlen
  · exact ⟨e0, e1, e2, e3, rest, rfl, by simpa using h⟩

/-- Scenario A when candidate 0 holds the single ballot `v` and the two other
candidates hold two and three ballots. -/
theorem scenario_a_x0 (M fuel : Nat) (v : vote_t) (l1 l2 iv : List vote_t) (ic : Int)
    (hv : fresh_ballot 0 v)
    (hlen : (l1.length = 2 ∧ l2.length = 3) ∨ (l1.length = 3 ∧ l2.length = 2)) :
    scenario_a_course (M + 4) fuel (fresh_tally4 [v] l1 l2 [] iv ic) := by
  obtain ⟨id, pos, order⟩ := v
  obtain ⟨hpos, hfirst, hperm⟩ := hv
  simp only at hpos hfirst hperm
  subst hpos
  obtain ⟨e0, e1, e2, e3, rest, rfl, hp⟩ := ranking_of_four order hperm
  have he0 : e0 = 0 := by simpa [readAt] using hfirst
  subst he0
  have hnd : [0, e1, e2, e3].Nodup := hp.nodup_iff.2 (by decide)
  have h1 : e1 = 0 ∨ e1 = 1 ∨ e1 = 2 ∨ e1 = 3 := by
    simpa using hp.subset (by simp : e1 ∈ [0, e1, e2, e3])
  have h2 : e2 = 0 ∨ e2 = 1 ∨ e2 = 2 ∨ e2 = 3 := by
    simpa using hp.subset (by simp : e2 ∈ [0, e1, e2, e3])
  have h3 : e3 = 0 ∨ e3 = 1 ∨ e3 = 2 ∨ e3 = 3 := by
    simpa using hp.subset (by simp : e3 ∈ [0, e1, e2, e3])
  have hr : List.range 4 = [0, 1, 2, 3] := rfl
  have hg0 : (0 : Int) < (M : Int) + 4 := by omega
  have hg1 : (1 : Int) < (M : Int) + 4 := by omega
  have hg2 : (2 : Int) < (M : Int) + 4 := by omega
  clear hp hperm hfirst
  rcases h1 with rfl | rfl | rfl | rfl <;> rcases h2 with rfl | rfl | rfl | rfl <;>
    rcases h3 with rfl | rfl | rfl | rfl <;>
    first
    | (exfalso; revert hnd; decide)
    | (rcases hlen with ⟨ha, hb⟩ | ⟨ha, hb⟩ <;>
        simp [scenario_a_course, election_rounds, tally_election, election_loop, tally_condition,
          condition_loop, election_round, tally_drop_minvote_candidates, tally_t.candidate_count,
          hr, drop_loop, tally_set_minvote_candidates, min_vote_loop, set_status,
          transfer_loop_zero_row, readAt, transfer_loop, tally_transfer_first_vote,
          vote_next_candidate, next_active_loop, tally_add_vote, tally_t.candidate_status,
          NO_CANDIDATE, hg0, hg1, hg2, fresh_tally4, ha, hb, election_loop_done, scenario_a_end])

/-- Scenario A when candidate 1 holds the single ballot `v` and the two other
candidates hold two and three ballots. -/
theorem scenario_a_x1 (M fuel : Nat) (v : vote_t) (l0 l2 iv : List vote_t) (ic : Int)
    (hv : fresh_ballot 1 v)
    (hlen : (l0.length = 2 ∧ l2.length = 3) ∨ (l0.length = 3 ∧ l2.length = 2)) :
    scenario_a_course (M + 4) fuel (fresh_tally4 l0 [v] l2 [] iv ic) := by
  obtain ⟨id, pos, order⟩ := v
  obtain ⟨hpos, hfirst, hperm⟩ := hv
  simp only at hpos hfirst hperm
  subst hpos
  obtain ⟨e0, e1, e2, e3, rest, rfl, hp⟩ := ranking_of_four order hperm
  have he0 : e0 = 1 := by simpa [readAt] using hfirst
  subst he0
  have hnd : [1, e1, e2, e3].Nodup := hp.nodup_iff.2 (by decide)
  have h1 : e1 = 0 ∨ e1 = 1 ∨ e1 = 2 ∨ e1 = 3 := by
    simpa using hp.subset (by simp : e1 ∈ [1, e1, e2, e3])
  have h2 : e2 = 0 ∨ e2 = 1 ∨ e2 = 2 ∨ e2 = 3 := by
    simpa using hp.subset (by simp : e2 ∈ [1, e1, e2, e3])
  have h3 : e3 = 0 ∨ e3 = 1 ∨ e3 = 2 ∨ e3 = 3 := by
    simpa using hp.subset (by simp : e3 ∈ [1, e1, e2, e3])
  have hr : List.range 4 = [0, 1, 2, 3] := rfl
  have hg0 : (0 : Int) < (M : Int) + 4 := by omega
  have hg1 : (1 : Int) < (M : Int) + 4 := by omega
  have hg2 : (2 : Int) < (M : Int) + 4 := by omega
  clear hp hperm hfirst
  rcases h1 with rfl | rfl | rfl | rfl <;> rcases h2 with rfl | rfl | rfl | rfl <;>
    rcases h3 with rfl | rfl | rfl | rfl <;>
    first
    | (exfalso; revert hnd; decide)
    | (rcases hlen with ⟨ha, hb⟩ | ⟨ha, hb⟩ <;>
        simp [scenario_a_course, election_rounds, tally_election, election_loop, tally_condition,
          condition_loop, election_round, tally_drop_minvote_candidates, tally_t.candidate_count,
          hr, drop_loop, tally_set_minvote_candidates, min_vote_loop, set_status,
          transfer_loop_zero_row, readAt, transfer_loop, tally_transfer_first_vote,
          vote_next_candidate, next_active_loop, tally_add_vote, tally_t.candidate_status,
          NO_CANDIDATE, hg0, hg1, hg2, fresh_tally4, ha, hb, election_loop_done, scenario_a_end])

/-- Scenario A when candidate 2 holds the single ballot `v` and the two other
candidates hold two and three ballots. -/
theorem scenario_a_x2 (M fuel : Nat) (v : vote_t) (l0 l1 iv : List vote_t) (ic : Int)
    (hv : fresh_ballot 2 v)
    (hlen : (l0.length = 2 ∧ l1.length = 3) ∨ (l0.length = 3 ∧ l1.length = 2)) :
    scenario_a_course (M + 4) fuel (fresh_tally4 l0 l1 [v] [] iv ic) := by
  obtain ⟨id, pos, order⟩ := v
  obtain ⟨hpos, hfirst, hperm⟩ := hv
  simp only at hpos hfirst hperm
  subst hpos
  obtain ⟨e0, e1, e2, e3, rest, rfl, hp⟩ := ranking_of_four order hperm
  have he0 : e0 = 2 := by simpa [readAt] using hfirst
  subst he0
  have hnd : [2, e1, e2, e3].Nodup := hp.nodup_iff.2 (by decide)
  have h1 : e1 = 0 ∨ e1 = 1 ∨ e1 = 2 ∨ e1 = 3 := by
    simpa using hp.subset (by simp : e1 ∈ [2, e1, e2, e3])
  have h2 : e2 = 0 ∨ e2 = 1 ∨ e2 = 2 ∨ e2 = 3 := by
    simpa using hp.subset (by simp : e2 ∈ [2, e1, e2, e3])
  have h3 : e3 = 0 ∨ e3 = 1 ∨ e3 = 2 ∨ e3 = 3 := by
    simpa using hp.subset (by simp : e3 ∈ [2, e1, e2, e3])
  have hr : List.range 4 = [0, 1, 2, 3] := rfl
  have hg0 : (0 : Int) < (M : Int) + 4 := by omega
  have hg1 : (1 : Int) < (M : Int) + 4 := by omega
  have hg2 : (2 : Int) < (M : Int) + 4 := by omega
  clear hp hperm hfirst
  rcases h1 with rfl | rfl | rfl | rfl <;> rcases h2 with rfl | rfl | rfl | rfl <;>
    rcases h3 with rfl | rfl | rfl | rfl <;>
    first
    | (exfalso; revert hnd; decide)
    | (rcases hlen with ⟨ha, hb⟩ | ⟨ha, hb⟩ <;>
        simp [scenario_a_course, election_rounds, tally_election, election_loop, tally_condition,
          condition_loop, election_round, tally_drop_minvote_candidates, tally_t.candidate_count,
          hr, drop_loop, tally_set_minvote_candidates, min_vote_loop, set_status,
          transfer_loop_zero_row, readAt, transfer_loop, tally_transfer_first_vote,
          vote_next_candidate, next_active_loop, tally_add_vote, tally_t.candidate_status,
          NO_CANDIDATE, hg0, hg1, hg2, fresh_tally4, ha, hb, election_loop_done, scenario_a_end])

/-! ## Scenarios of the whole election -/

/-- C18 (two-way tie), evaluated at `crowd`: exactly two candidates, both active,
with 1000 ballots each and no other candidate. Whatever the number of rounds
allowed, the loop of `tally_election` is still running when they are used up:
the election does not end, so not with `TALLY_TIE`. -/
theorem C18_tied_pair_never_ends (MAX_CANDIDATES fuel : Nat) :
    well_formed crowd ∧ crowd.candidate_status = [CAND_ACTIVE, CAND_ACTIVE] ∧
      crowd.candidates.map candidate_t.candidate_vote_counts = [1000, 1000] ∧
      tally_election MAX_CANDIDATES fuel crowd = election_run.unfinished := by
  refine ⟨crowd_well_formed, by decide, by decide, ?_⟩
  have hc : tally_condition crowd = TALLY_CONTINUE := by decide
  have hr : election_round MAX_CANDIDATES crowd = some crowd := rfl
  have hloop : ∀ (fuel round : Nat),
      election_loop MAX_CANDIDATES fuel round crowd = election_run.unfinished := by
    intro fuel
    induction fuel with
    | zero =>
      intro round
      unfold election_loop
      rw [if_pos hc]
    | succ fuel ih =>
      intro round
      unfold election_loop
      rw [if_pos hc, hr]
      exact ih (round + 1)
  exact hloop fuel 0

theorem int_wrap_eq (x : Int) (hmin : INT_MIN ≤ x) (hmax : x ≤ INT_MAX) : int_wrap x = x := by
  unfold int_wrap
  unfold INT_MIN at hmin ⊢
  unfold INT_MAX at hmax
  omega

/-- The function `tally_add_vote` and `tally_add_vote_int` agree on a ballot whose
candidate has a vote count that is an `int` below `INT_MAX`. -/
theorem tally_add_vote_int_eq (tally : tally_t) (vote : vote_t) (c : Nat) (cd : candidate_t)
    (hcur : readAt vote.candidate_order vote.pos = some (c : Int))
    (hc : tally.candidates[c]? = some cd)
    (hmin : INT_MIN ≤ cd.candidate_vote_counts) (hmax : cd.candidate_vote_counts < INT_MAX) :
    tally_add_vote_int tally vote = tally_add_vote tally vote := by
  have hrow : readAt tally.candidates (c : Int) = some cd := by rw [readAt_ofNat]; exact hc
  have hw : int_wrap (cd.candidate_vote_counts + 1) = cd.candidate_vote_counts + 1 :=
    int_wrap_eq _ (by unfold INT_MIN at hmin ⊢; omega) (by unfold INT_MAX at hmax ⊢; omega)
  unfold tally_add_vote_int tally_add_vote
  simp only [hcur, hrow, hw]

/-- C21 (adding a vote), as amended. For every tally and every ballot whose
cursor holds the index `c` of a candidate of the tally, the vote count of `c`
being an `int` below `INT_MAX`: `tally_add_vote`, with the count as the machine
`int` it is, returns; the row of `c` keeps its status, has the ballot in front of
its former list and a count exactly one more; every other row and every status
is unchanged, and so is the Invalid Pool. -/
theorem C21_add_vote_front (tally : tally_t) (vote : vote_t) (c : Nat) (cd : candidate_t)
    (hcur : readAt vote.candidate_order vote.pos = some (c : Int))
    (hc : tally.candidates[c]? = some cd)
    (hmin : INT_MIN ≤ cd.candidate_vote_counts) (hmax : cd.candidate_vote_counts < INT_MAX) :
    ∃ tally1, tally_add_vote_int tally vote = some tally1 ∧
      tally1.candidates[c]?
        = some ⟨cd.candidate_status, vote :: cd.candidate_votes, cd.candidate_vote_counts + 1⟩ ∧
      (∀ i : Nat, i ≠ c → tally1.candidates[i]? = tally.candidates[i]?) ∧
      tally1.candidate_status = tally.candidate_status ∧
      tally1.invalid_votes = tally.invalid_votes ∧
      tally1.invalid_vote_count = tally.invalid_vote_count := by
  have hrow : readAt tally.candidates (c : Int) = some cd := by rw [readAt_ofNat]; exact hc
  have hlen : c < tally.candidates.length := (List.getElem?_eq_some.1 hc).1
  have hw : int_wrap (cd.candidate_vote_counts + 1) = cd.candidate_vote_counts + 1 :=
    int_wrap_eq _ (by unfold INT_MIN at hmin ⊢; omega) (by unfold INT_MAX at hmax ⊢; omega)
  refine ⟨⟨tally.candidates.set c
      ⟨cd.candidate_status, vote :: cd.candidate_votes, cd.candidate_vote_counts + 1⟩,
    tally.invalid_votes, tally.invalid_vote_count⟩, ?_, ?_, ?_, ?_, rfl, rfl⟩
  · unfold tally_add_vote_int
    simp only [hcur, hrow, Int.toNat_ofNat, hw]
  · show (tally.candidates.set c _)[c]? = _
    rw [List.getElem?_set_self hlen]
  · intro i hi
    show (tally.candidates.set c _)[i]? = _
    rw [List.getElem?_set_ne (Ne.symm hi)]
  · exact map_set_same candidate_t.candidate_status tally.candidates c cd _ hc rfl

/-- C21 as amended, at `transfer_example` and a new ballot that ranks candidate 0
first. -/
theorem C21_add_vote_front_witness :
    ∃ tally1, tally_add_vote_int transfer_example ⟨3, 0, [0, 2, 1, -1]⟩ = some tally1 ∧
      tally1.candidates[0]?
        = some ⟨CAND_ACTIVE, [⟨3, 0, [0, 2, 1, -1]⟩, ⟨1, 0, [0, 1, 2, -1]⟩], 1 + 1⟩ ∧
      (∀ i : Nat, i ≠ 0 → tally1.candidates[i]? = transfer_example.candidates[i]?) ∧
      tally1.candidate_status = transfer_example.candidate_status ∧
      tally1.invalid_votes = transfer_example.invalid_votes ∧
      tally1.invalid_vote_count = transfer_example.invalid_vote_count :=
  C21_add_vote_front transfer_example ⟨3, 0, [0, 2, 1, -1]⟩ 0
    ⟨CAND_ACTIVE, [⟨1, 0, [0, 1, 2, -1]⟩], 1⟩ (by decide) (by decide) (by decide) (by decide)

/-- C21 as it is written (for every tally) fails at `count_at_int_max`: the
cursor of the ballot holds candidate 0, a candidate of the tally, whose vote
count is `INT_MAX`; `tally_add_vote` puts the ballot in its list and leaves it
the count `INT_MIN`, so the count has not gone up by exactly 1. -/
theorem C21_add_vote_overflows :
    readAt (⟨1, 0, [0, 1, -1]⟩ : vote_t).candidate_order 0 = some 0 ∧
      count_at_int_max.candidates[0]? = some ⟨CAND_ACTIVE, [], INT_MAX⟩ ∧
      tally_add_vote_int count_at_int_max ⟨1, 0, [0, 1, -1]⟩
        = some ⟨[⟨CAND_ACTIVE, [⟨1, 0, [0, 1, -1]⟩], INT_MIN⟩, ⟨CAND_ACTIVE, [], 0⟩], [], 0⟩ ∧
      ¬ ∃ tally1, tally_add_vote_int count_at_int_max ⟨1, 0, [0, 1, -1]⟩ = some tally1 ∧
          tally1.candidates[0]? = some ⟨CAND_ACTIVE, [⟨1, 0, [0, 1, -1]⟩], INT_MAX + 1⟩ := by
  have h : tally_add_vote_int count_at_int_max ⟨1, 0, [0, 1, -1]⟩
      = some ⟨[⟨CAND_ACTIVE, [⟨1, 0, [0, 1, -1]⟩], INT_MIN⟩, ⟨CAND_ACTIVE, [], 0⟩], [], 0⟩ := by
    decide
  refine ⟨by decide, by decide, h, ?_⟩
  rintro ⟨tally1, h1, h2⟩
  rw [h] at h1
  have h3 := Option.some.inj h1
  rw [← h3] at h2
  revert h2
  decide

/-! ## The classification and the counts -/

/-- The result of the first loop of `tally_set_minvote_candidates` is at most the
count of every row that is not dropped. -/
theorem min_vote_loop_le_row : ∀ (l : List candidate_t) (a : Int) (cd : candidate_t),
    cd ∈ l → cd.candidate_status ≠ CAND_DROPPED → min_vote_loop l a ≤ cd.candidate_vote_counts := by
  intro l
  induction l with
  | nil => intro a cd h; simp at h
  | cons x l ih =>
    intro a cd hmem hnd
    have hstep : min_vote_loop (x :: l) a
        = min_vote_loop l (if x.candidate_status ≠ CAND_DROPPED ∧ x.candidate_vote_counts < a
            then x.candidate_vote_counts else a) := by
      simp [min_vote_loop]
    rw [hstep]
    rcases List.mem_cons.1 hmem with rfl | hmem
    · refine le_trans (min_vote_loop_le l _) ?_
      split
      · exact le_refl _
      · rename_i hn
        have : ¬ cd.candidate_vote_counts < a := fun hlt => hn ⟨hnd, hlt⟩
        omega
    · exact ih _ cd hmem hnd

/-- Row `i` of the tally after `tally_set_minvote_candidates`. -/
theorem set_minvote_row (t : tally_t) (i : Nat) :
    (tally_set_minvote_candidates t).candidates[i]?
      = (t.candidates[i]?).map fun cd =>
          if cd.candidate_vote_counts = min_vote_loop t.candidates 999 then
            (⟨CAND_MINVOTES, cd.candidate_votes, cd.candidate_vote_counts⟩ : candidate_t)
          else cd := by
  unfold tally_set_minvote_candidates
  simp only [List.getElem?_map]

/-- After `tally_set_minvote_candidates`, a row that is active holds more votes
than the minimum found, and a row that the call has marked holds exactly the
minimum found. -/
theorem set_minvote_counts (t : tally_t) (i : Nat) (cd0 cd1 : candidate_t)
    (h0 : t.candidates[i]? = some cd0)
    (h1 : (tally_set_minvote_candidates t).candidates[i]? = some cd1) :
    cd1.candidate_vote_counts = cd0.candidate_vote_counts ∧
      (cd1.candidate_status = CAND_ACTIVE →
        min_vote_loop t.candidates 999 < cd1.candidate_vote_counts) ∧
      (cd0.candidate_status ≠ CAND_MINVOTES → cd1.candidate_status = CAND_MINVOTES →
        cd1.candidate_vote_counts = min_vote_loop t.candidates 999) := by
  rw [set_minvote_row, h0] at h1
  simp only [Option.map_some', Option.some.injEq] at h1
  by_cases hm : cd0.candidate_vote_counts = min_vote_loop t.candidates 999
  · rw [if_pos hm] at h1
    subst h1
    refine ⟨rfl, ?_, fun _ _ => hm⟩
    intro h
    have h' : CAND_MINVOTES = CAND_ACTIVE := h
    cases h'
  · rw [if_neg hm] at h1
    subst h1
    refine ⟨rfl, ?_, fun hne he => absurd he hne⟩
    intro hact
    have hmem : cd0 ∈ t.candidates := List.mem_iff_getElem?.2 ⟨i, h0⟩
    have hle := min_vote_loop_le_row t.candidates 999 cd0 hmem (by rw [hact]; decide)
    omega

/-- How a run of the loop of `tally_election` that takes at least one round
ends: its final tally is a `tally_set_minvote_candidates` of the result of a
`tally_drop_minvote_candidates`. -/
theorem election_loop_finished (M : Nat) :
    ∀ (fuel r : Nat) (t : tally_t) (r1 : Nat) (t1 : tally_t),
      election_loop M fuel r t = election_run.finished r1 t1 →
      (r1 = r ∧ t1 = t) ∨
        (r < r1 ∧ ∃ t0 t2, tally_drop_minvote_candidates M t0 = some t2 ∧
          t1 = tally_set_minvote_candidates t2) := by
  intro fuel
  induction fuel with
  | zero =>
    intro r t r1 t1 h
    unfold election_loop at h
    split at h
    · cases h
    · simp only [election_run.finished.injEq] at h
      exact Or.inl ⟨h.1.symm, h.2.symm⟩
  | succ fuel ih =>
    intro r t r1 t1 h
    unfold election_loop at h
    split at h
    · cases hr : election_round M t with
      | none => simp [hr] at h
      | some t2 =>
        simp only [hr] at h
        right
        rcases ih (r + 1) t2 r1 t1 h with ⟨h1, h2⟩ | ⟨h1, h2⟩
        · refine ⟨by omega, ?_⟩
          subst h2
          unfold election_round at hr
          cases hd : tally_drop_minvote_candidates M t with
          | none => simp [hd] at hr
          | some t3 =>
            simp only [hd, Option.map_some', Option.some.injEq] at hr
            exact ⟨t, t3, hd, hr.symm⟩
        · exact ⟨by omega, h2⟩
    · simp only [election_run.finished.injEq] at h
      exact Or.inl ⟨h.1.symm, h.2.symm⟩

/-- No row is at the minimum after `tally_drop_minvote_candidates`. -/
theorem drop_no_minvotes (M : Nat) (t t1 : tally_t)
    (h : tally_drop_minvote_candidates M t = some t1) (i : Nat) (cd : candidate_t)
    (hi : t1.candidates[i]? = some cd) : cd.candidate_status ≠ CAND_MINVOTES := by
  have hst := drop_candidate_status M t t1 h
  intro hm
  have hmem : CAND_MINVOTES ∈ t1.candidate_status := by
    unfold tally_t.candidate_status
    exact List.mem_map.2 ⟨cd, List.mem_iff_getElem?.2 ⟨i, hi⟩, hm⟩
  rw [hst] at hmem
  obtain ⟨s, _, hs⟩ := List.mem_map.1 hmem
  by_cases hsm : s = CAND_MINVOTES
  · rw [if_pos hsm] at hs
    cases hs
  · rw [if_neg hsm] at hs
    exact hsm hs

/-- C24 (survivors strictly beat the newly marked). For every tally: after
`tally_set_minvote_candidates`, every candidate that is active holds strictly
more votes than every candidate that was not `CAND_MINVOTES` before the call
and is after it; and when `tally_election` ends after at least one round (in
particular with `TALLY_WINNER`), every active candidate of the final tally holds
strictly more votes than every candidate at the minimum. -/
theorem C24_survivors_beat_marked (tally : tally_t) :
    (∀ (i j : Nat) (cdi cdj0 cdj : candidate_t),
        (tally_set_minvote_candidates tally).candidates[i]? = some cdi →
        cdi.candidate_status = CAND_ACTIVE →
        tally.candidates[j]? = some cdj0 → cdj0.candidate_status ≠ CAND_MINVOTES →
        (tally_set_minvote_candidates tally).candidates[j]? = some cdj →
        cdj.candidate_status = CAND_MINVOTES →
        cdj.candidate_vote_counts < cdi.candidate_vote_counts) ∧
      (∀ (MAX_CANDIDATES fuel round : Nat) (tally1 : tally_t),
        tally_election MAX_CANDIDATES fuel tally = election_run.finished (round + 1) tally1 →
        ∀ (i j : Nat) (cdi cdj : candidate_t),
          tally1.candidates[i]? = some cdi → cdi.candidate_status = CAND_ACTIVE →
          tally1.candidates[j]? = some cdj → cdj.candidate_status = CAND_MINVOTES →
          cdj.candidate_vote_counts < cdi.candidate_vote_counts) := by
  have hA : ∀ (t : tally_t) (i j : Nat) (cdi cdj0 cdj : candidate_t),
      (tally_set_minvote_candidates t).candidates[i]? = some cdi →
      cdi.candidate_status = CAND_ACTIVE →
      t.candidates[j]? = some cdj0 → cdj0.candidate_status ≠ CAND_MINVOTES →
      (tally_set_minvote_candidates t).candidates[j]? = some cdj →
      cdj.candidate_status = CAND_MINVOTES →
      cdj.candidate_vote_counts < cdi.candidate_vote_counts := by
    intro t i j cdi cdj0 cdj hi hact hj0 hnm hj hm
    have hrow : ∃ cdi0, t.candidates[i]? = some cdi0 := by
      rw [set_minvote_row] at hi
      cases hx : t.candidates[i]? with
      | none => simp [hx] at hi
      | some x => exact ⟨x, rfl⟩
    obtain ⟨cdi0, hi0⟩ := hrow
    have h1 := (set_minvote_counts t i cdi0 cdi hi0 hi).2.1 hact
    have h2 := (set_minvote_counts t j cdj0 cdj hj0 hj).2.2 hnm hm
    omega
  refine ⟨hA tally, ?_⟩
  intro M fuel round tally1 hrun i j cdi cdj hi hact hj hm
  rcases election_loop_finished M fuel 0 tally (round + 1) tally1 hrun with
    ⟨h0, _⟩ | ⟨_, t0, t2, hdrop, rfl⟩
  · omega
  · have hrow : ∃ cdj0, t2.candidates[j]? = some cdj0 := by
      rw [set_minvote_row] at hj
      cases hx : t2.candidates[j]? with
      | none => simp [hx] at hj
      | some x => exact ⟨x, rfl⟩
    obtain ⟨cdj0, hj0⟩ := hrow
    exact hA t2 i j cdi cdj0 cdj hi hact hj0 (drop_no_minvotes M t0 t2 hdrop j cdj0 hj0) hj hm

/-- C24, at `small_election`: its election ends after two rounds with candidate 0
the winner (3 votes) and candidate 1 at the minimum (2 votes). -/
theorem C24_survivors_beat_marked_witness :
    tally_election 4 10 small_election = election_run.finished 2 small_election_done ∧
      tally_condition small_election_done = TALLY_WINNER ∧
      ∀ (i j : Nat) (cdi cdj : candidate_t),
        small_election_done.candidates[i]? = some cdi → cdi.candidate_status = CAND_ACTIVE →
        small_election_done.candidates[j]? = some cdj →
        cdj.candidate_status = CAND_MINVOTES →
        cdj.candidate_vote_counts < cdi.candidate_vote_counts :=
  ⟨by decide, by decide,
    (C24_survivors_beat_marked small_election).2 4 10 1 small_election_done (by decide)⟩

/-- C25 (tie members are really tied). For every tally: after one round body
(`tally_drop_minvote_candidates` then `tally_set_minvote_candidates`), whenever
it returns, any two candidates with status `CAND_MINVOTES` hold the same number
of votes; and so do any two such candidates of the final tally whenever
`tally_election` ends after at least one round (in particular with
`TALLY_TIE`). -/
theorem C25_tie_members_tied (MAX_CANDIDATES : Nat) (tally : tally_t) :
    (∀ (tally1 : tally_t), election_round MAX_CANDIDATES tally = some tally1 →
        ∀ (i j : Nat) (cdi cdj : candidate_t),
          tally1.candidates[i]? = some cdi → cdi.candidate_status = CAND_MINVOTES →
          tally1.candidates[j]? = some cdj → cdj.candidate_status = CAND_MINVOTES →
          cdi.candidate_vote_counts = cdj.candidate_vote_counts) ∧
      (∀ (fuel round : Nat) (tally1 : tally_t),
        tally_election MAX_CANDIDATES fuel tally = election_run.finished (round + 1) tally1 →
        ∀ (i j : Nat) (cdi cdj : candidate_t),
          tally1.candidates[i]? = some cdi → cdi.candidate_status = CAND_MINVOTES →
          tally1.candidates[j]? = some cdj → cdj.candidate_status = CAND_MINVOTES →
          cdi.candidate_vote_counts = cdj.candidate_vote_counts) := by
  have hA : ∀ (t0 t2 : tally_t), tally_drop_minvote_candidates MAX_CANDIDATES t0 = some t2 →
      ∀ (i j : Nat) (cdi cdj : candidate_t),
        (tally_set_minvote_candidates t2).candidates[i]? = some cdi →
        cdi.candidate_status = CAND_MINVOTES →
        (tally_set_minvote_candidates t2).candidates[j]? = some cdj →
        cdj.candidate_status = CAND_MINVOTES →
        cdi.candidate_vote_counts = cdj.candidate_vote_counts := by
    intro t0 t2 hdrop i j cdi cdj hi hmi hj hmj
    have hrow : ∀ (n : Nat) (cd : candidate_t),
        (tally_set_minvote_candidates t2).candidates[n]? = some cd →
        ∃ cd0, t2.candidates[n]? = some cd0 := by
      intro n cd hn
      rw [set_minvote_row] at hn
      cases hx : t2.candidates[n]? with
      | none => simp [hx] at hn
      | some x => exact ⟨x, rfl⟩
    obtain ⟨cdi0, hi0⟩ := hrow i cdi hi
    obtain ⟨cdj0, hj0⟩ := hrow j cdj hj
    have h1 := (set_minvote_counts t2 i cdi0 cdi hi0 hi).2.2
      (drop_no_minvotes MAX_CANDIDATES t0 t2 hdrop i cdi0 hi0) hmi
    have h2 := (set_minvote_counts t2 j cdj0 cdj hj0 hj).2.2
      (drop_no_minvotes MAX_CANDIDATES t0 t2 hdrop j cdj0 hj0) hmj
    rw [h1, h2]
  constructor
  · intro tally1 hr
    unfold election_round at hr
    cases hd : tally_drop_minvote_candidates MAX_CANDIDATES tally with
    | none => simp [hd] at hr
    | some t2 =>
      simp only [hd, Option.map_some', Option.some.injEq] at hr
      subst hr
      exact hA tally t2 hd
  · intro fuel round tally1 hrun
    rcases election_loop_finished MAX_CANDIDATES fuel 0 tally (round + 1) tally1 hrun with
      ⟨h0, _⟩ | ⟨_, t0, t2, hdrop, rfl⟩
    · omega
    · exact hA t0 t2 hdrop

/-- C25, at `scenario_a_tie`: its election ends after three rounds in a tie
between candidates 0 and 1, who hold three votes each. -/
theorem C25_tie_members_tied_witness :
    tally_election 4 10 scenario_a_tie = election_run.finished 3 scenario_a_tie_done ∧
      tally_condition scenario_a_tie_done = TALLY_TIE ∧
      ∀ (i j : Nat) (cdi cdj : candidate_t),
        scenario_a_tie_done.candidates[i]? = some cdi →
        cdi.candidate_status = CAND_MINVOTES →
        scenario_a_tie_done.candidates[j]? = some cdj →
        cdj.candidate_status = CAND_MINVOTES →
        cdi.candidate_vote_counts = cdj.candidate_vote_counts :=
  ⟨by decide, by decide,
    (C25_tie_members_tied 4 scenario_a_tie).2 10 2 scenario_a_tie_done (by decide)⟩

/-! ## Who receives a transferred vote -/

theorem no_gain_refl (t : tally_t) : no_gain_for_inactive t t :=
  fun _ cd h hs => ⟨cd, h, hs, le_refl _⟩

theorem no_gain_trans (t t1 t2 : tally_t) (h1 : no_gain_for_inactive t t1)
    (h2 : no_gain_for_inactive t1 t2) : no_gain_for_inactive t t2 := by
  intro n cd hn hs
  obtain ⟨cd1, hn1, hs1, hc1⟩ := h1 n cd hn hs
  obtain ⟨cd2, hn2, hs2, hc2⟩ := h2 n cd1 hn1 hs1
  exact ⟨cd2, hn2, hs2, le_trans hc2 hc1⟩

theorem transfer_no_gain (M : Nat) (t t1 : tally_t) (c : Int)
    (h : tally_transfer_first_vote M t c = some t1) : no_gain_for_inactive t t1 := by
  obtain ⟨i, cd, hc, hi, hcase⟩ := transfer_some M t t1 c h
  have hilen : i < t.candidates.length := (List.getElem?_eq_some.1 hi).1
  rcases hcase with ⟨_, ht⟩ | ⟨curr, next, hv, _, hcase⟩
  · rw [ht]
    exact no_gain_refl t
  · rcases hcase with ⟨_, ht⟩ | ⟨curr1, r, j, cdj, hcur, hnext, hc1, hj, ht⟩
    · rw [ht]
      intro n x hn hs
      by_cases hin : i = n
      · have hx : x = cd := by
          rw [← hin, hi] at hn
          exact (Option.some.inj hn).symm
        rw [hx] at hs ⊢
        exact ⟨⟨cd.candidate_status, next, cd.candidate_vote_counts⟩, by
          show (t.candidates.set i _)[n]? = _
          rw [← hin]; exact List.getElem?_set_self hilen, hs, le_refl _⟩
      · exact ⟨x, by
          show (t.candidates.set i _)[n]? = some x
          rw [List.getElem?_set_ne hin]; exact hn, hs, le_refl _⟩
    · rw [ht]
      have hjlen : j < (t.candidates.set i
          ⟨cd.candidate_status, next, cd.candidate_vote_counts - 1⟩).length :=
        (List.getElem?_eq_some.1 hj).1
      -- the destination is the source itself or an active candidate
      have hdest : j = i ∨ (j ≠ i ∧ t.candidates[j]? = some cdj ∧
          cdj.candidate_status = CAND_ACTIVE) := by
        by_cases hji : j = i
        · exact Or.inl hji
        · right
          have hjrow : t.candidates[j]? = some cdj := by
            rw [List.getElem?_set_ne (fun e => hji e.symm)] at hj
            exact hj
          refine ⟨hji, hjrow, ?_⟩
          obtain ⟨_, _, _, hres⟩ := vote_next_candidate_some M curr curr1 _ r hnext
          rcases hres with ⟨he, _, _⟩ | ⟨_, hr, hact⟩
          · exfalso
            rw [he, hcur, hc] at hc1
            have := Option.some.inj hc1
            omega
          · rw [hc1] at hr
            have hrj : r = (j : Int) := (Option.some.inj hr).symm
            rw [hrj, readAt_ofNat] at hact
            simp only [tally_t.candidate_status, List.getElem?_map, hjrow, Option.map_some',
              Option.some.injEq] at hact
            exact hact
      intro n x hn hs
      by_cases hjn : j = n
      · rcases hdest with hji | ⟨hji, hjrow, hact⟩
        · have hx : x = cd := by
            rw [← hjn, hji, hi] at hn
            exact (Option.some.inj hn).symm
          have hcdj : cdj = ⟨cd.candidate_status, next, cd.candidate_vote_counts - 1⟩ := by
            rw [hji, List.getElem?_set_self hilen] at hj
            exact (Option.some.inj hj).symm
          rw [hx] at hs ⊢
          refine ⟨_, by
            show ((t.candidates.set i _).set j _)[n]? = _
            rw [← hjn]; exact List.getElem?_set_self hjlen, ?_, ?_⟩
          · rw [hcdj]
            exact hs
          · rw [hcdj]
            show cd.candidate_vote_counts - 1 + 1 ≤ cd.candidate_vote_counts
            omega
        · exfalso
          rw [← hjn, hjrow] at hn
          have hx : cdj = x := Option.some.inj hn
          rw [hx] at hact
          exact hs hact
      · by_cases hin : i = n
        · have hx : x = cd := by
            rw [← hin, hi] at hn
            exact (Option.some.inj hn).symm
          rw [hx] at hs ⊢
          refine ⟨⟨cd.candidate_status, next, cd.candidate_vote_counts - 1⟩, ?_, hs, ?_⟩
          · show ((t.candidates.set i _).set j _)[n]? = _
            rw [List.getElem?_set_ne hjn, ← hin, List.getElem?_set_self hilen]
          · show cd.candidate_vote_counts - 1 ≤ cd.candidate_vote_counts
            omega
        · refine ⟨x, ?_, hs, le_refl _⟩
          show ((t.candidates.set i _).set j _)[n]? = _
          rw [List.getElem?_set_ne hjn, List.getElem?_set_ne hin]
          exact hn

theorem set_status_no_gain (t : tally_t) (i : Nat) :
    no_gain_for_inactive t (set_status t i CAND_DROPPED) := by
  intro n cd hn hs
  unfold set_status
  cases hi : t.candidates[i]? with
  | none => exact ⟨cd, hn, hs, le_refl _⟩
  | some x =>
    have hilen : i < t.candidates.length := (List.getElem?_eq_some.1 hi).1
    by_cases hin : i = n
    · have hx : cd = x := by
        rw [← hin, hi] at hn
        exact (Option.some.inj hn).symm
      refine ⟨⟨CAND_DROPPED, x.candidate_votes, x.candidate_vote_counts⟩, ?_, ?_, ?_⟩
      · show (t.candidates.set i _)[n]? = _
        rw [← hin]
        exact List.getElem?_set_self hilen
      · show CAND_DROPPED ≠ CAND_ACTIVE
        decide
      · rw [hx]
    · refine ⟨cd, ?_, hs, le_refl _⟩
      show (t.candidates.set i _)[n]? = _
      rw [List.getElem?_set_ne hin]
      exact hn

theorem transfer_loop_no_gain (M : Nat) (i : Int) :
    ∀ (count : Nat) (t t1 : tally_t), transfer_loop M i count t = some t1 →
      no_gain_for_inactive t t1 := by
  intro count
  induction count with
  | zero =>
    intro t t1 h
    simp only [transfer_loop, Option.some.injEq] at h
    subst h
    exact no_gain_refl t
  | succ count ih =>
    intro t t1 h
    unfold transfer_loop at h
    cases hs : tally_transfer_first_vote M t i with
    | none => simp [hs] at h
    | some t2 =>
      simp only [hs] at h
      exact no_gain_trans t t2 t1 (transfer_no_gain M t t2 i hs) (ih t2 t1 h)

theorem drop_loop_no_gain (M : Nat) :
    ∀ (idx : List Nat) (t t1 : tally_t), drop_loop M idx t = some t1 →
      no_gain_for_inactive t t1 := by
  intro idx
  induction idx with
  | nil =>
    intro t t1 h
    simp only [drop_loop, Option.some.injEq] at h
    subst h
    exact no_gain_refl t
  | cons i rest ih =>
    intro t t1 h
    unfold drop_loop at h
    cases hi : t.candidates[i]? with
    | none => simp [hi] at h
    | some cd =>
      simp only [hi] at h
      by_cases hm : cd.candidate_status = CAND_MINVOTES
      · rw [if_pos hm] at h
        cases hl : transfer_loop M (i : Int) M t with
        | none => simp [hl] at h
        | some t2 =>
          simp only [hl] at h
          exact no_gain_trans t t2 t1 (transfer_loop_no_gain M i M t t2 hl)
            (no_gain_trans _ _ t1 (set_status_no_gain t2 i) (ih _ t1 h))
      · rw [if_neg hm] at h
        exact ih t t1 h

/-- A transfer out of a well-formed row whose front ballot has an active
candidate after its cursor returns. -/
theorem transfer_returns (M : Nat) (t : tally_t) (c k : Nat) (d : Int) (cd : candidate_t)
    (curr : vote_t) (next : List vote_t)
    (hc : t.candidates[c]? = some cd) (hvotes : cd.candidate_votes = curr :: next)
    (hrow : row_ok c cd)
    (hskip : ∀ j, j < k → ∃ x s, readAt curr.candidate_order (curr.pos + 1 + (j : Int)) = some x ∧
      readAt t.candidate_status x = some s ∧ s ≠ CAND_ACTIVE)
    (hd : readAt curr.candidate_order (curr.pos + 1 + (k : Int)) = some d)
    (hact : readAt t.candidate_status d = some CAND_ACTIVE) :
    ∃ t1, tally_transfer_first_vote M t (c : Int) = some t1 := by
  have hcount : cd.candidate_vote_counts ≠ 0 := by
    have := hrow.1
    rw [hvotes] at this
    simp only [List.length_cons, Nat.cast_add, Nat.cast_one] at this
    omega
  have hcursor : readAt curr.candidate_order curr.pos = some (c : Int) :=
    hrow.2 curr (by rw [hvotes]; exact List.mem_cons_self _ _)
  have hclen : c < t.candidates.length := (List.getElem?_eq_some.1 hc).1
  have hst : tally_t.candidate_status
      ⟨t.candidates.set c ⟨cd.candidate_status, next, cd.candidate_vote_counts⟩,
        t.invalid_votes, t.invalid_vote_count⟩ = t.candidate_status :=
    map_set_same candidate_t.candidate_status t.candidates c cd _ hc rfl
  have hrowc : readAt t.candidates (c : Int) = some cd := by rw [readAt_ofNat]; exact hc
  have hread : ∀ (x : Int), (∃ s, readAt t.candidate_status x = some s) →
      ∃ row, readAt (t.candidates.set c
        ⟨cd.candidate_status, next, cd.candidate_vote_counts - 1⟩) x = some row := by
    intro x hx
    obtain ⟨s, hs⟩ := hx
    obtain ⟨n, rfl, hn⟩ := readAt_some_nat hs
    have hnlen : n < t.candidates.length := by
      have := (List.getElem?_eq_some.1 hn).1
      simpa [tally_t.candidate_status] using this
    rw [readAt_ofNat]
    exact ⟨_, List.getElem?_eq_getElem (by rw [List.length_set]; exact hnlen)⟩
  by_cases hg : (c : Int) ≠ NO_CANDIDATE ∧ (c : Int) < (M : Int)
  · have hnext := vote_next_candidate_found M curr t.candidate_status c d k hcursor hg hskip hd
      hact
    obtain ⟨row, hrowd⟩ := hread d ⟨_, hact⟩
    rw [← Option.isSome_iff_exists]
    unfold tally_transfer_first_vote
    simp only [hrowc, hcount, if_false, hvotes, hcursor, if_true, Int.toNat_ofNat, hst, hnext,
      List.set_set]
    unfold tally_add_vote
    simp only [hd, hrowd]
    rfl
  · have hnext : vote_next_candidate M curr t.candidate_status = some (curr, NO_CANDIDATE) := by
      unfold vote_next_candidate
      simp only [hcursor]
      rw [if_neg hg]
    have hcs : ∃ s, readAt t.candidate_status (c : Int) = some s := by
      rw [readAt_ofNat]
      exact ⟨cd.candidate_status, by simp [tally_t.candidate_status, List.getElem?_map, hc]⟩
    obtain ⟨row, hrowd⟩ := hread c hcs
    rw [← Option.isSome_iff_exists]
    unfold tally_transfer_first_vote
    simp only [hrowc, hcount, if_false, hvotes, hcursor, if_true, Int.toNat_ofNat, hst, hnext,
      List.set_set]
    unfold tally_add_vote
    simp only [hcursor, hrowd]
    rfl

/-- C26 (transfers only ever feed active candidates). In a well-formed tally:
when the front ballot of candidate `c` has, after its cursor, `k` candidates
that are not active and then the active candidate `d`,
`tally_transfer_first_vote` returns and no candidate that is not active
(`CAND_MINVOTES`, `CAND_DROPPED`) has a larger vote count than before; and
whenever `tally_drop_minvote_candidates` returns, no candidate that was not
active before it, so none of those being dropped, has a larger vote count
after it. -/
theorem C26_transfer_feeds_active (MAX_CANDIDATES : Nat) (tally : tally_t)
    (hwf : well_formed tally) :
    (∀ (c k : Nat) (d : Int) (cd : candidate_t) (curr : vote_t) (next : List vote_t),
        tally.candidates[c]? = some cd → cd.candidate_votes = curr :: next →
        (∀ j, j < k → ∃ x s, readAt curr.candidate_order (curr.pos + 1 + (j : Int)) = some x ∧
          readAt tally.candidate_status x = some s ∧ s ≠ CAND_ACTIVE) →
        readAt curr.candidate_order (curr.pos + 1 + (k : Int)) = some d →
        readAt tally.candidate_status d = some CAND_ACTIVE →
        ∃ tally1, tally_transfer_first_vote MAX_CANDIDATES tally (c : Int) = some tally1 ∧
          no_gain_for_inactive tally tally1) ∧
      (∀ tally1, tally_drop_minvote_candidates MAX_CANDIDATES tally = some tally1 →
        no_gain_for_inactive tally tally1) := by
  constructor
  · intro c k d cd curr next hc hvotes hskip hd hact
    obtain ⟨tally1, h1⟩ := transfer_returns MAX_CANDIDATES tally c k d cd curr next hc hvotes
      ((well_formed_iff tally).1 hwf c cd hc) hskip hd hact
    exact ⟨tally1, h1, transfer_no_gain MAX_CANDIDATES tally tally1 c h1⟩
  · intro tally1 h
    exact drop_loop_no_gain MAX_CANDIDATES _ tally tally1 h

/-- C26, at `transfer_example`: the ballot of the minimum-vote candidate 2 passes
the dropped candidate 1 and goes to the active candidate 0. -/
theorem C26_transfer_feeds_active_witness :
    well_formed transfer_example ∧
      (∃ tally1, tally_transfer_first_vote 4 transfer_example 2 = some tally1 ∧
        no_gain_for_inactive transfer_example tally1) ∧
      tally_drop_minvote_candidates 4 transfer_example = some transfer_example_dropped ∧
      no_gain_for_inactive transfer_example transfer_example_dropped :=
  ⟨by decide,
    (C26_transfer_feeds_active 4 transfer_example (by decide)).1 2 1 0
      ⟨CAND_MINVOTES, [⟨2, 0, [2, 1, 0, -1]⟩], 1⟩ ⟨2, 0, [2, 1, 0, -1]⟩ [] (by decide) rfl
      (fun j hj => by
        have hj0 : j = 0 := by omega
        subst hj0
        exact ⟨1, CAND_DROPPED, by decide, by decide, by decide⟩)
      (by decide) (by decide),
    by decide,
    (C26_transfer_feeds_active 4 transfer_example (by decide)).2 transfer_example_dropped
      (by decide)⟩

/-! ## The cursor only moves forward -/

theorem mem_ballots (t : tally_t) (v : vote_t) :
    v ∈ ballots t ↔ ∃ (n : Nat) (cd : candidate_t), t.candidates[n]? = some cd ∧
      v ∈ cd.candidate_votes := by
  unfold ballots
  simp only [List.mem_flatten, List.mem_map]
  constructor
  · rintro ⟨l, ⟨cd, hcd, rfl⟩, hv⟩
    obtain ⟨n, hn⟩ := List.mem_iff_getElem?.1 hcd
    exact ⟨n, cd, hn, hv⟩
  · rintro ⟨n, cd, hn, hv⟩
    exact ⟨cd.candidate_votes, ⟨cd, List.mem_iff_getElem?.2 ⟨n, hn⟩, rfl⟩, hv⟩

theorem advanced_refl (v : vote_t) : advanced v v := ⟨rfl, rfl, le_refl _⟩

theorem advanced_trans (v v1 v2 : vote_t) (h1 : advanced v v1) (h2 : advanced v1 v2) :
    advanced v v2 :=
  ⟨h2.1.trans h1.1, h2.2.1.trans h1.2.1, le_trans h1.2.2 h2.2.2⟩

theorem ballots_advanced_refl (t : tally_t) : ballots_advanced t t :=
  fun v hv => ⟨v, hv, advanced_refl v⟩

theorem ballots_advanced_trans (t t1 t2 : tally_t) (h1 : ballots_advanced t t1)
    (h2 : ballots_advanced t1 t2) : ballots_advanced t t2 := by
  intro v2 hv2
  obtain ⟨v1, hv1, ha1⟩ := h2 v2 hv2
  obtain ⟨v, hv, ha⟩ := h1 v1 hv1
  exact ⟨v, hv, advanced_trans v v1 v2 ha ha1⟩

theorem ballots_kept_refl (t : tally_t) : ballots_kept t t :=
  fun v hv => ⟨v, hv, advanced_refl v⟩

theorem ballots_kept_trans (t t1 t2 : tally_t) (h1 : ballots_kept t t1)
    (h2 : ballots_kept t1 t2) : ballots_kept t t2 := by
  intro v hv
  obtain ⟨v1, hv1, ha1⟩ := h1 v hv
  obtain ⟨v2, hv2, ha2⟩ := h2 v1 hv1
  exact ⟨v2, hv2, advanced_trans v v1 v2 ha1 ha2⟩

theorem getElem?_set_cases {α : Type} (l : List α) (i n : Nat) (a x : α)
    (h : (l.set i a)[n]? = some x) : (n = i ∧ x = a) ∨ (n ≠ i ∧ l[n]? = some x) := by
  by_cases hin : i = n
  · subst hin
    left
    have hlt : i < l.length := by
      have := (List.getElem?_eq_some.1 h).1
      simpa using this
    rw [List.getElem?_set_self hlt] at h
    exact ⟨rfl, (Option.some.inj h).symm⟩
  · right
    rw [List.getElem?_set_ne hin] at h
    exact ⟨fun e => hin e.symm, h⟩

/-- Every ballot in the tally after a transfer is a ballot of the tally before,
with the same id and ranking and a cursor that has not moved back. -/
theorem transfer_ballots_advanced (M : Nat) (t t1 : tally_t) (c : Int)
    (h : tally_transfer_first_vote M t c = some t1) : ballots_advanced t t1 := by
  obtain ⟨i, cd, hc, hi, hcase⟩ := transfer_some M t t1 c h
  rcases hcase with ⟨_, ht⟩ | ⟨curr, next, hv, _, hcase⟩
  · rw [ht]
    exact ballots_advanced_refl t
  · have hsub : ∀ v ∈ next, v ∈ ballots t := fun v hvn =>
      (mem_ballots t v).2 ⟨i, cd, hi, by rw [hv]; exact List.mem_cons_of_mem _ hvn⟩
    have hcurr : curr ∈ ballots t :=
      (mem_ballots t curr).2 ⟨i, cd, hi, by rw [hv]; exact List.mem_cons_self _ _⟩
    rcases hcase with ⟨_, ht⟩ | ⟨curr1, r, j, cdj, _, hnext, _, hj, ht⟩
    · rw [ht]
      intro v1 hv1
      obtain ⟨n, x, hn, hmem⟩ := (mem_ballots _ v1).1 hv1
      rcases getElem?_set_cases _ _ _ _ _ hn with ⟨_, hx⟩ | ⟨_, hx⟩
      · rw [hx] at hmem
        exact ⟨v1, hsub v1 hmem, advanced_refl v1⟩
      · exact ⟨v1, (mem_ballots t v1).2 ⟨n, x, hx, hmem⟩, advanced_refl v1⟩
    · rw [ht]
      have hadv : advanced curr curr1 := by
        obtain ⟨h1, h2, h3, _⟩ := vote_next_candidate_some M curr curr1 _ r hnext
        exact ⟨h2, h1, h3⟩
      have hcdj : ∀ v ∈ cdj.candidate_votes, v ∈ ballots t := by
        intro v hvj
        rcases getElem?_set_cases _ _ _ _ _ hj with ⟨_, hx⟩ | ⟨_, hx⟩
        · rw [hx] at hvj
          exact hsub v hvj
        · exact (mem_ballots t v).2 ⟨j, cdj, hx, hvj⟩
      intro v1 hv1
      obtain ⟨n, x, hn, hmem⟩ := (mem_ballots _ v1).1 hv1
      rcases getElem?_set_cases _ _ _ _ _ hn with ⟨_, hx⟩ | ⟨_, hx⟩
      · rw [hx] at hmem
        rcases List.mem_cons.1 hmem with he | hmem
        · rw [he]
          exact ⟨curr, hcurr, hadv⟩
        · exact ⟨v1, hcdj v1 hmem, advanced_refl v1⟩
      · rcases getElem?_set_cases _ _ _ _ _ hx with ⟨_, hy⟩ | ⟨_, hy⟩
        · rw [hy] at hmem
          exact ⟨v1, hsub v1 hmem, advanced_refl v1⟩
        · exact ⟨v1, (mem_ballots t v1).2 ⟨n, x, hy, hmem⟩, advanced_refl v1⟩

/-- In a well-formed tally every ballot is still in the tally after a transfer,
with the same id and ranking and a cursor that has not moved back. -/
theorem transfer_ballots_kept (M : Nat) (t t1 : tally_t) (c : Int) (hwf : well_formed t)
    (h : tally_transfer_first_vote M t c = some t1) : ballots_kept t t1 := by
  obtain ⟨i, cd, hc, hi, hcase⟩ := transfer_some M t t1 c h
  have hcd : row_ok i cd := (well_formed_iff t).1 hwf i cd hi
  have hilen : i < t.candidates.length := (List.getElem?_eq_some.1 hi).1
  rcases hcase with ⟨_, ht⟩ | ⟨curr, next, hv, _, hcase⟩
  · rw [ht]
    exact ballots_kept_refl t
  · have hcur : readAt curr.candidate_order curr.pos = some c := by
      rw [hc]
      exact hcd.2 curr (by rw [hv]; exact List.mem_cons_self _ _)
    rcases hcase with ⟨hne, _⟩ | ⟨curr1, r, j, cdj, _, hnext, _, hj, ht⟩
    · exact absurd hcur hne
    · rw [ht]
      have hjlen : j < (t.candidates.set i
          ⟨cd.candidate_status, next, cd.candidate_vote_counts - 1⟩).length :=
        (List.getElem?_eq_some.1 hj).1
      have hadv : advanced curr curr1 := by
        obtain ⟨h1, h2, h3, _⟩ := vote_next_candidate_some M curr curr1 _ r hnext
        exact ⟨h2, h1, h3⟩
      have hrowj : ((t.candidates.set i
          ⟨cd.candidate_status, next, cd.candidate_vote_counts - 1⟩).set j
          ⟨cdj.candidate_status, curr1 :: cdj.candidate_votes,
            cdj.candidate_vote_counts + 1⟩)[j]?
          = some ⟨cdj.candidate_status, curr1 :: cdj.candidate_votes,
            cdj.candidate_vote_counts + 1⟩ := List.getElem?_set_self hjlen
      -- the ballots left in the source row are in the new tally
      have hnext_in : ∀ v ∈ next, v ∈ ballots
          ⟨(t.candidates.set i ⟨cd.candidate_status, next, cd.candidate_vote_counts - 1⟩).set j
            ⟨cdj.candidate_status, curr1 :: cdj.candidate_votes,
              cdj.candidate_vote_counts + 1⟩, t.invalid_votes, t.invalid_vote_count⟩ := by
        intro v hvn
        by_cases hji : j = i
        · refine (mem_ballots _ v).2 ⟨j, _, hrowj, ?_⟩
          have hcdj : cdj = ⟨cd.candidate_status, next, cd.candidate_vote_counts - 1⟩ := by
            rw [hji, List.getElem?_set_self hilen] at hj
            exact (Option.some.inj hj).symm
          rw [hcdj]
          exact List.mem_cons_of_mem _ hvn
        · refine (mem_ballots _ v).2 ⟨i, ⟨cd.candidate_status, next,
            cd.candidate_vote_counts - 1⟩, ?_, hvn⟩
          show ((t.candidates.set i _).set j _)[i]? = _
          rw [List.getElem?_set_ne hji, List.getElem?_set_self hilen]
      intro v hvt
      obtain ⟨n, x, hn, hmem⟩ := (mem_ballots t v).1 hvt
      by_cases hni : n = i
      · have hx : x = cd := by
          rw [hni, hi] at hn
          exact (Option.some.inj hn).symm
        rw [hx, hv] at hmem
        rcases List.mem_cons.1 hmem with he | hmem
        · rw [he]
          exact ⟨curr1, (mem_ballots _ curr1).2 ⟨j, _, hrowj, List.mem_cons_self _ _⟩, hadv⟩
        · exact ⟨v, hnext_in v hmem, advanced_refl v⟩
      · by_cases hnj : n = j
        · have hx : cdj = x := by
            rw [← hnj, List.getElem?_set_ne (fun e => hni e.symm), hn] at hj
            exact (Option.some.inj hj).symm
          refine ⟨v, (mem_ballots _ v).2 ⟨j, _, hrowj, ?_⟩, advanced_refl v⟩
          rw [hx]
          exact List.mem_cons_of_mem _ hmem
        · refine ⟨v, (mem_ballots _ v).2 ⟨n, x, ?_, hmem⟩, advanced_refl v⟩
          show ((t.candidates.set i _).set j _)[n]? = _
          rw [List.getElem?_set_ne (fun e => hnj e.symm),
            List.getElem?_set_ne (fun e => hni e.symm)]
          exact hn

theorem set_status_ballots (t : tally_t) (i : Nat) (s : cand_status) :
    ballots (set_status t i s) = ballots t := by
  unfold set_status
  cases hi : t.candidates[i]? with
  | none => rfl
  | some cd =>
    unfold ballots
    exact congrArg List.flatten
      (map_set_same candidate_t.candidate_votes t.candidates i cd
        ⟨s, cd.candidate_votes, cd.candidate_vote_counts⟩ hi rfl)

theorem transfer_loop_ballots (M : Nat) (i : Int) :
    ∀ (count : Nat) (t t1 : tally_t), transfer_loop M i count t = some t1 →
      ballots_advanced t t1 ∧ (well_formed t → ballots_kept t t1) := by
  intro count
  induction count with
  | zero =>
    intro t t1 h
    simp only [transfer_loop, Option.some.injEq] at h
    subst h
    exact ⟨ballots_advanced_refl t, fun _ => ballots_kept_refl t⟩
  | succ count ih =>
    intro t t1 h
    unfold transfer_loop at h
    cases hs : tally_transfer_first_vote M t i with
    | none => simp [hs] at h
    | some t2 =>
      simp only [hs] at h
      obtain ⟨h1, h2⟩ := ih t2 t1 h
      exact ⟨ballots_advanced_trans t t2 t1 (transfer_ballots_advanced M t t2 i hs) h1,
        fun hwf => ballots_kept_trans t t2 t1 (transfer_ballots_kept M t t2 i hwf hs)
          (h2 (transfer_well_formed M t t2 i hwf hs))⟩

theorem drop_loop_ballots (M : Nat) :
    ∀ (idx : List Nat) (t t1 : tally_t), drop_loop M idx t = some t1 →
      ballots_advanced t t1 ∧ (well_formed t → ballots_kept t t1) := by
  intro idx
  induction idx with
  | nil =>
    intro t t1 h
    simp only [drop_loop, Option.some.injEq] at h
    subst h
    exact ⟨ballots_advanced_refl t, fun _ => ballots_kept_refl t⟩
  | cons i rest ih =>
    intro t t1 h
    unfold drop_loop at h
    cases hi : t.candidates[i]? with
    | none => simp [hi] at h
    | some cd =>
      simp only [hi] at h
      by_cases hm : cd.candidate_status = CAND_MINVOTES
      · rw [if_pos hm] at h
        cases hl : transfer_loop M (i : Int) M t with
        | none => simp [hl] at h
        | some t2 =>
          simp only [hl] at h
          obtain ⟨a1, a2⟩ := transfer_loop_ballots M i M t t2 hl
          obtain ⟨b1, b2⟩ := ih _ t1 h
          have hwf2 : well_formed t → well_formed (set_status t2 i CAND_DROPPED) := fun hwf =>
            (set_status_keeps t2 i CAND_DROPPED).2.2.2
              ((transfer_loop_keeps M i M t t2 hl).2.2.2.2 hwf)
          constructor
          · intro v1 hv1
            obtain ⟨v2, hv2, ha2⟩ := b1 v1 hv1
            rw [set_status_ballots] at hv2
            obtain ⟨v, hv, ha⟩ := a1 v2 hv2
            exact ⟨v, hv, advanced_trans v v2 v1 ha ha2⟩
          · intro hwf v hv
            obtain ⟨v2, hv2, ha2⟩ := a2 hwf v hv
            rw [← set_status_ballots t2 i CAND_DROPPED] at hv2
            obtain ⟨v1, hv1, ha1⟩ := b2 (hwf2 hwf) v2 hv2
            exact ⟨v1, hv1, advanced_trans v v2 v1 ha2 ha1⟩
      · rw [if_neg hm] at h
        exact ih t t1 h

/-- Claim C22. The cursor of a ballot only moves forward and its ranking and id
never change: whenever `vote_next_candidate` returns, the ballot it returns has
the id and the ranking of the ballot it was given and a cursor that is not
before the cursor it was given; and whenever `tally_transfer_first_vote` or
`tally_drop_minvote_candidates` returns, every ballot of the tally after the call
is a ballot of the tally before the call with the same id, the same ranking and
a cursor that has not moved back, and in a well-formed tally every ballot of the
tally before the call is still there after it, in that sense. -/
theorem C22_cursor_forward (MAX_CANDIDATES : Nat) :
    (∀ (vote vote1 : vote_t) (candidate_status : List cand_status) (r : Int),
        vote_next_candidate MAX_CANDIDATES vote candidate_status = some (vote1, r) →
        vote1.id = vote.id ∧ vote1.candidate_order = vote.candidate_order ∧
          vote.pos ≤ vote1.pos) ∧
      (∀ (tally tally1 : tally_t) (c : Int),
        tally_transfer_first_vote MAX_CANDIDATES tally c = some tally1 →
        ballots_advanced tally tally1 ∧ (well_formed tally → ballots_kept tally tally1)) ∧
      (∀ (tally tally1 : tally_t),
        tally_drop_minvote_candidates MAX_CANDIDATES tally = some tally1 →
        ballots_advanced tally tally1 ∧ (well_formed tally → ballots_kept tally tally1)) := by
  refine ⟨?_, ?_, ?_⟩
  · intro vote vote1 st r h
    obtain ⟨h1, h2, h3, _⟩ := vote_next_candidate_some MAX_CANDIDATES vote vote1 st r h
    exact ⟨h2, h1, h3⟩
  · intro t t1 c h
    exact ⟨transfer_ballots_advanced MAX_CANDIDATES t t1 c h,
      fun hwf => transfer_ballots_kept MAX_CANDIDATES t t1 c hwf h⟩
  · intro t t1 h
    exact drop_loop_ballots MAX_CANDIDATES _ t t1 h

/-- The claim C22 at the ballot 2 of `transfer_example`, whose cursor goes from
position 0 to position 2, and at the tally `transfer_example` across a transfer
out of candidate 2 and across `tally_drop_minvote_candidates`. -/
theorem C22_cursor_forward_witness :
    vote_next_candidate 4 ⟨2, 0, [2, 1, 0, -1]⟩ transfer_example.candidate_status
        = some (⟨2, 2, [2, 1, 0, -1]⟩, 0) ∧
      advanced ⟨2, 0, [2, 1, 0, -1]⟩ ⟨2, 2, [2, 1, 0, -1]⟩ ∧
      tally_transfer_first_vote 4 transfer_example 2 = some transfer_example_done ∧
      well_formed transfer_example ∧
      ballots_advanced transfer_example transfer_example_done ∧
      ballots_kept transfer_example transfer_example_done ∧
      tally_drop_minvote_candidates 4 transfer_example = some transfer_example_dropped ∧
      ballots_advanced transfer_example transfer_example_dropped ∧
      ballots_kept transfer_example transfer_example_dropped :=
  ⟨by decide,
    (C22_cursor_forward 4).1 ⟨2, 0, [2, 1, 0, -1]⟩ ⟨2, 2, [2, 1, 0, -1]⟩
      transfer_example.candidate_status 0 (by decide),
    by decide, by decide,
    ((C22_cursor_forward 4).2.1 transfer_example transfer_example_done 2 (by decide)).1,
    ((C22_cursor_forward 4).2.1 transfer_example transfer_example_done 2 (by decide)).2
      (by decide),
    by decide,
    ((C22_cursor_forward 4).2.2 transfer_example transfer_example_dropped (by decide)).1,
    ((C22_cursor_forward 4).2.2 transfer_example transfer_example_dropped (by decide)).2
      (by decide)⟩

/-! ## Complete ballots are never exhausted -/

theorem complete_length (n : Nat) (v : vote_t) (h : complete_ballot n v) :
    n ≤ v.candidate_order.length := by
  have hl := h.length_eq
  simp only [List.length_take, List.length_map, List.length_range] at hl
  omega

theorem complete_entry (n : Nat) (v : vote_t) (h : complete_ballot n v) (j : Nat) (hj : j < n) :
    ∃ x : Nat, v.candidate_order[j]? = some (x : Int) ∧ x < n := by
  have hlen := complete_length n v h
  have hjl : j < v.candidate_order.length := by omega
  have hmem : v.candidate_order[j] ∈ v.candidate_order.take n := by
    rw [List.mem_iff_getElem?]
    refine ⟨j, ?_⟩
    rw [List.getElem?_take, if_pos hj, List.getElem?_eq_getElem hjl]
  have hmem2 := h.mem_iff.1 hmem
  obtain ⟨k, hk, hkx⟩ := List.mem_map.1 hmem2
  refine ⟨k, ?_, List.mem_range.1 hk⟩
  rw [List.getElem?_eq_getElem hjl, hkx]

theorem complete_position (n : Nat) (v : vote_t) (h : complete_ballot n v) (a : Nat)
    (ha : a < n) : ∃ p : Nat, p < n ∧ v.candidate_order[p]? = some (a : Int) := by
  have hmem : (a : Int) ∈ (List.range n).map fun (k : Nat) => (k : Int) :=
    List.mem_map.2 ⟨a, List.mem_range.2 ha, rfl⟩
  have hmem2 := h.mem_iff.2 hmem
  obtain ⟨p, hp⟩ := List.mem_iff_getElem?.1 hmem2
  rw [List.getElem?_take] at hp
  by_cases hpn : p < n
  · rw [if_pos hpn] at hp
    exact ⟨p, hpn, hp⟩
  · rw [if_neg hpn] at hp
    cases hp

/-- In a complete ranking, after a position that is before the position of an
active candidate, there is a first position holding an active candidate. -/
theorem first_active (n : Nat) (v : vote_t) (st : List cand_status) (h : complete_ballot n v)
    (hst : st.length = n) (pos p a : Nat) (hp : p < n) (hpos : pos < p)
    (hpa : v.candidate_order[p]? = some (a : Int)) (hact : st[a]? = some CAND_ACTIVE) :
    ∃ (k d : Nat), pos + 1 + k < n ∧
      (∀ j, j < k → ∃ x s, v.candidate_order[pos + 1 + j]? = some x ∧
        readAt st x = some s ∧ s ≠ CAND_ACTIVE) ∧
      v.candidate_order[pos + 1 + k]? = some (d : Int) ∧ st[d]? = some CAND_ACTIVE := by
  classical
  have hex : ∃ q, ∃ d : Nat, v.candidate_order[pos + 1 + q]? = some (d : Int) ∧
      st[d]? = some CAND_ACTIVE := by
    refine ⟨p - pos - 1, a, ?_, hact⟩
    have : pos + 1 + (p - pos - 1) = p := by omega
    rw [this]
    exact hpa
  have hle : Nat.find hex ≤ p - pos - 1 := by
    apply Nat.find_min'
    refine ⟨a, ?_, hact⟩
    have : pos + 1 + (p - pos - 1) = p := by omega
    rw [this]
    exact hpa
  obtain ⟨d, hd, hdact⟩ := Nat.find_spec hex
  refine ⟨Nat.find hex, d, by omega, ?_, hd, hdact⟩
  intro j hj
  have hjn : pos + 1 + j < n := by omega
  obtain ⟨x, hx, hxn⟩ := complete_entry n v h (pos + 1 + j) hjn
  have hxs : x < st.length := by omega
  refine ⟨(x : Int), st[x], hx, ?_, ?_⟩
  · rw [readAt_ofNat, List.getElem?_eq_getElem hxs]
  · intro hs
    apply Nat.find_min hex hj
    refine ⟨x, hx, ?_⟩
    rw [List.getElem?_eq_getElem hxs, hs]

/-- A ballot that satisfies `ballot_inv` and has its cursor on a candidate that
is not active finds an active candidate below position `n`, as soon as there is
an active candidate at all. -/
theorem call_stops (M n : Nat) (v : vote_t) (st : List cand_status) (hinv : ballot_inv n st v)
    (hst : st.length = n) (hM : n ≤ M) (c : Nat) (s : cand_status)
    (hc : readAt v.candidate_order v.pos = some (c : Int)) (hs : st[c]? = some s)
    (hsn : s ≠ CAND_ACTIVE) (a : Nat) (ha : st[a]? = some CAND_ACTIVE) :
    ∃ (k : Nat) (d : Int), v.pos + 1 + (k : Int) < (n : Int) ∧
      (∀ j, j < k → ∃ x s, readAt v.candidate_order (v.pos + 1 + (j : Int)) = some x ∧
        readAt st x = some s ∧ s ≠ CAND_ACTIVE) ∧
      readAt v.candidate_order (v.pos + 1 + (k : Int)) = some d ∧
      readAt st d = some CAND_ACTIVE ∧
      vote_next_candidate M v st
        = some (⟨v.id, v.pos + 1 + (k : Int), v.candidate_order⟩, d) := by
  obtain ⟨hcomp, hpos0, hposn, hpre⟩ := hinv
  obtain ⟨pos, hposeq, hcn⟩ := readAt_some_nat hc
  have han : a < n := by
    have := (List.getElem?_eq_some.1 ha).1
    omega
  have hcn2 : c < n := by
    have := (List.getElem?_eq_some.1 hs).1
    omega
  obtain ⟨p, hpn, hpa⟩ := complete_position n v hcomp a han
  have hpp : pos < p := by
    rcases Nat.lt_trichotomy p pos with hlt | heq | hgt
    · exfalso
      obtain ⟨x, s1, hx, hs1, hne⟩ := hpre p (by omega)
      rw [hpa] at hx
      have hxa : x = (a : Int) := (Option.some.inj hx).symm
      rw [hxa, readAt_ofNat, ha] at hs1
      exact hne (Option.some.inj hs1).symm
    · exfalso
      rw [heq, hcn] at hpa
      have hca : c = a := by
        have := Option.some.inj hpa
        omega
      rw [hca, ha] at hs
      exact hsn (Option.some.inj hs).symm
    · exact hgt
  obtain ⟨k, d, hkn, hskip, hd, hdact⟩ := first_active n v st hcomp hst pos p a hpn hpp hpa ha
  have hidx : ∀ j : Nat, readAt v.candidate_order (v.pos + 1 + (j : Int))
      = v.candidate_order[pos + 1 + j]? := by
    intro j
    have : v.pos + 1 + (j : Int) = ((pos + 1 + j : Nat) : Int) := by
      rw [hposeq]
      push_cast
      rfl
    rw [this, readAt_ofNat]
  have hskip2 : ∀ j, j < k → ∃ x s, readAt v.candidate_order (v.pos + 1 + (j : Int)) = some x ∧
      readAt st x = some s ∧ s ≠ CAND_ACTIVE := by
    intro j hj
    obtain ⟨x, s1, hx, hs1, hne⟩ := hskip j hj
    exact ⟨x, s1, by rw [hidx]; exact hx, hs1, hne⟩
  have hd2 : readAt v.candidate_order (v.pos + 1 + (k : Int)) = some (d : Int) := by
    rw [hidx]
    exact hd
  have hdact2 : readAt st (d : Int) = some CAND_ACTIVE := by
    rw [readAt_ofNat]
    exact hdact
  refine ⟨k, (d : Int), by omega, hskip2, hd2, hdact2, ?_⟩
  refine vote_next_candidate_found M v st (c : Int) (d : Int) k hc ⟨?_, ?_⟩ hskip2 hd2 hdact2
  · unfold NO_CANDIDATE
    omega
  · omega

/-- The ballot that `vote_next_candidate` returns in the situation of
`call_stops` satisfies `ballot_inv` again. -/
theorem ballot_inv_step (n : Nat) (v : vote_t) (st : List cand_status) (hinv : ballot_inv n st v)
    (c : Nat) (s : cand_status) (hc : readAt v.candidate_order v.pos = some (c : Int))
    (hs : st[c]? = some s) (hsn : s ≠ CAND_ACTIVE) (k : Nat)
    (hkn : v.pos + 1 + (k : Int) < (n : Int))
    (hskip : ∀ j, j < k → ∃ x s, readAt v.candidate_order (v.pos + 1 + (j : Int)) = some x ∧
      readAt st x = some s ∧ s ≠ CAND_ACTIVE) :
    ballot_inv n st ⟨v.id, v.pos + 1 + (k : Int), v.candidate_order⟩ := by
  obtain ⟨hcomp, hpos0, hposn, hpre⟩ := hinv
  obtain ⟨pos, hposeq, hcn⟩ := readAt_some_nat hc
  refine ⟨hcomp, ?_, hkn, ?_⟩
  · show 0 ≤ v.pos + 1 + (k : Int)
    omega
  · intro j hj
    have hj2 : (j : Int) < v.pos + 1 + (k : Int) := hj
    show ∃ x s, v.candidate_order[j]? = some x ∧ readAt st x = some s ∧ s ≠ CAND_ACTIVE
    rcases Nat.lt_trichotomy j pos with hlt | heq | hgt
    · exact hpre j (by omega)
    · refine ⟨(c : Int), s, ?_, ?_, hsn⟩
      · rw [heq]
        exact hcn
      · rw [readAt_ofNat]
        exact hs
    · obtain ⟨x, s1, hx, hs1, hne⟩ := hskip (j - pos - 1) (by omega)
      refine ⟨x, s1, ?_, hs1, hne⟩
      have : v.pos + 1 + ((j - pos - 1 : Nat) : Int) = (j : Int) := by omega
      rw [this, readAt_ofNat] at hx
      exact hx

theorem ballot_inv_mono (n : Nat) (st st1 : List cand_status) (v : vote_t)
    (hinv : ballot_inv n st v)
    (hst : ∀ (x : Int) (s : cand_status), readAt st x = some s → s ≠ CAND_ACTIVE →
      ∃ s1, readAt st1 x = some s1 ∧ s1 ≠ CAND_ACTIVE) : ballot_inv n st1 v := by
  obtain ⟨hcomp, hpos0, hposn, hpre⟩ := hinv
  refine ⟨hcomp, hpos0, hposn, ?_⟩
  intro j hj
  obtain ⟨x, s, hx, hs, hne⟩ := hpre j hj
  obtain ⟨s1, hs1, hne1⟩ := hst x s hs hne
  exact ⟨x, s1, hx, hs1, hne1⟩

/-- Where a ballot of the tally after a transfer comes from: it was in the
tally before, or it is what `vote_next_candidate` made of the front ballot of
the source row. -/
theorem transfer_ballots_source (M : Nat) (t t1 : tally_t) (c : Int)
    (h : tally_transfer_first_vote M t c = some t1) :
    ∀ v1 ∈ ballots t1, v1 ∈ ballots t ∨
      ∃ (i : Nat) (cd : candidate_t) (curr : vote_t) (next : List vote_t) (r : Int),
        c = (i : Int) ∧ t.candidates[i]? = some cd ∧ cd.candidate_votes = curr :: next ∧
        vote_next_candidate M curr t.candidate_status = some (v1, r) := by
  obtain ⟨i, cd, hc, hi, hcase⟩ := transfer_some M t t1 c h
  rcases hcase with ⟨_, ht⟩ | ⟨curr, next, hv, _, hcase⟩
  · rw [ht]
    exact fun v1 hv1 => Or.inl hv1
  · have hsub : ∀ v ∈ next, v ∈ ballots t := fun v hvn =>
      (mem_ballots t v).2 ⟨i, cd, hi, by rw [hv]; exact List.mem_cons_of_mem _ hvn⟩
    rcases hcase with ⟨_, ht⟩ | ⟨curr1, r, j, cdj, _, hnext, _, hj, ht⟩
    · rw [ht]
      intro v1 hv1
      left
      obtain ⟨n, x, hn, hmem⟩ := (mem_ballots _ v1).1 hv1
      rcases getElem?_set_cases _ _ _ _ _ hn with ⟨_, hx⟩ | ⟨_, hx⟩
      · rw [hx] at hmem
        exact hsub v1 hmem
      · exact (mem_ballots t v1).2 ⟨n, x, hx, hmem⟩
    · rw [ht]
      have hcdj : ∀ v ∈ cdj.candidate_votes, v ∈ ballots t := by
        intro v hvj
        rcases getElem?_set_cases _ _ _ _ _ hj with ⟨_, hx⟩ | ⟨_, hx⟩
        · rw [hx] at hvj
          exact hsub v hvj
        · exact (mem_ballots t v).2 ⟨j, cdj, hx, hvj⟩
      intro v1 hv1
      obtain ⟨n, x, hn, hmem⟩ := (mem_ballots _ v1).1 hv1
      rcases getElem?_set_cases _ _ _ _ _ hn with ⟨_, hx⟩ | ⟨_, hx⟩
      · rw [hx] at hmem
        rcases List.mem_cons.1 hmem with he | hmem
        · right
          rw [he]
          exact ⟨i, cd, curr, next, r, hc, hi, hv, hnext⟩
        · exact Or.inl (hcdj v1 hmem)
      · left
        rcases getElem?_set_cases _ _ _ _ _ hx with ⟨_, hy⟩ | ⟨_, hy⟩
        · rw [hy] at hmem
          exact hsub v1 hmem
        · exact (mem_ballots t v1).2 ⟨n, x, hy, hmem⟩

theorem candidate_status_length (t : tally_t) : t.candidate_status.length = t.candidates.length := by
  unfold tally_t.candidate_status
  exact List.length_map _ _

theorem candidate_status_row (t : tally_t) (c : Nat) (s : cand_status)
    (h : t.candidate_status[c]? = some s) :
    ∃ cd, t.candidates[c]? = some cd ∧ cd.candidate_status = s := by
  unfold tally_t.candidate_status at h
  rw [List.getElem?_map] at h
  cases hc : t.candidates[c]? with
  | none => simp [hc] at h
  | some cd =>
    rw [hc] at h
    exact ⟨cd, rfl, Option.some.inj h⟩

/-- Under `election_inv`, a transfer out of a candidate that is not active,
while some candidate is active, returns, keeps `election_inv` and the statuses,
and its call of `vote_next_candidate` (if it makes one) stops at an active
candidate. -/
theorem transfer_inv (M n : Nat) (t : tally_t) (hinv : election_inv n t) (hM : n ≤ M)
    (c : Nat) (s : cand_status) (hs : t.candidate_status[c]? = some s) (hsn : s ≠ CAND_ACTIVE)
    (a : Nat) (ha : t.candidate_status[a]? = some CAND_ACTIVE) :
    ∃ t1, tally_transfer_first_vote M t (c : Int) = some t1 ∧ election_inv n t1 ∧
      t1.candidate_status = t.candidate_status ∧
      ∀ call ∈ transfer_calls t (c : Int), stops_at_active M n call := by
  obtain ⟨hlen, hwf, hball⟩ := hinv
  obtain ⟨cd, hrow, hcds⟩ := candidate_status_row t c s hs
  have hstlen : t.candidate_status.length = n := by
    rw [candidate_status_length, hlen]
  by_cases h0 : cd.candidate_vote_counts = 0
  · refine ⟨t, ?_, ⟨hlen, hwf, hball⟩, rfl, ?_⟩
    · simp only [tally_transfer_first_vote, readAt_ofNat, hrow, if_pos h0]
    · intro call hcall
      simp only [transfer_calls, readAt_ofNat, hrow, if_pos h0, List.not_mem_nil] at hcall
  · have hrowok : row_ok c cd := (well_formed_iff t).1 hwf c cd hrow
    cases hvotes : cd.candidate_votes with
    | nil =>
      exfalso
      apply h0
      rw [hrowok.1, hvotes]
      rfl
    | cons curr next =>
      have hcurmem : curr ∈ cd.candidate_votes := by
        rw [hvotes]
        exact List.mem_cons_self _ _
      have hcur : readAt curr.candidate_order curr.pos = some (c : Int) := hrowok.2 curr hcurmem
      have hcinv : ballot_inv n t.candidate_status curr :=
        hball curr ((mem_ballots t curr).2 ⟨c, cd, hrow, hcurmem⟩)
      obtain ⟨k, d, hkn, hskip, hd, hdact, hfound⟩ :=
        call_stops M n curr t.candidate_status hcinv hstlen hM c s hcur hs hsn a ha
      obtain ⟨t1, ht1⟩ := transfer_returns M t c k d cd curr next hrow hvotes hrowok hskip hd hdact
      have hst1 : t1.candidate_status = t.candidate_status :=
        transfer_candidate_status M t t1 (c : Int) ht1
      refine ⟨t1, ht1, ⟨?_, transfer_well_formed M t t1 (c : Int) hwf ht1, ?_⟩, hst1, ?_⟩
      · rw [← candidate_status_length, hst1, hstlen]
      · intro v1 hv1
        rw [hst1]
        rcases transfer_ballots_source M t t1 (c : Int) ht1 v1 hv1 with hold | hnew
        · exact hball v1 hold
        · obtain ⟨i, cd2, curr2, next2, r, hci, hi, hv2, hnext⟩ := hnew
          have hic : i = c := by omega
          rw [hic, hrow] at hi
          have hcd2 : cd2 = cd := (Option.some.inj hi).symm
          rw [hcd2, hvotes] at hv2
          have hcurr2 : curr2 = curr := (List.cons.inj hv2).1.symm
          rw [hcurr2, hfound] at hnext
          have hv1eq : v1 = ⟨curr.id, curr.pos + 1 + (k : Int), curr.candidate_order⟩ :=
            (Prod.mk.inj (Option.some.inj hnext)).1.symm
          rw [hv1eq]
          exact ballot_inv_step n curr t.candidate_status hcinv c s hcur hs hsn k hkn hskip
      · intro call hcall
        have hstat : (t.candidates.set c ⟨cd.candidate_status, next,
            cd.candidate_vote_counts⟩).map candidate_t.candidate_status = t.candidate_status :=
          map_set_same candidate_t.candidate_status t.candidates c cd _ hrow rfl
        simp only [transfer_calls, readAt_ofNat, hrow, if_neg h0, hvotes, hcur, if_true,
          Int.toNat_ofNat, List.mem_singleton, tally_t.candidate_status] at hcall
        rw [hstat] at hcall
        rw [hcall]
        unfold stops_at_active
        refine ⟨hstlen, ?_⟩
        simp only [hfound]
        refine ⟨hdact, hd, ?_, hkn⟩
        show curr.pos < curr.pos + 1 + (k : Int)
        omega

theorem transfer_loop_inv (M n : Nat) (hM : n ≤ M) (c : Nat) (s : cand_status)
    (hsn : s ≠ CAND_ACTIVE) (a : Nat) :
    ∀ (count : Nat) (t : tally_t), election_inv n t → t.candidate_status[c]? = some s →
      t.candidate_status[a]? = some CAND_ACTIVE →
      ∃ t1, transfer_loop M (c : Int) count t = some t1 ∧ election_inv n t1 ∧
        t1.candidate_status = t.candidate_status ∧
        ∀ call ∈ transfer_loop_calls M (c : Int) count t, stops_at_active M n call := by
  intro count
  induction count with
  | zero =>
    intro t hinv _ _
    refine ⟨t, rfl, hinv, rfl, ?_⟩
    intro call hcall
    simp only [transfer_loop_calls, List.not_mem_nil] at hcall
  | succ count ih =>
    intro t hinv hs ha
    obtain ⟨t2, ht2, hinv2, hst2, hcalls2⟩ := transfer_inv M n t hinv hM c s hs hsn a ha
    obtain ⟨t1, ht1, hinv1, hst1, hcalls1⟩ :=
      ih t2 hinv2 (by rw [hst2]; exact hs) (by rw [hst2]; exact ha)
    refine ⟨t1, ?_, hinv1, hst1.trans hst2, ?_⟩
    · simp only [transfer_loop, ht2]
      exact ht1
    · intro call hcall
      simp only [transfer_loop_calls, ht2, List.mem_append] at hcall
      rcases hcall with hcall | hcall
      · exact hcalls2 call hcall
      · exact hcalls1 call hcall

theorem set_status_inv (n : Nat) (t : tally_t) (i : Nat) (hinv : election_inv n t) :
    election_inv n (set_status t i CAND_DROPPED) := by
  obtain ⟨hlen, hwf, hball⟩ := hinv
  have hst := set_status_candidate_status t i CAND_DROPPED
  refine ⟨?_, (set_status_keeps t i CAND_DROPPED).2.2.2 hwf, ?_⟩
  · rw [← candidate_status_length, hst, List.length_set, candidate_status_length, hlen]
  · intro v hv
    rw [set_status_ballots] at hv
    apply ballot_inv_mono n t.candidate_status _ v (hball v hv)
    intro x s hs hne
    obtain ⟨m, hxm, hm⟩ := readAt_some_nat hs
    rw [hst, hxm, readAt_ofNat, List.getElem?_set]
    by_cases him : i = m
    · rw [if_pos him]
      have hlt : i < t.candidate_status.length := by
        rw [him]
        exact (List.getElem?_eq_some.1 hm).1
      rw [if_pos hlt]
      refine ⟨CAND_DROPPED, rfl, ?_⟩
      decide
    · rw [if_neg him]
      exact ⟨s, hm, hne⟩

theorem drop_loop_inv (M n : Nat) (hM : n ≤ M) (a : Nat) :
    ∀ (idx : List Nat) (t : tally_t), (∀ i ∈ idx, i < n) → election_inv n t →
      t.candidate_status[a]? = some CAND_ACTIVE →
      ∃ t1, drop_loop M idx t = some t1 ∧ election_inv n t1 ∧
        ∀ call ∈ drop_loop_calls M idx t, stops_at_active M n call := by
  intro idx
  induction idx with
  | nil =>
    intro t _ hinv _
    refine ⟨t, rfl, hinv, ?_⟩
    intro call hcall
    simp only [drop_loop_calls, List.not_mem_nil] at hcall
  | cons i rest ih =>
    intro t hidx hinv ha
    have hin : i < t.candidates.length := by
      rw [hinv.1]
      exact hidx i (List.mem_cons_self _ _)
    have hrest : ∀ j ∈ rest, j < n := fun j hj => hidx j (List.mem_cons_of_mem _ hj)
    have hrow : t.candidates[i]? = some t.candidates[i] := List.getElem?_eq_getElem hin
    by_cases hm : t.candidates[i].candidate_status = CAND_MINVOTES
    · have hs : t.candidate_status[i]? = some CAND_MINVOTES := by
        unfold tally_t.candidate_status
        rw [List.getElem?_map, hrow, Option.map_some', hm]
      obtain ⟨t2, ht2, hinv2, hst2, hcalls2⟩ :=
        transfer_loop_inv M n hM i CAND_MINVOTES (by decide) a M t hinv hs ha
      have hai : i ≠ a := by
        intro hia
        rw [hia, ha] at hs
        cases hs
      have ha3 : (set_status t2 i CAND_DROPPED).candidate_status[a]? = some CAND_ACTIVE := by
        rw [set_status_candidate_status, List.getElem?_set_ne hai, hst2]
        exact ha
      obtain ⟨t1, ht1, hinv1, hcalls1⟩ :=
        ih (set_status t2 i CAND_DROPPED) hrest (set_status_inv n t2 i hinv2) ha3
      refine ⟨t1, ?_, hinv1, ?_⟩
      · simp only [drop_loop, hrow, if_pos hm, ht2]
        exact ht1
      · intro call hcall
        simp only [drop_loop_calls, hrow, if_pos hm, ht2, List.mem_append] at hcall
        rcases hcall with hcall | hcall
        · exact hcalls2 call hcall
        · exact hcalls1 call hcall
    · obtain ⟨t1, ht1, hinv1, hcalls1⟩ := ih t hrest hinv ha
      refine ⟨t1, ?_, hinv1, ?_⟩
      · simp only [drop_loop, hrow, if_neg hm]
        exact ht1
      · intro call hcall
        simp only [drop_loop_calls, hrow, if_neg hm] at hcall
        exact hcalls1 call hcall

theorem set_minvote_inv (n : Nat) (t : tally_t) (hinv : election_inv n t) :
    election_inv n (tally_set_minvote_candidates t) := by
  obtain ⟨hlen, hwf, hball⟩ := hinv
  refine ⟨?_, (set_minvote_keeps t).2.2.2 hwf, ?_⟩
  · show (t.candidates.map _).length = n
    rw [List.length_map, hlen]
  · have hb : ballots (tally_set_minvote_candidates t) = ballots t := by
      unfold ballots tally_set_minvote_candidates
      simp only [List.map_map]
      congr 1
      apply List.map_congr_left
      intro cd _
      simp only [Function.comp]
      split <;> rfl
    intro v hv
    rw [hb] at hv
    apply ballot_inv_mono n t.candidate_status _ v (hball v hv)
    intro x s hs hne
    obtain ⟨m, hxm, hm⟩ := readAt_some_nat hs
    obtain ⟨cd, hcd, hcds⟩ := candidate_status_row t m s hm
    rw [hxm, readAt_ofNat]
    unfold tally_set_minvote_candidates tally_t.candidate_status
    simp only [List.getElem?_map, hcd, Option.map_some']
    by_cases hmin : cd.candidate_vote_counts = min_vote_loop t.candidates 999
    · rw [if_pos hmin]
      refine ⟨CAND_MINVOTES, rfl, ?_⟩
      decide
    · rw [if_neg hmin]
      exact ⟨cd.candidate_status, rfl, by rw [hcds]; exact hne⟩

theorem continue_has_active (t : tally_t) (h : tally_condition t = TALLY_CONTINUE) :
    ∃ a : Nat, t.candidate_status[a]? = some CAND_ACTIVE := by
  rw [tally_condition_eq] at h
  have hpos : 0 < active_count t := by
    by_cases h0 : ¬ statuses_valid t
    · rw [if_pos h0] at h
      cases h
    · rw [if_neg h0] at h
      by_cases h1 : active_count t = 1
      · omega
      · rw [if_neg h1] at h
        by_cases h2 : active_count t > 1
        · omega
        · rw [if_neg h2] at h
          by_cases h3 : minvotes_count t > 1
          · rw [if_pos h3] at h
            cases h
          · rw [if_neg h3] at h
            cases h
  unfold active_count at hpos
  exact List.mem_iff_getElem?.1 (List.count_pos_iff.1 hpos)

theorem election_loop_inv (M n : Nat) (hM : n ≤ M) :
    ∀ (fuel round : Nat) (t : tally_t), election_inv n t →
      election_loop M fuel round t ≠ election_run.undefined ∧
        ∀ call ∈ election_calls M fuel t, stops_at_active M n call := by
  intro fuel
  induction fuel with
  | zero =>
    intro round t _
    constructor
    · unfold election_loop
      split <;> simp
    · intro call hcall
      simp only [election_calls, List.not_mem_nil] at hcall
  | succ fuel ih =>
    intro round t hinv
    by_cases hc : tally_condition t = TALLY_CONTINUE
    · obtain ⟨a, ha⟩ := continue_has_active t hc
      have hidx : ∀ i ∈ List.range t.candidate_count, i < n := by
        intro i hi
        have := List.mem_range.1 hi
        unfold tally_t.candidate_count at this
        rw [hinv.1] at this
        exact this
      obtain ⟨t2, ht2, hinv2, hcalls2⟩ :=
        drop_loop_inv M n hM a (List.range t.candidate_count) t hidx hinv ha
      have hround : election_round M t = some (tally_set_minvote_candidates t2) := by
        unfold election_round tally_drop_minvote_candidates
        rw [ht2]
        rfl
      obtain ⟨h1, hcalls1⟩ := ih (round + 1) (tally_set_minvote_candidates t2)
        (set_minvote_inv n t2 hinv2)
      constructor
      · simp only [election_loop, if_pos hc, hround]
        exact h1
      · intro call hcall
        simp only [election_calls, if_pos hc, hround, List.mem_append] at hcall
        rcases hcall with hcall | hcall
        · exact hcalls2 call hcall
        · exact hcalls1 call hcall
    · constructor
      · simp only [election_loop, if_neg hc]
        simp
      · intro call hcall
        simp only [election_calls, if_neg hc, List.not_mem_nil] at hcall

theorem fresh_inv (t : tally_t) (h : fresh_tally t) : election_inv t.candidate_count t := by
  obtain ⟨hwf, _, hball⟩ := h
  refine ⟨rfl, hwf, ?_⟩
  intro v hv
  obtain ⟨hpos, hcomp⟩ := hball v hv
  obtain ⟨i, cd, hi, _⟩ := (mem_ballots t v).1 hv
  have hlt : i < t.candidates.length := (List.getElem?_eq_some.1 hi).1
  refine ⟨hcomp, by omega, ?_, ?_⟩
  · rw [hpos]
    unfold tally_t.candidate_count
    omega
  · intro j hj
    omega

/-- Claim C23. Complete ballots are never exhausted: take a freshly ingested
well-formed tally (every candidate active, every cursor on position 0) of `N`
candidates, `N` at most `MAX_CANDIDATES`, in which the ranking of every ballot
lists each of the `N` candidates exactly once. Then, however many rounds
`tally_election` is allowed, it never reads or writes out of bounds, and every
call of `vote_next_candidate` made by a transfer during these rounds is given a
status array of `N` entries, reads only inside its arrays, and stops with the
cursor moved forward to a ranking position below `N` that holds an active
candidate. -/
theorem C23_complete_never_exhausted (MAX_CANDIDATES : Nat) (tally : tally_t)
    (hfresh : fresh_tally tally) (hmax : tally.candidate_count ≤ MAX_CANDIDATES) (fuel : Nat) :
    tally_election MAX_CANDIDATES fuel tally ≠ election_run.undefined ∧
      ∀ call ∈ election_calls MAX_CANDIDATES fuel tally,
        stops_at_active MAX_CANDIDATES tally.candidate_count call :=
  election_loop_inv MAX_CANDIDATES tally.candidate_count hmax fuel 0 tally (fresh_inv tally hfresh)

/-- The claim C23 at `scenario_a_tie`: its election makes one call of
`vote_next_candidate`, for the ballot 6 of candidate 2, which stops at
candidate 1. -/
theorem C23_complete_never_exhausted_witness :
    fresh_tally scenario_a_tie ∧ scenario_a_tie.candidate_count ≤ 4 ∧
      election_calls 4 10 scenario_a_tie
        = [(⟨6, 0, [2, 1, 0, 3, -1]⟩,
            [CAND_ACTIVE, CAND_ACTIVE, CAND_MINVOTES, CAND_DROPPED])] ∧
      vote_next_candidate 4 ⟨6, 0, [2, 1, 0, 3, -1]⟩
          [CAND_ACTIVE, CAND_ACTIVE, CAND_MINVOTES, CAND_DROPPED]
        = some (⟨6, 1, [2, 1, 0, 3, -1]⟩, 1) ∧
      tally_election 4 10 scenario_a_tie ≠ election_run.undefined ∧
      ∀ call ∈ election_calls 4 10 scenario_a_tie,
        stops_at_active 4 scenario_a_tie.candidate_count call :=
  ⟨by decide, by decide, by decide, by decide,
    C23_complete_never_exhausted 4 scenario_a_tie (by decide) (by decide) 10⟩

end RCV
